import Mathlib

/-!
The tango pattern router and request pipeline.

A shallow embedding of `mux.go` and `handler.go`.

Go strings are byte sequences; a string is a list of byte values (`Nat`), and the
byte literals of the source are written as their ASCII codes
(`'/'` = 47, `':'` = 58, `'_'` = 95, `'?'` = 63, `'#'` = 35).
-/

namespace Tango

/-- A Go `string`: its bytes, in order. -/
abbrev Str := List Nat

/-- The bytes of an ASCII literal of the source. -/
def ascii (s : String) : Str := s.toList.map Char.toNat

/-- Go's `url.Values` (`map[string][]string`): an association list from key to the
values stored under it. A `nil` map and an empty map are both the empty list. -/
abbrev Values := List (Str × List Str)

namespace Values

/-- Map index `v[key]`: the values stored under `key`, empty when the key is absent. -/
def lookup : Values → Str → List Str
  | [], _ => []
  | (k, vs) :: rest, key => if k = key then vs else lookup rest key

/-- Go's `func (v Values) Add(key, value string) { v[key] = append(v[key], value) }`. -/
def Add : Values → Str → Str → Values
  | [], key, value => [(key, [value])]
  | (k, vs) :: rest, key, value =>
    if k = key then (k, vs ++ [value]) :: rest else (k, vs) :: Add rest key value

/-- Number of values stored in the map, over all keys. -/
def total (v : Values) : Nat := (v.map (fun kv => kv.2.length)).sum

end Values

/-! ## Segment matcher (`mux.go`, lines 222-249) -/

/-- `isAlpha` of `mux.go`. -/
def isAlpha (ch : Nat) : Bool :=
  (97 ≤ ch && ch ≤ 122) || (65 ≤ ch && ch ≤ 90) || ch == 95

/-- `isDigit` of `mux.go`. -/
def isDigit (ch : Nat) : Bool := 48 ≤ ch && ch ≤ 57

/-- `isAlnum` of `mux.go`. -/
def isAlnum (ch : Nat) : Bool := isAlpha ch || isDigit ch

/-- `matchPart` of `mux.go`: the classifier `c != b && c != '/'`. -/
def matchPart (b : Nat) : Nat → Bool := fun c => c != b && c != 47

/-- The loop `for j < len(s) && f(s[j]) { j++ }` of `match`, run for at most `fuel`
iterations from cursor `j`. It returns the cursor at which the loop condition failed,
or the cursor reached when the fuel ran out. -/
def matchLoop (s : Str) (f : Nat → Bool) : Nat → Nat → Nat
  | 0, j => j
  | fuel + 1, j =>
    match s[j]? with
    | some c => if f c then matchLoop s f fuel (j + 1) else j
    | none => j

/-- The slice expression `s[i:j]`; `none` stands for the runtime panic Go raises when
the bounds are not `i <= j <= len(s)`. -/
def slice (s : Str) (i j : Nat) : Option Str :=
  if i ≤ j ∧ j ≤ s.length then some ((s.drop i).take (j - i)) else none

/-- `match` of `mux.go`: `(matched, next, j)`. The loop is given `len(s) - i` iterations,
which is every iteration it can make; `none` is the panic of an out-of-range slice. -/
def match_ (s : Str) (f : Nat → Bool) (i : Nat) : Option (Str × Nat × Nat) :=
  let j := matchLoop s f (s.length - i) i
  let next := match s[j]? with
    | some c => c
    | none => 0
  match slice s i j with
  | some matched => some (matched, next, j)
  | none => none

/-! ## `patHandler.try` (`mux.go`, lines 193-220) -/

/-- What a call of `try` can end in. -/
inductive TryResult where
  /-- `return p, true` -/
  | matched (p : Values)
  /-- `return nil, false` -/
  | failed
  /-- a runtime panic (index or slice out of range) -/
  | indexPanic
  /-- the iteration bound of the model was reached before the loop ended -/
  | fuelOut
  deriving DecidableEq, Repr

/-- The local variables of `try` at the head of its loop. -/
structure TryState where
  i : Nat
  j : Nat
  p : Values
  deriving DecidableEq, Repr

/-- One evaluation of the loop head and body of `try`. -/
inductive TryStep where
  /-- the body fell through to the next iteration -/
  | next (st : TryState)
  /-- the function returned or panicked -/
  | stop (r : TryResult)
  deriving DecidableEq, Repr

/-- One iteration of `for i < len(path) { switch { ... } }` followed, when the loop
condition fails, by the code after the loop. -/
def tryStep (pat path : Str) (st : TryState) : TryStep :=
  if st.i < path.length then
    if st.j ≥ pat.length then
      if pat ≠ [47] ∧ pat.length > 0 ∧ pat[pat.length - 1]? = some 47 then
        .stop (.matched st.p)
      else .stop .failed
    else
      match pat[st.j]?, path[st.i]? with
      | some pc, some sc =>
        if pc = 58 then
          match match_ pat isAlnum (st.j + 1) with
          | none => .stop .indexPanic
          | some (name, nextc, j') =>
            match match_ path (matchPart nextc) st.i with
            | none => .stop .indexPanic
            | some (val, _, i') => .next ⟨i', j', st.p.Add (58 :: name) val⟩
        else if sc = pc then .next ⟨st.i + 1, st.j + 1, st.p⟩
        else .stop .failed
      | _, _ => .stop .indexPanic
  else if st.j ≠ pat.length then .stop .failed
  else .stop (.matched st.p)

/-- The loop of `try`, run for at most `fuel` evaluations of its head. -/
def tryLoop (pat path : Str) : Nat → TryState → TryResult
  | 0, _ => .fuelOut
  | fuel + 1, st =>
    match tryStep pat path st with
    | .next st' => tryLoop pat path fuel st'
    | .stop r => r

/-- `p := make(url.Values); var i, j int`. -/
def tryInit : TryState := ⟨0, 0, []⟩

/-- `patHandler.try`: every iteration that continues advances `j`, so `len(pat) + 1`
evaluations of the loop head are all the loop can make (`try_ne_fuelOut`). -/
def try_ (pat path : Str) : TryResult := tryLoop pat path (pat.length + 1) tryInit

/-! ## Derived quantities used to state the properties -/

/-- The byte `match` returns as `next`: the one at the cursor where the scan stopped,
zero at the end of the string. -/
def nextByte (l : Str) : Nat :=
  match l with
  | [] => 0
  | c :: _ => c

/-- The name `match(ph.pat, isAlnum, j+1)` reads for the variable whose `':'` is at `j`. -/
def varName (pat : Str) (j : Nat) : Str := (pat.drop (j + 1)).takeWhile isAlnum

/-- The byte `nextc` that follows that name in the pattern, zero when the name ends it. -/
def varNext (pat : Str) (j : Nat) : Nat := nextByte ((pat.drop (j + 1)).dropWhile isAlnum)

/-- The value `match(path, matchPart(nextc), i)` reads at path cursor `i`. -/
def varValue (pat path : Str) (i j : Nat) : Str :=
  (path.drop i).takeWhile (matchPart (varNext pat j))

/-- Both cursors are inside their strings. -/
def inBounds (pat path : Str) (st : TryState) : Prop :=
  st.i ≤ path.length ∧ st.j ≤ pat.length

/-! ## A pattern as a sequence of literal bytes and variable occurrences -/

/-- A piece of a pattern read left to right: a literal byte, or a variable occurrence,
that is `':'` followed by its maximal run of letters, digits and underscores. -/
inductive Token where
  | lit (c : Nat)
  | var (name : Str)
  deriving DecidableEq, Repr

/-- The pieces of a pattern, with fuel for one piece per byte. -/
def tokensAux : Nat → Str → List Token
  | 0, _ => []
  | _ + 1, [] => []
  | fuel + 1, c :: rest =>
    if c = 58 then .var (rest.takeWhile isAlnum) :: tokensAux fuel (rest.dropWhile isAlnum)
    else .lit c :: tokensAux fuel rest

/-- The pieces of a pattern; every piece takes at least one byte, so `len(pat)` pieces
are all there can be (`tokens_cons`). -/
def tokens (pat : Str) : List Token := tokensAux pat.length pat

/-- The names of the variable occurrences, left to right. -/
def tokenNames : List Token → List Str
  | [] => []
  | .lit _ :: ts => tokenNames ts
  | .var n :: ts => n :: tokenNames ts

/-- The names of the variable occurrences of a pattern, left to right. -/
def varNames (pat : Str) : List Str := tokenNames (tokens pat)

/-- The pieces with the `k`-th variable occurrence replaced by the `k`-th value of `vs`. -/
def fill : List Token → List Str → Str
  | [], _ => []
  | .lit c :: ts, vs => c :: fill ts vs
  | .var _ :: ts, [] => fill ts []
  | .var _ :: ts, v :: vs => v ++ fill ts vs

/-- The pieces with each variable occurrence replaced by the value a lookup table holds
for it: the `k`-th occurrence of a name takes the `k`-th value under `":" ++ name`. -/
def fillFrom : List Token → (Str → List Str) → Str
  | [], _ => []
  | .lit c :: ts, tab => c :: fillFrom ts tab
  | .var n :: ts, tab =>
    (tab (58 :: n)).headD [] ++
      fillFrom ts (fun k => if k = 58 :: n then (tab k).tail else tab k)

/-- The pattern with each variable occurrence replaced, left to right, by the value the
mapping `vals` holds for that occurrence. -/
def substitute (pat : Str) (vals : Values) : Str := fillFrom (tokens pat) vals.lookup

/-- The mapping after `Add`ing the pairs in order. -/
def recordAll (init : Values) (pairs : List (Str × Str)) : Values :=
  pairs.foldl (fun v kv => v.Add kv.1 kv.2) init

/-- The values of the pairs filed under `key`, in order. -/
def valuesUnder (key : Str) (pairs : List (Str × Str)) : List Str :=
  (pairs.filter (fun kv => kv.1 = key)).map (fun kv => kv.2)

/-- The condition under which `try` accepts a path longer than what the pattern
consumed: `ph.pat != "/" && len(ph.pat) > 0 && ph.pat[len(ph.pat)-1] == '/'`. -/
def prefixRule (pat : Str) : Prop :=
  pat ≠ [47] ∧ pat.length > 0 ∧ pat[pat.length - 1]? = some 47

/-- The keys `":" ++ name` under which the variable occurrences are recorded. -/
def tokenKeys (ts : List Token) : List Str := (tokenNames ts).map (fun n => 58 :: n)

/-- The relation between a loop state of `try` and the part of the pattern already
processed: the processed pieces `done`, filled with the values `R` recorded so far, are
the path read so far, and the mapping holds exactly those values. -/
def Captured (pat path : Str) (st : TryState) : Prop :=
  st.i ≤ path.length ∧ st.j ≤ pat.length ∧
  ∃ (done : List Token) (R : List Str),
    tokens pat = done ++ tokens (pat.drop st.j) ∧
    R.length = (tokenNames done).length ∧
    st.p = recordAll [] ((tokenKeys done).zip R) ∧
    fill done R = path.take st.i

/-! ## The standard library and the parts of the package outside `mux.go` and `handler.go` -/

/-- The functions of Go's standard library that the code calls and that are kept
abstract, together with the settings the code reads. -/
structure Lib where
  /-- `url.Parse(urlStr)`: `none` when it returns an error, otherwise the scheme `u.Scheme`. -/
  urlParse : Str → Option Str
  /-- `r.URL.Query()`: the query values parsed from the raw query string. -/
  parseQuery : Str → Values
  /-- `html.EscapeString`. -/
  htmlEscape : Str → Str
  /-- `http.StatusText`. -/
  statusText : Nat → Str
  /-- `strings.ToUpper`. -/
  toUpper : Str → Str
  /-- `fmt.Sprintf("%q", rec)`: the description of a recovered panic value. -/
  describe : Str → Str
  /-- The content type `NewHttpResponse` gives a response that names none. -/
  defaultContentType : Str

/-- The fields of `url.URL` the code reads. -/
structure URL where
  Path : Str
  RawQuery : Str
  Fragment : Str
  deriving DecidableEq, Repr

/-- The fields of `http.Request` the code reads. -/
structure Request where
  Method : Str
  URL : URL
  RequestURI : Str
  RemoteAddr : Str
  deriving DecidableEq, Repr

/-- Modelled from the spec: the request value object `HttpRequest` (declared outside
`mux.go` and `handler.go`), the raw request together with the extracted variables. -/
structure HttpRequest where
  RawRequest : Request
  PathParams : Values
  deriving DecidableEq, Repr

/-- Modelled from the spec: `NewHttpRequest(r, params)` wraps the raw request and the
variables extracted by the router. -/
def NewHttpRequest (r : Request) (params : Values) : HttpRequest := ⟨r, params⟩

/-- Modelled from the spec: the response value `HttpResponse` (declared outside `mux.go`
and `handler.go`): status code, header mapping, content type and body string. -/
structure HttpResponse where
  Content : Str
  StatusCode : Nat
  ContentType : Str
  Header : Values
  deriving DecidableEq, Repr

/-- Modelled from the spec: `NewHttpResponse(content, status, contentType)` builds a
response with no headers. -/
def NewHttpResponse (content : Str) (status : Nat) (contentType : Str) : HttpResponse :=
  ⟨content, status, contentType, []⟩

/-- Modelled from the spec: `NewHttpResponse()` without arguments: empty body, "default
status 200 unless set otherwise", the default content type. -/
def NewHttpResponse0 (lib : Lib) : HttpResponse :=
  NewHttpResponse [] 200 lib.defaultContentType

/-- Modelled from the spec: `response.AddHeader(key, value)` adds a value to the header
mapping of the response. -/
def HttpResponse.AddHeader (response : HttpResponse) (key value : Str) : HttpResponse :=
  { response with Header := response.Header.Add key value }

/-- `shortHttpReturn` of `handler.go`. -/
def shortHttpReturn (lib : Lib) (code : Nat) : HttpResponse :=
  NewHttpResponse (lib.statusText code) code (ascii "text/plain")

/-- `HttpResponseNotAllowed` of `handler.go` (`http.StatusMethodNotAllowed` is 405). -/
def HttpResponseNotAllowed (lib : Lib) : HttpResponse := shortHttpReturn lib 405

/-- `HttpResponseServerError` of `handler.go` (`http.StatusInternalServerError` is 500). -/
def HttpResponseServerError (lib : Lib) : HttpResponse := shortHttpReturn lib 500

/-! ## `path.Split` and `path.Clean` of the standard library -/

/-- The directory part of `path.Split`: the path up to and including its final `'/'`,
empty when it has none. -/
def pathSplitDir (p : Str) : Str := (p.reverse.dropWhile (fun c => c != 47)).reverse

/-- The backward scan of `path.Clean` on a `..` element:
`for out.w > dotdot && out.index(out.w) != '/' { out.w-- }`, from write position `w`. -/
def cleanBacktrack (out : Str) (dotdot : Nat) : Nat → Nat
  | 0 => 0
  | w + 1 => if w + 1 > dotdot ∧ out[w + 1]? ≠ some 47 then cleanBacktrack out dotdot w else w + 1

/-- The local variables of the loop of `path.Clean`: read position, the bytes written so
far (`out.w` is their number), and the write position `..` may not backtrack past. -/
structure CleanState where
  r : Nat
  out : Str
  dotdot : Nat
  deriving DecidableEq, Repr

/-- One iteration of the loop `for r < n { switch { ... } }` of `path.Clean`. -/
def cleanStep (path : Str) (rooted : Bool) (st : CleanState) : CleanState :=
  let n := path.length
  if path[st.r]? = some 47 then
    { st with r := st.r + 1 }
  else if path[st.r]? = some 46 ∧ (st.r + 1 = n ∨ path[st.r + 1]? = some 47) then
    { st with r := st.r + 1 }
  else if path[st.r]? = some 46 ∧ path[st.r + 1]? = some 46 ∧
      (st.r + 2 = n ∨ path[st.r + 2]? = some 47) then
    if st.out.length > st.dotdot then
      { st with r := st.r + 2,
                out := st.out.take (cleanBacktrack st.out st.dotdot (st.out.length - 1)) }
    else if !rooted then
      let out1 := if st.out.length > 0 then st.out ++ [47] else st.out
      let out2 := out1 ++ [46, 46]
      { r := st.r + 2, out := out2, dotdot := out2.length }
    else
      { st with r := st.r + 2 }
  else
    let out1 :=
      if (rooted ∧ st.out.length ≠ 1) ∨ (!rooted ∧ st.out.length ≠ 0) then st.out ++ [47]
      else st.out
    let elem := (path.drop st.r).takeWhile (fun c => c != 47)
    { st with r := st.r + elem.length, out := out1 ++ elem }

/-- The loop of `path.Clean`, with fuel for one iteration per byte. -/
def cleanLoop (path : Str) (rooted : Bool) : Nat → CleanState → CleanState
  | 0, st => st
  | fuel + 1, st =>
    if st.r < path.length then cleanLoop path rooted fuel (cleanStep path rooted st) else st

/-- Go's `path.Clean`: the shortest path equivalent to `path` by lexical processing. -/
def pathClean (path : Str) : Str :=
  if path = [] then [46]
  else
    let rooted := path[0]? = some 47
    let st0 : CleanState := if rooted then ⟨1, [47], 1⟩ else ⟨0, [], 0⟩
    let st := cleanLoop path rooted path.length st0
    if st.out.length = 0 then [46] else st.out

/-! ## Redirects (`handler.go`, lines 67-117) -/

/-- The target normalisation of `BaseHandler.redirect` (lines 76-103): the string that
ends up in the `Location` header. `none` is the runtime panic of indexing an empty
string at `len(urlStr)-1`. -/
def redirectTarget (lib : Lib) (r : Request) (urlStr : Str) : Option Str :=
  match lib.urlParse urlStr with
  | none => some urlStr
  | some scheme =>
    let oldpath := if r.URL.Path = [] then [47] else r.URL.Path
    if scheme = [] then
      let urlStr1 :=
        if urlStr = [] ∨ urlStr[0]? ≠ some 47 then pathSplitDir oldpath ++ urlStr else urlStr
      let i := urlStr1.indexOf 63
      let urlStr2 := if i < urlStr1.length then urlStr1.take i else urlStr1
      let query := if i < urlStr1.length then urlStr1.drop i else []
      match urlStr2[urlStr2.length - 1]? with
      | none => none
      | some last =>
        let trailing := last = 47
        let urlStr3 := pathClean urlStr2
        if trailing then
          match urlStr3[urlStr3.length - 1]? with
          | none => none
          | some last3 =>
            if last3 ≠ 47 then some (urlStr3 ++ [47] ++ query) else some (urlStr3 ++ query)
        else some (urlStr3 ++ query)
    else some urlStr

/-- `BaseHandler.redirect` of `handler.go`; `none` is a runtime panic. -/
def redirect (lib : Lib) (r : Request) (urlStr : Str) (code : Nat) : Option HttpResponse :=
  match redirectTarget lib r urlStr with
  | none => none
  | some target =>
    let response := { (NewHttpResponse0 lib).AddHeader (ascii "Location") target with
                      StatusCode := code }
    if r.Method = ascii "GET" then
      some { response with
             Content := ascii "<a href=\"" ++ lib.htmlEscape target ++ ascii "\">" ++
               lib.statusText code ++ ascii "</a>.\n" }
    else some response

/-- `BaseHandler.PermanentRedirect` (`http.StatusMovedPermanently` is 301). -/
def PermanentRedirect (lib : Lib) (request : HttpRequest) (urlStr : Str) : Option HttpResponse :=
  redirect lib request.RawRequest urlStr 301

/-- `BaseHandler.TemporaryRedirect` (`http.StatusTemporaryRedirect` is 307). -/
def TemporaryRedirect (lib : Lib) (request : HttpRequest) (urlStr : Str) : Option HttpResponse :=
  redirect lib request.RawRequest urlStr 307

/-- `buildUrlWithSlash` of `mux.go`. -/
def buildUrlWithSlash (lib : Lib) (r : Request) : Str :=
  let result := r.URL.Path ++ [47]
  let result1 :=
    if (lib.parseQuery r.URL.RawQuery).length ≠ 0 then result ++ [63] ++ r.URL.RawQuery
    else result
  if r.URL.Fragment.length ≠ 0 then result1 ++ [35] ++ r.URL.Fragment else result1

/-! ## Handlers and the routing table -/

/-- What a call into user code ends in: a returned value, or a panic carrying a value;
either way with the state of the program (`σ`) it leaves behind. -/
inductive Outcome (σ α : Type) where
  | ret (a : α) (s : σ)
  | fault (v : Str) (s : σ)
  deriving DecidableEq, Repr

/-- `HandlerInterface`: the methods `processRequest` calls on a handler instance.
`Prepare` has the use `mux.go` makes of it (`prepResp := handler.Prepare(request)`, a
response or `nil`). Every method may change the program state and may panic. `Finish`
is handed its response by pointer (`Finish(r *HttpRequest, response *HttpResponse)`): it
may write to it, so it yields the contents of that response after the call (also when it
panics) next to its outcome. -/
structure HandlerInterface (σ : Type) where
  Head : HttpRequest → σ → Outcome σ HttpResponse
  Get : HttpRequest → σ → Outcome σ HttpResponse
  Post : HttpRequest → σ → Outcome σ HttpResponse
  Put : HttpRequest → σ → Outcome σ HttpResponse
  Patch : HttpRequest → σ → Outcome σ HttpResponse
  Delete : HttpRequest → σ → Outcome σ HttpResponse
  Options : HttpRequest → σ → Outcome σ HttpResponse
  Prepare : HttpRequest → σ → Outcome σ (Option HttpResponse)
  Finish : HttpRequest → HttpResponse → σ → HttpResponse × Outcome σ Unit
  ErrorHandler : Str → σ → Outcome σ HttpResponse

/-- `BaseHandler` of `handler.go`: 405 for every method, hooks that do nothing, 500 from
the error handler. -/
def BaseHandler (σ : Type) (lib : Lib) : HandlerInterface σ where
  Head := fun _ s => .ret (HttpResponseNotAllowed lib) s
  Get := fun _ s => .ret (HttpResponseNotAllowed lib) s
  Post := fun _ s => .ret (HttpResponseNotAllowed lib) s
  Put := fun _ s => .ret (HttpResponseNotAllowed lib) s
  Patch := fun _ s => .ret (HttpResponseNotAllowed lib) s
  Delete := fun _ s => .ret (HttpResponseNotAllowed lib) s
  Options := fun _ s => .ret (HttpResponseNotAllowed lib) s
  Prepare := fun _ s => .ret none s
  Finish := fun _ response s => (response, .ret () s)
  ErrorHandler := fun _ s => .ret (HttpResponseServerError lib) s

/-- `NotFoundHandler` of `mux.go`: a `BaseHandler` whose `Get` answers 404. -/
def NotFoundHandler (σ : Type) (lib : Lib) : HandlerInterface σ :=
  { BaseHandler σ lib with
    Get := fun _ s =>
      .ret (NewHttpResponse (ascii "Page not found") 404 (ascii "text/plain")) s }

/-- `patHandler` of `mux.go`: a pattern, the handler prototype embedded in it, and the
slash-redirect flag. -/
structure patHandler (σ : Type) where
  pat : Str
  handler : HandlerInterface σ
  isSlashRedirect : Bool

/-- `ph.New()`: a fresh handler instance of the prototype. An instance is its method
set; whatever a method keeps between calls lives in the program state `σ`. -/
def patHandler.New {σ : Type} (ph : patHandler σ) : HandlerInterface σ := ph.handler

/-- `Pattern` of `mux.go`, on the table `Mux.handlers`; `appendSlash` is the value of
`Settings.Bool("append_slash", false)`. -/
def Pattern {σ : Type} (appendSlash : Bool) (handlers : List (patHandler σ)) (pat : Str)
    (h : HandlerInterface σ) : List (patHandler σ) :=
  let handlers1 := handlers ++ [⟨pat, h, false⟩]
  if appendSlash then
    let n := pat.length
    if n > 0 ∧ pat[n - 1]? = some 47 then handlers1 ++ [⟨pat.take (n - 1), h, true⟩]
    else handlers1
  else handlers1

/-! ## `patHandler.processRequest` (`mux.go`, lines 103-175) -/

/-- The call-in points of the package that live outside `mux.go` and `handler.go`,
taken as parameters. A response is handed over by pointer: post-processing may change
the response it is given, so it yields the contents of that response after the call
(also when it panics) next to its outcome. -/
structure Env (σ : Type) where
  runMixinPrepare : HandlerInterface σ → σ → Outcome σ Unit
  runMixinFinish : HandlerInterface σ → σ → Outcome σ Unit
  runMiddlewarePreprocess : HttpRequest → σ → Outcome σ (Option HttpResponse)
  runMiddlewarePostprocess : HttpRequest → HttpResponse → σ → HttpResponse × Outcome σ Unit

/-- The calls `processRequest` and its callers make, recorded in the order they are made
(a call that panics is recorded too). -/
inductive Event where
  | mixinPrepare
  | mixinFinish
  | preprocess (request : HttpRequest)
  | prepare (request : HttpRequest)
  | finish (request : HttpRequest) (response : HttpResponse)
  | method (name : Str) (request : HttpRequest)
  | errorHandler (errorStr : Str)
  | postprocess (request : HttpRequest) (response : HttpResponse)
  | logError (description : Str)
  | logInfo (status : Nat) (method uri addr : Str)
  deriving DecidableEq, Repr

/-- A finished computation: how it ended and the calls it made. -/
structure Run (σ α : Type) where
  result : Outcome σ α
  trace : List Event

/-- The inner function literal of `processRequest` at the moment its body stops, by
running to its end or by a panic: the program state, the calls made, the variable
`response`, the panic in flight, and the deferred calls registered so far
(`defer runMixinFinish(handler)`, and `defer handler.Finish(request, response)` with the
arguments it was registered with). `finishShares` says that the response registered for
`Finish` is the very object the variable `response` points to, so that what `Finish`
writes to its argument shows in `response`. -/
structure Frame (σ : Type) where
  s : σ
  trace : List Event
  response : HttpResponse
  panicking : Option Str
  mixinFinishDeferred : Bool
  finishDeferred : Option (HttpRequest × HttpResponse)
  finishShares : Bool

/-- The `switch strings.ToUpper(r.Method)` of `processRequest` (lines 142-167): the
response it assigns, or the panic of the method it called, and the calls it made. -/
def dispatchMethod {σ : Type} (lib : Lib) (handler : HandlerInterface σ) (method : Str)
    (request : HttpRequest) (s : σ) : Outcome σ HttpResponse × List Event :=
  let m := lib.toUpper method
  if m = ascii "HEAD" then
    match handler.Head request s with
    | .fault v s1 => (.fault v s1, [.method (ascii "HEAD") request])
    | .ret response s1 =>
      if response.StatusCode = 405 then
        match handler.Get request s1 with
        | .fault v s2 =>
          (.fault v s2, [.method (ascii "HEAD") request, .method (ascii "GET") request])
        | .ret getResp s2 =>
          if getResp.StatusCode = 200 then
            (.ret { getResp with Content := [] } s2,
              [.method (ascii "HEAD") request, .method (ascii "GET") request])
          else
            (.ret response s2,
              [.method (ascii "HEAD") request, .method (ascii "GET") request])
      else (.ret response s1, [.method (ascii "HEAD") request])
  else if m = ascii "GET" then (handler.Get request s, [.method (ascii "GET") request])
  else if m = ascii "POST" then (handler.Post request s, [.method (ascii "POST") request])
  else if m = ascii "PUT" then (handler.Put request s, [.method (ascii "PUT") request])
  else if m = ascii "PATCH" then (handler.Patch request s, [.method (ascii "PATCH") request])
  else if m = ascii "DELETE" then
    (handler.Delete request s, [.method (ascii "DELETE") request])
  else if m = ascii "OPTIONS" then
    (handler.Options request s, [.method (ascii "OPTIONS") request])
  else
    (handler.ErrorHandler (ascii "Unsupported HTTP Method") s,
      [.errorHandler (ascii "Unsupported HTTP Method")])

/-- Line 171, `runMiddlewarePostprocess(request, response)`, the last statement of the
body. `finishShares` says that the response registered for `Finish` is the very object
handed over here (the one `Prepare` returned); it then shows what post-processing did
to it. -/
def postPhase {σ : Type} (env : Env σ) (request : HttpRequest) (response : HttpResponse)
    (s : σ) (trace : List Event) (finishDeferred : Option (HttpRequest × HttpResponse))
    (finishShares : Bool) : Frame σ :=
  let after := env.runMiddlewarePostprocess request response s
  let finishDeferred1 :=
    if finishShares then finishDeferred.map (fun a => (a.1, after.1)) else finishDeferred
  match after.2 with
  | .fault v s1 =>
    ⟨s1, trace ++ [.postprocess request response], after.1, some v, true, finishDeferred1,
      finishShares⟩
  | .ret _ s1 =>
    ⟨s1, trace ++ [.postprocess request response], after.1, none, true, finishDeferred1,
      finishShares⟩

/-- Lines 141-171: method dispatch when the pipeline is not finished, then
post-processing. `response0` is the response registered for `Finish`: the variable
`response` still points to it when the method panics, and points to the response of the
method, another object, once the switch has assigned it. -/
def dispatchPhase {σ : Type} (lib : Lib) (env : Env σ) (handler : HandlerInterface σ)
    (r : Request) (request : HttpRequest) (response0 : HttpResponse) (s : σ)
    (trace : List Event) : Frame σ :=
  match dispatchMethod lib handler r.Method request s with
  | (.fault v s1, evs) =>
    ⟨s1, trace ++ evs, response0, some v, true, some (request, response0), true⟩
  | (.ret response s1, evs) =>
    postPhase env request response s1 (trace ++ evs) (some (request, response0)) false

/-- The body of the inner function literal of `processRequest` (lines 117-171), up to
the point where it stops. -/
def runBody {σ : Type} (lib : Lib) (env : Env σ) (handler : HandlerInterface σ)
    (r : Request) (params : Values) (s0 : σ) : Frame σ :=
  let response0 := NewHttpResponse0 lib
  let request := NewHttpRequest r params
  match env.runMixinPrepare handler s0 with
  | .fault v s1 => ⟨s1, [.mixinPrepare], response0, some v, false, none, false⟩
  | .ret _ s1 =>
    match env.runMiddlewarePreprocess request s1 with
    | .fault v s2 =>
      ⟨s2, [.mixinPrepare, .preprocess request], response0, some v, true, none, false⟩
    | .ret (some midResp) s2 =>
      postPhase env request midResp s2 [.mixinPrepare, .preprocess request] none false
    | .ret none s2 =>
      match handler.Prepare request s2 with
      | .fault v s3 =>
        ⟨s3, [.mixinPrepare, .preprocess request, .prepare request], response0, some v,
          true, none, false⟩
      | .ret (some prepResp) s3 =>
        postPhase env request prepResp s3
          [.mixinPrepare, .preprocess request, .prepare request]
          (some (request, prepResp)) true
      | .ret none s3 =>
        dispatchPhase lib env handler r request response0 s3
          [.mixinPrepare, .preprocess request, .prepare request]

/-- The deferred call `handler.Finish(request, response)`, when it was registered. A
panic of it becomes the panic in flight. When the response it was registered with is the
object the variable `response` points to, `response` shows what `Finish` left in it. -/
def runDeferredFinish {σ : Type} (handler : HandlerInterface σ) (f : Frame σ) : Frame σ :=
  match f.finishDeferred with
  | none => f
  | some (request, response) =>
    let after := handler.Finish request response f.s
    let response1 := if f.finishShares then after.1 else f.response
    match after.2 with
    | .ret _ s1 =>
      { f with s := s1, trace := f.trace ++ [.finish request response],
               response := response1 }
    | .fault v s1 =>
      { f with s := s1, trace := f.trace ++ [.finish request response],
               response := response1, panicking := some v }

/-- The deferred call `runMixinFinish(handler)`, when it was registered. -/
def runDeferredMixinFinish {σ : Type} (env : Env σ) (handler : HandlerInterface σ)
    (f : Frame σ) : Frame σ :=
  if f.mixinFinishDeferred then
    match env.runMixinFinish handler f.s with
    | .ret _ s1 => { f with s := s1, trace := f.trace ++ [.mixinFinish] }
    | .fault v s1 => { f with s := s1, trace := f.trace ++ [.mixinFinish], panicking := some v }
  else f

/-- The deferred closure of lines 110-115, which runs last: a panic in flight is
recovered, logged, and answered by `handler.ErrorHandler`; a panic of `ErrorHandler`
itself is not recovered and leaves `processRequest`. -/
def runRecover {σ : Type} (lib : Lib) (handler : HandlerInterface σ) (f : Frame σ) :
    Run σ HttpResponse :=
  match f.panicking with
  | none => ⟨.ret f.response f.s, f.trace⟩
  | some v =>
    ⟨handler.ErrorHandler (lib.describe v) f.s,
      f.trace ++ [.logError (lib.describe v), .errorHandler (lib.describe v)]⟩

/-- `patHandler.processRequest`: the body, then the deferred calls in reverse order of
registration, then `return response`. -/
def processRequest {σ : Type} (lib : Lib) (env : Env σ) (ph : patHandler σ) (r : Request)
    (params : Values) (s : σ) : Run σ HttpResponse :=
  let handler := ph.New
  runRecover lib handler
    (runDeferredMixinFinish env handler
      (runDeferredFinish handler (runBody lib env handler r params s)))

/-! ## Writing the response and `ServeHTTP` (`mux.go`, lines 38-55, 177-191, 251-260) -/

/-- What has been written to an `http.ResponseWriter`: the header map, the status line
and the body. -/
structure ResponseWriter where
  header : List (Str × Str)
  status : Option Nat
  body : Str
  deriving DecidableEq, Repr

/-- `w.Header().Set(key, value)`: the value replaces what the key held. -/
def setHeader : List (Str × Str) → Str → Str → List (Str × Str)
  | [], key, value => [(key, value)]
  | (k, v) :: rest, key, value =>
    if k = key then (k, value) :: rest else (k, v) :: setHeader rest key value

/-- `strings.Join(v, ",")`. -/
def joinComma : List Str → Str
  | [] => []
  | [a] => a
  | a :: b :: rest => a ++ [44] ++ joinComma (b :: rest)

/-- `writePatternResponse` of `mux.go`. -/
def writePatternResponse (response : HttpResponse) (w : ResponseWriter) : ResponseWriter :=
  let h1 := response.Header.foldl (fun h kv => setHeader h kv.1 (joinComma kv.2)) w.header
  let h2 := setHeader h1 (ascii "Content-Type") response.ContentType
  ⟨h2, some response.StatusCode, w.body ++ response.Content⟩

/-- `patHandler.ServeHandlerHttp`: process, write, log (the elapsed time is left out of
the log line). -/
def ServeHandlerHttp {σ : Type} (lib : Lib) (env : Env σ) (ph : patHandler σ)
    (w : ResponseWriter) (r : Request) (params : Values) (s : σ) : Run σ ResponseWriter :=
  let run := processRequest lib env ph r params s
  match run.result with
  | .fault v s1 => ⟨.fault v s1, run.trace⟩
  | .ret response s1 =>
    ⟨.ret (writePatternResponse response w) s1,
      run.trace ++
        [.logInfo response.StatusCode (lib.toUpper r.Method) r.RequestURI r.RemoteAddr]⟩

/-- The branch `if ph.isSlashRedirect { ... }` of `ServeHTTP`: the permanent redirect of
the base handler is written; a panic of `redirect` leaves `ServeHTTP`. -/
def serveSlashRedirect {σ : Type} (lib : Lib) (w : ResponseWriter) (r : Request)
    (params : Values) (s : σ) : Run σ ResponseWriter :=
  match PermanentRedirect lib (NewHttpRequest r params) (buildUrlWithSlash lib r) with
  | some resp => ⟨.ret (writePatternResponse resp w) s, []⟩
  | none => ⟨.fault (ascii "index out of range") s, []⟩

/-- `PatternServeMux.ServeHTTP` over the table `p.handlers`; `notFound` is the package
variable set by `SetNotFoundHandler`. A panic of `try` would leave `ServeHTTP`; neither
of the last two cases arises (`try_total`). -/
def ServeHTTP {σ : Type} (lib : Lib) (env : Env σ) (notFound : HandlerInterface σ) :
    List (patHandler σ) → ResponseWriter → Request → σ → Run σ ResponseWriter
  | [], w, r, s => ServeHandlerHttp lib env ⟨[], notFound, false⟩ w r [] s
  | ph :: rest, w, r, s =>
    match try_ ph.pat r.URL.Path with
    | .matched params =>
      if ph.isSlashRedirect then serveSlashRedirect lib w r params s
      else ServeHandlerHttp lib env ph w r params s
    | .failed => ServeHTTP lib env notFound rest w r s
    | .indexPanic => ⟨.fault (ascii "index out of range") s, []⟩
    | .fuelOut => ⟨.fault (ascii "index out of range") s, []⟩

/-- The value `w.Header().Get(key)` reads back from what was written. -/
def getHeader : List (Str × Str) → Str → Option Str
  | [], _ => none
  | (k, v) :: rest, key => if k = key then some v else getHeader rest key

/-- A `ResponseWriter` nothing has been written to. -/
def emptyWriter : ResponseWriter := ⟨[], none, []⟩

/-! ## Sample collaborators for the examples -/

/-- `html.EscapeString` on one byte. -/
def htmlEscapeByte (c : Nat) : Str :=
  if c = 38 then ascii "&amp;"
  else if c = 39 then ascii "&#39;"
  else if c = 60 then ascii "&lt;"
  else if c = 62 then ascii "&gt;"
  else if c = 34 then ascii "&#34;"
  else [c]

/-- A standard library for the examples, right on the inputs they use.
`urlParse` is `url.Parse` on targets without `':'`, `'%'`, control bytes or a leading
`"//"`: it accepts them and reports no scheme (any other target is reported as an error
here, and no example uses one). `parseQuery` reads a single `key=value` pair without
escapes. `toUpper` and `statusText` are right on ASCII and on the status codes listed. -/
def exampleLib : Lib where
  urlParse := fun u =>
    if u.all (fun c => c != 58 && c != 37 && 32 ≤ c && c != 127) && !(ascii "//").isPrefixOf u
    then some [] else none
  parseQuery := fun q =>
    if q = [] then [] else [(q.takeWhile (fun c => c != 61), [(q.dropWhile (fun c => c != 61)).drop 1])]
  htmlEscape := fun t => (t.map htmlEscapeByte).flatten
  statusText := fun code =>
    if code = 200 then ascii "OK"
    else if code = 301 then ascii "Moved Permanently"
    else if code = 307 then ascii "Temporary Redirect"
    else if code = 403 then ascii "Forbidden"
    else if code = 404 then ascii "Not Found"
    else if code = 405 then ascii "Method Not Allowed"
    else if code = 500 then ascii "Internal Server Error"
    else []
  toUpper := fun m => m.map (fun c => if 97 ≤ c ∧ c ≤ 122 then c - 32 else c)
  describe := fun v => [34] ++ v ++ [34]
  defaultContentType := ascii "text/html"

/-- An installation without mixins and without middleware: the four call-in points do
nothing. -/
def idleEnv (σ : Type) : Env σ where
  runMixinPrepare := fun _ s => .ret () s
  runMixinFinish := fun _ s => .ret () s
  runMiddlewarePreprocess := fun _ s => .ret none s
  runMiddlewarePostprocess := fun _ response s => (response, .ret () s)

/-- A raw request with the given method, path, raw query and fragment. -/
def mkRequest (method path query fragment : Str) : Request :=
  ⟨method, ⟨path, query, fragment⟩, path, []⟩

/-- The normal form the redirect helpers give a rooted target without scheme, in the
words of the specification: with `P` the target up to its first `'?'` and `Q` the rest,
it is `Clean(P)`, then `"/"` if `P` ends with `'/'` and `Clean(P)` does not, then `Q`. -/
def cleanTarget (t : Str) : Str :=
  let P := t.take (t.indexOf 63)
  let Q := t.drop (t.indexOf 63)
  pathClean P ++ (if P.getLast? = some 47 ∧ (pathClean P).getLast? ≠ some 47 then [47] else [])
    ++ Q

/-- The `Location` a slash redirect sends for a request: the request path followed by
`"/"`, query and fragment, normalised when `url.Parse` reads it as a target without
scheme and passed through as it is otherwise. -/
def slashRedirectLocation (lib : Lib) (r : Request) : Str :=
  match lib.urlParse (buildUrlWithSlash lib r) with
  | none => buildUrlWithSlash lib r
  | some scheme =>
    if scheme = [] then cleanTarget (buildUrlWithSlash lib r) else buildUrlWithSlash lib r

/-- The table after `Pattern("/blog/", h)` with `append_slash` on, `h` a base handler. -/
def blogTable : List (patHandler Unit) :=
  Pattern true [] (ascii "/blog/") (BaseHandler Unit exampleLib)

/-- The table after `Pattern("/:page/", h)` with `append_slash` on. -/
def pageTable : List (patHandler Unit) :=
  Pattern true [] (ascii "/:page/") (BaseHandler Unit exampleLib)

/-- The table after `Pattern(":x/", h)` with `append_slash` on. -/
def unrootedTable : List (patHandler Unit) :=
  Pattern true [] (ascii ":x/") (BaseHandler Unit exampleLib)

/-- The recorded call is a call of `handler.Finish`. -/
def isFinish : Event → Bool
  | .finish _ _ => true
  | _ => false

/-- A handler that implements only `Get`, answering 200 with a body, as `IndexHandler`
of `examples/notfound` does. -/
def helloHandler (σ : Type) (lib : Lib) : HandlerInterface σ :=
  { BaseHandler σ lib with
    Get := fun _ s => .ret (NewHttpResponse (ascii "Hello!") 200 (ascii "text/html")) s }

/-- A handler whose `Get` panics. -/
def boomHandler (σ : Type) (lib : Lib) : HandlerInterface σ :=
  { BaseHandler σ lib with Get := fun _ s => .fault (ascii "boom") s }

/-- The state at the head of the `n`-th iteration of the loop of `try` (counting from
zero), when the loop gets that far. -/
def loopHead (pat path : Str) : Nat → Option TryState
  | 0 => some tryInit
  | n + 1 =>
    match loopHead pat path n with
    | none => none
    | some st =>
      match tryStep pat path st with
      | .next st' => some st'
      | .stop _ => none

/-- The target resolved against the request (lines 77-88 of `handler.go`): the target
itself when it starts with `'/'`, otherwise the directory of the request path, with `"/"`
standing in for an empty request path, followed by the target. -/
def resolveTarget (r : Request) (urlStr : Str) : Str :=
  if urlStr = [] ∨ urlStr[0]? ≠ some 47 then
    pathSplitDir (if r.URL.Path = [] then [47] else r.URL.Path) ++ urlStr
  else urlStr

/-- The part of the resolved target before its first `'?'`: the string whose last byte
`redirect` inspects. -/
def targetPathPart (r : Request) (urlStr : Str) : Str :=
  (resolveTarget r urlStr).take ((resolveTarget r urlStr).indexOf 63)

/-- `PatternServeMux.ServeTestResponse` of `mux.go`: the response of the first accepting
entry, and `nil` (`none`) when no entry accepts. -/
def ServeTestResponse {σ : Type} (lib : Lib) (env : Env σ) :
    List (patHandler σ) → Request → σ → Run σ (Option HttpResponse)
  | [], _, s => ⟨.ret none s, []⟩
  | ph :: rest, r, s =>
    match try_ ph.pat r.URL.Path with
    | .matched params =>
      if ph.isSlashRedirect then
        match PermanentRedirect lib (NewHttpRequest r params) (buildUrlWithSlash lib r) with
        | some resp => ⟨.ret (some resp) s, []⟩
        | none => ⟨.fault (ascii "index out of range") s, []⟩
      else
        match (processRequest lib env ph r params s).result with
        | .ret response s1 =>
          ⟨.ret (some response) s1, (processRequest lib env ph r params s).trace⟩
        | .fault v s1 => ⟨.fault v s1, (processRequest lib env ph r params s).trace⟩
    | .failed => ServeTestResponse lib env rest r s
    | .indexPanic => ⟨.fault (ascii "index out of range") s, []⟩
    | .fuelOut => ⟨.fault (ascii "index out of range") s, []⟩

/-- The recorded call is a call of `runMiddlewarePostprocess`. -/
def isPostprocess : Event → Bool
  | .postprocess _ _ => true
  | _ => false

/-- The recorded call is a call of `handler.Prepare`. -/
def isPrepare : Event → Bool
  | .prepare _ => true
  | _ => false

/-- The recorded call is a call of one of the seven method handlers. -/
def isMethod : Event → Bool
  | .method _ _ => true
  | _ => false

/-- A handler whose `Prepare` answers 403 itself, which finishes the pipeline. -/
def prepHandler (σ : Type) (lib : Lib) : HandlerInterface σ :=
  { helloHandler σ lib with
    Prepare := fun _ s => .ret (some (shortHttpReturn lib 403)) s }

/-- The table of `examples/notfound`: `Pattern("/", &IndexHandler{})`, `append_slash`
off. -/
def indexTable : List (patHandler Unit) :=
  Pattern false [] (ascii "/") (helloHandler Unit exampleLib)

/-- An installation whose pre-processing answers every request itself, with 403. -/
def gateEnv (σ : Type) (lib : Lib) : Env σ :=
  { idleEnv σ with
    runMiddlewarePreprocess := fun _ s => .ret (some (shortHttpReturn lib 403)) s }

/-- An installation without mixins and without pre-processing whose post-processing
panics, leaving the response it was given as it was. -/
def brokenPostEnv (σ : Type) : Env σ :=
  { idleEnv σ with
    runMiddlewarePostprocess := fun _ response s => (response, .fault (ascii "post") s) }

/-- An installation whose pre-processing answers every request itself, with 403, and
whose post-processing panics. -/
def gateBrokenPostEnv (σ : Type) (lib : Lib) : Env σ :=
  { gateEnv σ lib with
    runMiddlewarePostprocess := fun _ response s => (response, .fault (ascii "post") s) }

/-- A handler whose `Get` panics and whose `ErrorHandler` panics too. -/
def brokenErrorHandler (σ : Type) (lib : Lib) : HandlerInterface σ :=
  { boomHandler σ lib with ErrorHandler := fun _ s => .fault (ascii "again") s }

/-- A handler whose `Get` and `Finish` both panic, and whose `ErrorHandler` answers 500
with the description it is given as the body. -/
def lateHandler (σ : Type) (lib : Lib) : HandlerInterface σ :=
  { boomHandler σ lib with
    Finish := fun _ response s => (response, .fault (ascii "fin") s)
    ErrorHandler := fun errorStr s =>
      .ret (NewHttpResponse errorStr 500 (ascii "text/plain")) s }

/-- A handler whose `Prepare` answers 403 itself and whose `Finish` writes a new body
into the response it is given. -/
def stampHandler (σ : Type) (lib : Lib) : HandlerInterface σ :=
  { prepHandler σ lib with
    Finish := fun _ response s => ({ response with Content := ascii "stamped" }, .ret () s) }

/-- An installation without mixins and without pre-processing whose post-processing
adds the header `X-Post: 1` to the response it is given. -/
def stampPostEnv (σ : Type) : Env σ :=
  { idleEnv σ with
    runMiddlewarePostprocess := fun _ response s =>
      (response.AddHeader (ascii "X-Post") (ascii "1"), .ret () s) }

/-! Theorems -/

/-! ## The segment matcher in terms of `takeWhile` -/

theorem matchLoop_eq (s : Str) (f : Nat → Bool) :
    ∀ (fuel j : Nat), j ≤ s.length → s.length - j ≤ fuel →
      matchLoop s f fuel j = j + ((s.drop j).takeWhile f).length := by
  intro fuel
  induction fuel with
  | zero =>
    intro j hj hf
    have hlen : s.length ≤ j := by omega
    simp [matchLoop, List.drop_eq_nil_of_le hlen]
  | succ n ih =>
    intro j hj hf
    unfold matchLoop
    by_cases hlt : j < s.length
    · have hget : s[j]? = some s[j] := List.getElem?_eq_getElem hlt
      have hdrop : s.drop j = s[j] :: s.drop (j + 1) := List.drop_eq_getElem_cons hlt
      rw [hget, hdrop]
      by_cases hfc : f s[j] = true
      · simp only [hfc, if_true, List.takeWhile_cons_of_pos, List.length_cons]
        rw [ih (j + 1) (by omega) (by omega)]
        omega
      · simp [hfc]
    · have hlen : s.length ≤ j := by omega
      have hget : s[j]? = none := List.getElem?_eq_none hlen
      simp [hget, List.drop_eq_nil_of_le hlen]

theorem takeWhile_length_le_sub (s : Str) (f : Nat → Bool) (i : Nat) :
    ((s.drop i).takeWhile f).length ≤ s.length - i := by
  have h : ((s.drop i).takeWhile f).length ≤ (s.drop i).length :=
    (List.takeWhile_prefix f).length_le
  simpa using h

theorem take_takeWhile_length (f : Nat → Bool) (l : Str) :
    l.take (l.takeWhile f).length = l.takeWhile f := by
  have h : l.takeWhile f <+: l := List.takeWhile_prefix f
  exact (List.prefix_iff_eq_take.mp h).symm

theorem drop_takeWhile_length (f : Nat → Bool) (l : Str) :
    l.drop (l.takeWhile f).length = l.dropWhile f := by
  have h : l.takeWhile f ++ l.dropWhile f = l := List.takeWhile_append_dropWhile f l
  have h2 : (l.takeWhile f ++ l.dropWhile f).drop (l.takeWhile f).length = l.dropWhile f :=
    List.drop_left _ _
  rw [h] at h2
  exact h2

theorem next_eq_nextByte (s : Str) (j : Nat) :
    (match s[j]? with
      | some c => c
      | none => 0) = nextByte (s.drop j) := by
  by_cases hlt : j < s.length
  · rw [List.getElem?_eq_getElem hlt, List.drop_eq_getElem_cons hlt]
    rfl
  · have hlen : s.length ≤ j := by omega
    rw [List.getElem?_eq_none hlen, List.drop_eq_nil_of_le hlen]
    rfl

/-- `match` started inside the string: the matched run is the longest run of bytes
accepted by `f` from `i` on. -/
theorem match_eq (s : Str) (f : Nat → Bool) (i : Nat) (hi : i ≤ s.length) :
    match_ s f i =
      some ((s.drop i).takeWhile f, nextByte ((s.drop i).dropWhile f),
            i + ((s.drop i).takeWhile f).length) := by
  have hj := matchLoop_eq s f (s.length - i) i hi (le_refl _)
  have hle := takeWhile_length_le_sub s f i
  unfold match_
  simp only [hj]
  rw [next_eq_nextByte]
  have hsl : slice s i (i + ((s.drop i).takeWhile f).length) =
      some ((s.drop i).takeWhile f) := by
    unfold slice
    rw [if_pos ⟨by omega, by omega⟩]
    simp [take_takeWhile_length]
  rw [hsl]
  simp only [Option.some.injEq, Prod.mk.injEq, true_and, and_true]
  rw [← List.drop_drop, drop_takeWhile_length]

/-! ## The five cases of one iteration of `try` -/

theorem tryStep_exhausted (pat path : Str) (st : TryState)
    (h1 : st.i < path.length) (h2 : pat.length ≤ st.j) :
    tryStep pat path st =
      .stop (if pat ≠ [47] ∧ pat.length > 0 ∧ pat[pat.length - 1]? = some 47
        then .matched st.p else .failed) := by
  unfold tryStep
  rw [if_pos h1, if_pos h2]
  split <;> rfl

theorem tryStep_var (pat path : Str) (st : TryState)
    (h1 : st.i < path.length) (h2 : st.j < pat.length) (h3 : pat[st.j]? = some 58) :
    tryStep pat path st =
      .next ⟨st.i + (varValue pat path st.i st.j).length,
             st.j + 1 + (varName pat st.j).length,
             st.p.Add (58 :: varName pat st.j) (varValue pat path st.i st.j)⟩ := by
  unfold tryStep
  rw [if_pos h1, if_neg (by omega), h3, List.getElem?_eq_getElem h1]
  simp only [if_true]
  rw [match_eq pat isAlnum (st.j + 1) (by omega)]
  simp only
  rw [match_eq path _ st.i (by omega)]
  rfl

theorem tryStep_lit (pat path : Str) (st : TryState) (c : Nat)
    (h1 : st.i < path.length) (h2 : st.j < pat.length) (h3 : pat[st.j]? = some c)
    (hc : c ≠ 58) (h4 : path[st.i]? = some c) :
    tryStep pat path st = .next ⟨st.i + 1, st.j + 1, st.p⟩ := by
  unfold tryStep
  rw [if_pos h1, if_neg (by omega), h3, h4]
  simp [hc]

theorem tryStep_mismatch (pat path : Str) (st : TryState) (c d : Nat)
    (h1 : st.i < path.length) (h2 : st.j < pat.length) (h3 : pat[st.j]? = some c)
    (hc : c ≠ 58) (h4 : path[st.i]? = some d) (hd : d ≠ c) :
    tryStep pat path st = .stop .failed := by
  unfold tryStep
  rw [if_pos h1, if_neg (by omega), h3, h4]
  simp [hc, hd]

theorem tryStep_end (pat path : Str) (st : TryState) (h1 : path.length ≤ st.i) :
    tryStep pat path st = .stop (if st.j = pat.length then .matched st.p else .failed) := by
  unfold tryStep
  rw [if_neg (by omega)]
  by_cases h : st.j = pat.length <;> simp [h]

/-- Case analysis on one iteration: it is one of the five cases above. -/
theorem tryStep_cases (pat path : Str) (st : TryState) (P : TryStep → Prop)
    (hEx : st.i < path.length → pat.length ≤ st.j →
      P (.stop (if pat ≠ [47] ∧ pat.length > 0 ∧ pat[pat.length - 1]? = some 47
        then .matched st.p else .failed)))
    (hVar : st.i < path.length → st.j < pat.length → pat[st.j]? = some 58 →
      P (.next ⟨st.i + (varValue pat path st.i st.j).length,
                st.j + 1 + (varName pat st.j).length,
                st.p.Add (58 :: varName pat st.j) (varValue pat path st.i st.j)⟩))
    (hLit : ∀ c, st.i < path.length → st.j < pat.length → pat[st.j]? = some c → c ≠ 58 →
      path[st.i]? = some c → P (.next ⟨st.i + 1, st.j + 1, st.p⟩))
    (hMis : ∀ c d, st.i < path.length → st.j < pat.length → pat[st.j]? = some c → c ≠ 58 →
      path[st.i]? = some d → d ≠ c → P (.stop .failed))
    (hEnd : path.length ≤ st.i →
      P (.stop (if st.j = pat.length then .matched st.p else .failed))) :
    P (tryStep pat path st) := by
  by_cases h1 : st.i < path.length
  · by_cases h2 : st.j < pat.length
    · have hp : pat[st.j]? = some pat[st.j] := List.getElem?_eq_getElem h2
      have hs : path[st.i]? = some path[st.i] := List.getElem?_eq_getElem h1
      by_cases hc : pat[st.j] = 58
      · rw [tryStep_var pat path st h1 h2 (by rw [hp, hc])]
        exact hVar h1 h2 (by rw [hp, hc])
      · by_cases hd : path[st.i] = pat[st.j]
        · rw [tryStep_lit pat path st _ h1 h2 hp hc (by rw [hs, hd])]
          exact hLit _ h1 h2 hp hc (by rw [hs, hd])
        · rw [tryStep_mismatch pat path st _ _ h1 h2 hp hc hs hd]
          exact hMis _ _ h1 h2 hp hc hs hd
    · rw [tryStep_exhausted pat path st h1 (by omega)]
      exact hEx h1 (by omega)
  · rw [tryStep_end pat path st (by omega)]
    exact hEnd (by omega)

/-! ## Loop invariants and termination of `try` -/

theorem tryStep_next_bounds (pat path : Str) (st st' : TryState)
    (_hb : inBounds pat path st) (h : tryStep pat path st = .next st') :
    inBounds pat path st' ∧ st.j < st'.j ∧ st.i ≤ st'.i := by
  revert h
  refine tryStep_cases pat path st (fun r => r = .next st' → _) ?_ ?_ ?_ ?_ ?_
  · intro _ _ h
    split at h <;> cases h
  · intro h1 h2 _ h
    cases h
    have hv := takeWhile_length_le_sub path (matchPart (varNext pat st.j)) st.i
    have hn := takeWhile_length_le_sub pat isAlnum (st.j + 1)
    unfold inBounds varValue varName
    simp only
    omega
  · intro c h1 h2 _ _ _ h
    cases h
    unfold inBounds
    simp only
    omega
  · intro _ _ _ _ _ _ _ _ h
    cases h
  · intro _ h
    split at h <;> cases h

/-- With fuel for every remaining pattern position plus one, the loop never stops for
lack of fuel. -/
theorem tryLoop_ne_fuelOut (pat path : Str) :
    ∀ (fuel : Nat) (st : TryState), inBounds pat path st → pat.length - st.j < fuel →
      tryLoop pat path fuel st ≠ .fuelOut := by
  intro fuel
  induction fuel with
  | zero => intro st _ h; omega
  | succ n ih =>
    intro st hb hf
    unfold tryLoop
    cases hstep : tryStep pat path st with
    | next st' =>
      simp only
      obtain ⟨hb', hj, _⟩ := tryStep_next_bounds pat path st st' hb hstep
      exact ih st' hb' (by have := hb'.2; omega)
    | stop r =>
      simp only
      revert hstep
      refine tryStep_cases pat path st (fun s => s = .stop r → r ≠ .fuelOut) ?_ ?_ ?_ ?_ ?_
      · intro _ _ h
        cases h
        split <;> simp
      · intro _ _ _ h
        cases h
      · intro _ _ _ _ _ _ h
        cases h
      · intro _ _ _ _ _ _ _ _ h
        cases h
        simp
      · intro _ h
        cases h
        split <;> simp

/-- Invariant rule for the loop: a property of the loop state that holds on entry and
is kept by every continuing iteration holds at the iteration that returns. -/
theorem tryLoop_invariant (pat path : Str) (Inv : TryState → Prop)
    (hpres : ∀ st st', Inv st → tryStep pat path st = .next st' → Inv st') :
    ∀ (fuel : Nat) (st : TryState), Inv st →
      tryLoop pat path fuel st = .fuelOut ∨
      ∃ st', Inv st' ∧ tryStep pat path st' = .stop (tryLoop pat path fuel st) := by
  intro fuel
  induction fuel with
  | zero => intro st _; left; rfl
  | succ n ih =>
    intro st hinv
    unfold tryLoop
    cases hstep : tryStep pat path st with
    | next st' =>
      simp only
      exact ih st' (hpres st st' hinv hstep)
    | stop r =>
      simp only
      right
      exact ⟨st, hinv, hstep⟩

theorem inBounds_init (pat path : Str) : inBounds pat path tryInit := by
  unfold inBounds tryInit
  simp

theorem try_ne_fuelOut (pat path : Str) : try_ pat path ≠ .fuelOut :=
  tryLoop_ne_fuelOut pat path (pat.length + 1) tryInit (inBounds_init pat path)
    (by unfold tryInit; simp)

/-- The invariant rule for a whole call of `try`: the result is what the returning
iteration produced, at a state where the invariant holds. -/
theorem try_invariant (pat path : Str) (Inv : TryState → Prop) (h0 : Inv tryInit)
    (hpres : ∀ st st', Inv st → tryStep pat path st = .next st' → Inv st') :
    ∃ st, Inv st ∧ tryStep pat path st = .stop (try_ pat path) := by
  rcases tryLoop_invariant pat path Inv hpres (pat.length + 1) tryInit h0 with h | h
  · exact absurd h (try_ne_fuelOut pat path)
  · exact h

theorem tryLoop_next (pat path : Str) (fuel : Nat) (st st' : TryState)
    (h : tryStep pat path st = .next st') :
    tryLoop pat path (fuel + 1) st = tryLoop pat path fuel st' := by
  rw [tryLoop, h]

theorem tryLoop_stop (pat path : Str) (fuel : Nat) (st : TryState) (r : TryResult)
    (h : tryStep pat path st = .stop r) :
    tryLoop pat path (fuel + 1) st = r := by
  rw [tryLoop, h]

theorem takeWhile_eq_self_of_forall (f : Nat → Bool) (l : Str) (h : ∀ c ∈ l, f c = true) :
    l.takeWhile f = l := by
  induction l with
  | nil => rfl
  | cons a t ih =>
    have ha : f a = true := h a (List.mem_cons_self a t)
    rw [List.takeWhile_cons_of_pos ha, ih (fun c hc => h c (List.mem_cons_of_mem a hc))]

theorem try_user_id_general (v : Str) (hne : v ≠ []) (hs : 47 ∉ v) (hz : 0 ∉ v) :
    try_ (ascii "/user/:id") (ascii "/user/" ++ v) = .matched [(ascii ":id", [v])] := by
  have e1 : ascii "/user/:id" = [47, 117, 115, 101, 114, 47, 58, 105, 100] := by decide
  have e2 : ascii "/user/" = [47, 117, 115, 101, 114, 47] := by decide
  have e3 : ascii ":id" = [58, 105, 100] := by decide
  rw [e1, e2, e3]
  have hpos : 0 < v.length := List.length_pos.mpr hne
  show tryLoop _ _ (9 + 1) ⟨0, 0, []⟩ = _
  rw [tryLoop_next _ _ _ _ ⟨1, 1, []⟩ (tryStep_lit _ _ _ 47 (by simp) (by simp) (by simp) (by decide) (by simp))]
  rw [tryLoop_next _ _ _ _ ⟨2, 2, []⟩ (tryStep_lit _ _ _ 117 (by simp) (by simp) (by simp) (by decide) (by simp))]
  rw [tryLoop_next _ _ _ _ ⟨3, 3, []⟩ (tryStep_lit _ _ _ 115 (by simp) (by simp) (by simp) (by decide) (by simp))]
  rw [tryLoop_next _ _ _ _ ⟨4, 4, []⟩ (tryStep_lit _ _ _ 101 (by simp) (by simp) (by simp) (by decide) (by simp))]
  rw [tryLoop_next _ _ _ _ ⟨5, 5, []⟩ (tryStep_lit _ _ _ 114 (by simp) (by simp) (by simp) (by decide) (by simp))]
  rw [tryLoop_next _ _ _ _ ⟨6, 6, []⟩ (tryStep_lit _ _ _ 47 (by simp) (by simp) (by simp) (by decide) (by simp))]
  rw [tryLoop_next _ _ _ _ _ (tryStep_var _ _ _ (by simp; omega) (by simp) (by simp))]
  have hname : varName [47, 117, 115, 101, 114, 47, 58, 105, 100] 6 = [105, 100] := by decide
  have hnext : varNext [47, 117, 115, 101, 114, 47, 58, 105, 100] 6 = 0 := by decide
  have hval : varValue [47, 117, 115, 101, 114, 47, 58, 105, 100]
      ([47, 117, 115, 101, 114, 47] ++ v) 6 6 = v := by
    unfold varValue
    rw [hnext]
    show List.takeWhile (matchPart 0) v = v
    apply takeWhile_eq_self_of_forall
    intro c hc
    have h0 : c ≠ 0 := fun h => hz (h ▸ hc)
    have h47 : c ≠ 47 := fun h => hs (h ▸ hc)
    simp [matchPart, h0, h47]
  simp only [hname, hval]
  rw [tryLoop_stop _ _ _ _ _ (tryStep_end _ _ _
    (by simp only [List.length_append, List.length_cons, List.length_nil]; omega))]
  simp [Values.Add]

/-- C2: `try` with pattern `/user/:id` accepts `/user/42` with exactly the variable
`:id -> ["42"]`; for every non-empty `v` without a `'/'` byte and without a zero byte it
accepts `/user/` followed by `v` with `:id -> [v]`; it does not accept `/user/`. -/
theorem C2_user_id (v : Str) (hne : v ≠ []) (hs : 47 ∉ v) (hz : 0 ∉ v) :
    try_ (ascii "/user/:id") (ascii "/user/42") = .matched [(ascii ":id", [ascii "42"])] ∧
    try_ (ascii "/user/:id") (ascii "/user/" ++ v) = .matched [(ascii ":id", [v])] ∧
    try_ (ascii "/user/:id") (ascii "/user/") = .failed :=
  ⟨by decide, try_user_id_general v hne hs hz, by decide⟩

theorem C2_user_id_witness :
    (ascii "7" ≠ [] ∧ 47 ∉ ascii "7" ∧ 0 ∉ ascii "7") ∧
    (try_ (ascii "/user/:id") (ascii "/user/42") = .matched [(ascii ":id", [ascii "42"])] ∧
     try_ (ascii "/user/:id") (ascii "/user/" ++ ascii "7") =
       .matched [(ascii ":id", [ascii "7"])] ∧
     try_ (ascii "/user/:id") (ascii "/user/") = .failed) :=
  ⟨by decide, C2_user_id (ascii "7") (by decide) (by decide) (by decide)⟩

/-! ## C3: the value of a variable -/

theorem prefix_takeWhile_of_forall (f : Nat → Bool) :
    ∀ (w l : Str), w <+: l → (∀ c ∈ w, f c = true) → w <+: l.takeWhile f := by
  intro w
  induction w with
  | nil => intro l _ _; exact List.nil_prefix
  | cons a t ih =>
    intro l hw hall
    cases l with
    | nil => simp at hw
    | cons b l' =>
      rw [List.cons_prefix_cons] at hw
      obtain ⟨hab, ht⟩ := hw
      subst hab
      have ha : f a = true := hall a (List.mem_cons_self a t)
      rw [List.takeWhile_cons_of_pos ha, List.cons_prefix_cons]
      exact ⟨rfl, ih l' ht (fun c hc => hall c (List.mem_cons_of_mem a hc))⟩

theorem dropWhile_head_false (f : Nat → Bool) :
    ∀ (l : Str) (c : Nat) (t : Str), l.dropWhile f = c :: t → f c = false := by
  intro l
  induction l with
  | nil => intro c t h; simp at h
  | cons a l' ih =>
    intro c t h
    by_cases ha : f a = true
    · rw [List.dropWhile_cons_of_pos ha] at h
      exact ih c t h
    · rw [List.dropWhile_cons_of_neg ha] at h
      cases h
      simpa using ha

theorem nextByte_drop (s : Str) (k : Nat) : nextByte (s.drop k) = (s[k]?).getD 0 := by
  by_cases hlt : k < s.length
  · rw [List.getElem?_eq_getElem hlt, List.drop_eq_getElem_cons hlt]
    rfl
  · have hlen : s.length ≤ k := by omega
    rw [List.getElem?_eq_none hlen, List.drop_eq_nil_of_le hlen]
    rfl

theorem dropWhile_drop_eq (pat : Str) (j : Nat) :
    (pat.drop (j + 1)).dropWhile isAlnum = pat.drop (j + 1 + (varName pat j).length) := by
  unfold varName
  rw [← drop_takeWhile_length, List.drop_drop]

theorem varNext_eq (pat : Str) (j : Nat) :
    varNext pat j = (pat[j + 1 + (varName pat j).length]?).getD 0 := by
  unfold varNext
  rw [dropWhile_drop_eq, nextByte_drop]

theorem varName_maximal (pat : Str) (j c : Nat)
    (h : pat[j + 1 + (varName pat j).length]? = some c) : isAlnum c = false := by
  have hlt : j + 1 + (varName pat j).length < pat.length := by
    by_contra hge
    rw [List.getElem?_eq_none (by omega)] at h
    cases h
  have hd := dropWhile_drop_eq pat j
  rw [List.drop_eq_getElem_cons hlt] at hd
  have hc : pat[j + 1 + (varName pat j).length] = c := by
    rw [List.getElem?_eq_getElem hlt] at h
    exact Option.some.inj h
  rw [hc] at hd
  exact dropWhile_head_false isAlnum _ _ _ hd

theorem matchPart_true_iff (b c : Nat) : matchPart b c = true ↔ c ≠ 47 ∧ c ≠ b := by
  unfold matchPart
  simp [and_comm]

/-- C3: when `try` processes a variable (pattern byte `':'` at `j`) at path cursor `i`,
the iteration records under `":" ++ name` the longest prefix of `path[i:]` that contains
neither `'/'` nor the byte following the variable's name in the pattern (zero when the
name ends the pattern), and advances the cursors past the value and the name. The name
is the maximal run of letters, digits and underscores after the `':'`. Pattern
`/a:x/b` accepts `/a123/b` and records `123` under `:x`. -/
theorem C3_value_delimited_by_pattern (pat path : Str) (st : TryState)
    (h1 : st.i < path.length) (h2 : st.j < pat.length) (h3 : pat[st.j]? = some 58) :
    tryStep pat path st =
      .next ⟨st.i + (varValue pat path st.i st.j).length,
             st.j + 1 + (varName pat st.j).length,
             st.p.Add (58 :: varName pat st.j) (varValue pat path st.i st.j)⟩ ∧
    (varName pat st.j <+: pat.drop (st.j + 1) ∧
     (∀ c ∈ varName pat st.j, isAlnum c = true) ∧
     (∀ c, pat[st.j + 1 + (varName pat st.j).length]? = some c → isAlnum c = false)) ∧
    varNext pat st.j = (pat[st.j + 1 + (varName pat st.j).length]?).getD 0 ∧
    (varValue pat path st.i st.j <+: path.drop st.i ∧
     (∀ c ∈ varValue pat path st.i st.j, c ≠ 47 ∧ c ≠ varNext pat st.j) ∧
     (∀ w : Str, w <+: path.drop st.i → (∀ c ∈ w, c ≠ 47 ∧ c ≠ varNext pat st.j) →
        w <+: varValue pat path st.i st.j)) ∧
    try_ (ascii "/a:x/b") (ascii "/a123/b") = .matched [(ascii ":x", [ascii "123"])] := by
  refine ⟨tryStep_var pat path st h1 h2 h3, ⟨?_, ?_, ?_⟩, varNext_eq pat st.j, ⟨?_, ?_, ?_⟩,
    by decide⟩
  · exact List.takeWhile_prefix isAlnum
  · intro c hc
    exact (List.mem_takeWhile_imp hc)
  · intro c hc
    exact varName_maximal pat st.j c hc
  · exact List.takeWhile_prefix _
  · intro c hc
    exact (matchPart_true_iff _ c).mp (List.mem_takeWhile_imp hc)
  · intro w hw hall
    exact prefix_takeWhile_of_forall _ w _ hw
      (fun c hc => (matchPart_true_iff _ c).mpr (hall c hc))

theorem C3_value_delimited_by_pattern_witness :
    tryStep (ascii "/a:x/b") (ascii "/a123/b") ⟨2, 2, []⟩ =
      .next ⟨5, 4, [(ascii ":x", [ascii "123"])]⟩ :=
  (C3_value_delimited_by_pattern (ascii "/a:x/b") (ascii "/a123/b") ⟨2, 2, []⟩
    (by decide) (by decide) (by decide)).1

/-! ## C4: patterns without variables -/

/-- The loop invariant of `try` on a pattern without `':'`: the cursors move together
over equal bytes and nothing is recorded. -/
theorem literal_invariant (p s : Str) (hp : 58 ∉ p) :
    ∃ st : TryState, (st.i = st.j ∧ st.p = [] ∧ st.i ≤ s.length ∧ st.i ≤ p.length ∧
        s.take st.i = p.take st.i) ∧
      tryStep p s st = .stop (try_ p s) := by
  apply try_invariant p s
  · simp [tryInit]
  · intro st st' hinv
    obtain ⟨hij, hpe, his, hip, htake⟩ := hinv
    refine tryStep_cases p s st (fun r => r = .next st' → _) ?_ ?_ ?_ ?_ ?_
    · intro _ _ h
      split at h <;> cases h
    · intro _ h2 h3 _
      exact absurd (List.getElem?_mem h3) hp
    · intro c h1 h2 h3 _ h4 h
      cases h
      refine ⟨by simp [hij], hpe, by simp only; omega, by simp only; omega, ?_⟩
      simp only
      rw [List.take_succ, List.take_succ, htake, h4, hij, h3]
    · intro _ _ _ _ _ _ _ _ h
      cases h
    · intro _ h
      split at h <;> cases h

theorem prefixRule_iff (p : Str) :
    (p ≠ [47] ∧ p.length > 0 ∧ p[p.length - 1]? = some 47) ↔
      (2 ≤ p.length ∧ p.getLast? = some 47) := by
  rw [List.getLast?_eq_getElem?]
  constructor
  · rintro ⟨hne, hpos, hlast⟩
    refine ⟨?_, hlast⟩
    by_contra hlt
    have h1 : p.length = 1 := by omega
    obtain ⟨a, rfl⟩ := List.length_eq_one.mp h1
    simp at hlast
    exact hne (by rw [hlast])
  · rintro ⟨h2, hlast⟩
    refine ⟨?_, by omega, hlast⟩
    intro h
    rw [h] at h2
    simp at h2

theorem literal_try (p s : Str) (hp : 58 ∉ p) :
    (try_ p s = .matched [] ↔ (s = p ∨ (2 ≤ p.length ∧ p.getLast? = some 47 ∧ p <+: s))) ∧
    (try_ p s = .matched [] ∨ try_ p s = .failed) := by
  obtain ⟨st, ⟨hij, hpe, his, hip, htake⟩, hstop⟩ := literal_invariant p s hp
  revert hstop
  refine tryStep_cases p s st (fun r => r = .stop (try_ p s) → _) ?_ ?_ ?_ ?_ ?_
  · intro h1 h2 h
    have hi : st.i = p.length := by omega
    have hpre : p <+: s := by
      rw [hi, List.take_length] at htake
      rw [← htake]
      exact List.take_prefix _ _
    have hne : s ≠ p := by
      intro he
      rw [he] at h1
      omega
    injection h with h
    rw [← h, hpe]
    by_cases hr : p ≠ [47] ∧ p.length > 0 ∧ p[p.length - 1]? = some 47
    · rw [if_pos hr]
      have hr' := (prefixRule_iff p).mp hr
      exact ⟨⟨fun _ => Or.inr ⟨hr'.1, hr'.2, hpre⟩, fun _ => rfl⟩, Or.inl rfl⟩
    · rw [if_neg hr]
      refine ⟨⟨fun h => (by cases h), ?_⟩, Or.inr rfl⟩
      rintro (he | ⟨h2', hl, _⟩)
      · exact absurd he hne
      · exact absurd ((prefixRule_iff p).mpr ⟨h2', hl⟩) hr
  · intro _ _ _ h
    cases h
  · intro _ _ _ _ _ _ h
    cases h
  · intro c d h1 h2 h3 _ h4 hd h
    injection h with h
    rw [← h]
    refine ⟨⟨fun h => (by cases h), ?_⟩, Or.inr rfl⟩
    have key : ¬ p <+: s := by
      intro hpre
      obtain ⟨t, rfl⟩ := hpre
      rw [List.getElem?_append_left (by omega), hij, h3] at h4
      exact hd (Option.some.inj h4).symm
    rintro (he | ⟨_, _, hpre⟩)
    · exact absurd (he ▸ List.prefix_refl s) key
    · exact absurd hpre key
  · intro h1 h
    have hi : st.i = s.length := by omega
    injection h with h
    rw [← h, hpe]
    by_cases hj : st.j = p.length
    · rw [if_pos hj]
      have hsp : s = p := by
        have hi' : st.i = p.length := by omega
        have h1' := htake
        rw [hi, List.take_length] at h1'
        rw [hi', List.take_length] at htake
        rw [← htake, ← hi', hi, List.take_length]
      exact ⟨⟨fun _ => Or.inl hsp, fun _ => rfl⟩, Or.inl rfl⟩
    · rw [if_neg hj]
      refine ⟨⟨fun h => (by cases h), ?_⟩, Or.inr rfl⟩
      have hlt : s.length < p.length := by omega
      rintro (he | ⟨_, _, hpre⟩)
      · rw [he] at hlt
        omega
      · have := hpre.length_le
        omega

theorem literal_accepts_iff (p s : Str) (hp : 58 ∉ p) :
    ((∃ vals, try_ p s = .matched vals) ↔
      (s = p ∨ (2 ≤ p.length ∧ p.getLast? = some 47 ∧ p <+: s))) ∧
    (∀ vals, try_ p s = .matched vals → vals = []) := by
  obtain ⟨hiff, hor⟩ := literal_try p s hp
  constructor
  · constructor
    · rintro ⟨vals, hv⟩
      rcases hor with h | h
      · exact hiff.mp h
      · rw [h] at hv
        cases hv
    · intro h
      exact ⟨[], hiff.mpr h⟩
  · intro vals hv
    rcases hor with h | h
    · rw [h] at hv
      injection hv with hv
      exact hv.symm
    · rw [h] at hv
      cases hv

/-- C4: for a pattern `p` without `':'` and any path `s`, `try` accepts `s` exactly when
`s = p`, or `p` has at least two bytes, ends with `'/'` and is a prefix of `s`; the
variable mapping returned on acceptance is empty. So the empty pattern accepts only the
empty path, the pattern `/` accepts only the path `/` (`/bad/` is rejected), and
`/static/` accepts `/static/a/b/c`. -/
theorem C4_literal_pattern (p s : Str) (hp : 58 ∉ p) :
    ((∃ vals, try_ p s = .matched vals) ↔
      (s = p ∨ (2 ≤ p.length ∧ p.getLast? = some 47 ∧ p <+: s))) ∧
    (∀ vals, try_ p s = .matched vals → vals = []) ∧
    ((∃ vals, try_ [] s = .matched vals) ↔ s = []) ∧
    ((∃ vals, try_ (ascii "/") s = .matched vals) ↔ s = ascii "/") ∧
    try_ (ascii "/") (ascii "/bad/") = .failed ∧
    try_ (ascii "/static/") (ascii "/static/a/b/c") = .matched [] := by
  refine ⟨(literal_accepts_iff p s hp).1, (literal_accepts_iff p s hp).2, ?_, ?_,
    by decide, by decide⟩
  · rw [(literal_accepts_iff [] s (by decide)).1]
    constructor
    · rintro (h | ⟨h, _⟩)
      · exact h
      · simp at h
    · intro h
      exact Or.inl h
  · have e : ascii "/" = [47] := by decide
    rw [e, (literal_accepts_iff [47] s (by decide)).1]
    constructor
    · rintro (h | ⟨h, _⟩)
      · exact h
      · simp at h
    · intro h
      exact Or.inl h

theorem C4_literal_pattern_witness :
    58 ∉ ascii "/static/" ∧
    ((∃ vals, try_ (ascii "/static/") (ascii "/static/a") = .matched vals) ↔
      (ascii "/static/a" = ascii "/static/" ∨
        (2 ≤ (ascii "/static/").length ∧ (ascii "/static/").getLast? = some 47 ∧
          ascii "/static/" <+: ascii "/static/a"))) :=
  ⟨by decide, (C4_literal_pattern (ascii "/static/") (ascii "/static/a") (by decide)).1⟩

/-! ## Facts about `url.Values` -/

theorem lookup_Add (v : Values) (key value k : Str) :
    (v.Add key value).lookup k =
      if k = key then v.lookup k ++ [value] else v.lookup k := by
  induction v with
  | nil =>
    by_cases hk : k = key
    · subst hk
      simp [Values.Add, Values.lookup]
    · have hk' : ¬ key = k := fun h => hk h.symm
      simp [Values.Add, Values.lookup, hk, hk']
  | cons kv rest ih =>
    obtain ⟨k0, vs⟩ := kv
    by_cases h0 : k0 = key
    · subst h0
      by_cases hk : k = k0
      · subst hk
        simp [Values.Add, Values.lookup]
      · have hk' : ¬ k0 = k := fun h => hk h.symm
        simp [Values.Add, Values.lookup, hk, hk']
    · by_cases hk : k0 = k
      · subst hk
        simp [Values.Add, Values.lookup, h0]
      · simp only [Values.Add, if_neg h0, Values.lookup, if_neg hk]
        exact ih

theorem total_Add (v : Values) (key value : Str) :
    (v.Add key value).total = v.total + 1 := by
  induction v with
  | nil => simp [Values.Add, Values.total]
  | cons kv rest ih =>
    obtain ⟨k0, vs⟩ := kv
    by_cases h0 : k0 = key
    · simp only [Values.Add, if_pos h0, Values.total, List.map_cons, List.sum_cons,
        List.length_append, List.length_singleton]
      omega
    · simp only [Values.Add, if_neg h0]
      simp only [Values.total, List.map_cons, List.sum_cons] at ih ⊢
      omega

theorem recordAll_append (init : Values) (a b : List (Str × Str)) :
    recordAll init (a ++ b) = recordAll (recordAll init a) b := by
  unfold recordAll
  rw [List.foldl_append]

theorem lookup_recordAll (pairs : List (Str × Str)) :
    ∀ (init : Values) (k : Str),
      (recordAll init pairs).lookup k = init.lookup k ++ valuesUnder k pairs := by
  induction pairs with
  | nil => intro init k; simp [recordAll, valuesUnder]
  | cons kv rest ih =>
    intro init k
    obtain ⟨k0, v0⟩ := kv
    have hstep : recordAll init ((k0, v0) :: rest) = recordAll (init.Add k0 v0) rest := rfl
    rw [hstep, ih, lookup_Add]
    by_cases hk : k0 = k
    · subst hk
      simp [valuesUnder, List.filter_cons]
    · have hk' : ¬ k = k0 := fun h => hk h.symm
      simp [valuesUnder, List.filter_cons, hk, hk']

theorem total_recordAll (pairs : List (Str × Str)) :
    ∀ (init : Values), (recordAll init pairs).total = init.total + pairs.length := by
  induction pairs with
  | nil => intro init; simp [recordAll]
  | cons kv rest ih =>
    intro init
    have hstep : recordAll init (kv :: rest) = recordAll (init.Add kv.1 kv.2) rest := rfl
    rw [hstep, ih, total_Add, List.length_cons]
    omega

/-! ## Facts about the pieces of a pattern -/

theorem tokensAux_fuel :
    ∀ (n : Nat) (q : Str), q.length ≤ n → tokensAux n q = tokensAux q.length q := by
  intro n
  induction n using Nat.strong_induction_on with
  | _ n ih =>
    intro q hq
    cases q with
    | nil => cases n <;> rfl
    | cons c rest =>
      cases n with
      | zero => simp at hq
      | succ m =>
        have hm : rest.length ≤ m := by simpa using hq
        simp only [tokensAux, List.length_cons]
        by_cases hc : c = 58
        · have hd : (rest.dropWhile isAlnum).length ≤ rest.length :=
            (List.dropWhile_suffix isAlnum).length_le
          simp only [if_pos hc]
          rw [ih m (by omega) _ (by omega), ih rest.length (by omega) _ hd]
        · simp only [if_neg hc]
          rw [ih m (by omega) _ hm]

theorem tokens_nil : tokens [] = [] := rfl

theorem tokens_cons_lit (c : Nat) (rest : Str) (hc : c ≠ 58) :
    tokens (c :: rest) = .lit c :: tokens rest := by
  unfold tokens
  simp [tokensAux, hc]

theorem tokens_cons_var (rest : Str) :
    tokens (58 :: rest) =
      .var (rest.takeWhile isAlnum) :: tokens (rest.dropWhile isAlnum) := by
  unfold tokens
  have hd : (rest.dropWhile isAlnum).length ≤ rest.length :=
    (List.dropWhile_suffix isAlnum).length_le
  simp only [tokensAux, List.length_cons, if_true]
  rw [tokensAux_fuel rest.length _ hd]

theorem tokenNames_append (a b : List Token) :
    tokenNames (a ++ b) = tokenNames a ++ tokenNames b := by
  induction a with
  | nil => rfl
  | cons t a ih =>
    cases t with
    | lit c => simpa [tokenNames] using ih
    | var n => simp [tokenNames, ih]

theorem tokenKeys_append (a b : List Token) :
    tokenKeys (a ++ b) = tokenKeys a ++ tokenKeys b := by
  unfold tokenKeys
  rw [tokenNames_append, List.map_append]

theorem fill_append (b : List Token) (R2 : List Str) :
    ∀ (a : List Token) (R1 : List Str), R1.length = (tokenNames a).length →
      fill (a ++ b) (R1 ++ R2) = fill a R1 ++ fill b R2 := by
  intro a
  induction a with
  | nil =>
    intro R1 h
    have : R1 = [] := List.length_eq_zero.mp (by simpa [tokenNames] using h)
    subst this
    simp [fill]
  | cons t a ih =>
    intro R1 h
    cases t with
    | lit c =>
      simp only [List.cons_append, fill, List.cons.injEq, true_and]
      exact ih R1 (by simpa [tokenNames] using h)
    | var n =>
      cases R1 with
      | nil => simp [tokenNames] at h
      | cons v R1' =>
        have ih' := ih R1' (by simpa [tokenNames] using h)
        show v ++ fill (a ++ b) (R1' ++ R2) = (v ++ fill a R1') ++ fill b R2
        rw [ih', List.append_assoc]

theorem captured_init (pat path : Str) : Captured pat path tryInit := by
  refine ⟨by simp [tryInit], by simp [tryInit], [], [], ?_, rfl, rfl, ?_⟩
  · simp [tryInit]
  · simp [tryInit, fill]

theorem captured_step (pat path : Str) (st st' : TryState)
    (hinv : Captured pat path st) (hstep : tryStep pat path st = .next st') :
    Captured pat path st' := by
  obtain ⟨hb, _, _⟩ := tryStep_next_bounds pat path st st' ⟨hinv.1, hinv.2.1⟩ hstep
  obtain ⟨_, _, done, R, htok, hlen, hp, hfill⟩ := hinv
  refine ⟨hb.1, hb.2, ?_⟩
  revert hstep
  refine tryStep_cases pat path st (fun r => r = .next st' → _) ?_ ?_ ?_ ?_ ?_
  · intro _ _ h
    split at h <;> cases h
  · intro h1 h2 h3 h
    cases h
    have hc : pat[st.j] = 58 := by
      rw [List.getElem?_eq_getElem h2] at h3
      exact Option.some.inj h3
    have hdrop : pat.drop st.j = 58 :: pat.drop (st.j + 1) := by
      rw [List.drop_eq_getElem_cons h2, hc]
    refine ⟨done ++ [.var (varName pat st.j)], R ++ [varValue pat path st.i st.j],
      ?_, ?_, ?_, ?_⟩
    · simp only
      rw [htok, hdrop, tokens_cons_var, dropWhile_drop_eq, List.append_assoc]
      rfl
    · simp [tokenNames_append, tokenNames, hlen]
    · simp only
      rw [tokenKeys_append, List.zip_append (by simp [tokenKeys, hlen]), recordAll_append,
        ← hp]
      rfl
    · simp only
      rw [fill_append _ _ _ _ hlen, hfill, List.take_add]
      simp only [fill, List.append_nil]
      unfold varValue
      rw [take_takeWhile_length]
  · intro c h1 h2 h3 hc h4 h
    cases h
    have hpc : pat[st.j] = c := by
      rw [List.getElem?_eq_getElem h2] at h3
      exact Option.some.inj h3
    have hdrop : pat.drop st.j = c :: pat.drop (st.j + 1) := by
      rw [List.drop_eq_getElem_cons h2, hpc]
    refine ⟨done ++ [.lit c], R, ?_, ?_, ?_, ?_⟩
    · simp only
      rw [htok, hdrop, tokens_cons_lit c _ hc, List.append_assoc]
      rfl
    · simp [tokenNames_append, tokenNames, hlen]
    · simp only
      rw [tokenKeys_append, hp]
      simp [tokenKeys, tokenNames]
    · simp only
      have hR : R = R ++ [] := by simp
      rw [hR, fill_append _ _ _ _ hlen, hfill, List.take_succ, h4]
      simp [fill]
  · intro _ _ _ _ _ _ _ _ h
    cases h
  · intro _ h
    split at h <;> cases h

/-- What an accepting run of `try` leaves behind: the values `R`, one per variable
occurrence and in pattern order, are what the mapping holds, and the pattern filled
with them is the part `path[:i]` of the path read when `try` returned; a part shorter
than the path is accepted only under the trailing-slash rule. -/
theorem try_matched_trace (pat path : Str) (vals : Values)
    (h : try_ pat path = .matched vals) :
    ∃ (R : List Str) (i : Nat),
      R.length = (varNames pat).length ∧
      vals = recordAll [] ((tokenKeys (tokens pat)).zip R) ∧
      i ≤ path.length ∧
      fill (tokens pat) R = path.take i ∧
      (i < path.length → prefixRule pat) ∧
      tryStep pat path ⟨i, pat.length, vals⟩ = .stop (.matched vals) := by
  obtain ⟨st, ⟨hi, hj, done, R, htok, hlen, hp, hfill⟩, hstop⟩ :=
    try_invariant pat path (Captured pat path) (captured_init pat path)
      (captured_step pat path)
  rw [h] at hstop
  revert hstop
  refine tryStep_cases pat path st (fun r => r = .stop (.matched vals) → _) ?_ ?_ ?_ ?_ ?_
  · intro h1 h2 hs
    have hje : st.j = pat.length := by omega
    rw [hje, List.drop_length, tokens_nil, List.append_nil] at htok
    by_cases hr : pat ≠ [47] ∧ pat.length > 0 ∧ pat[pat.length - 1]? = some 47
    · rw [if_pos hr] at hs
      injection hs with hs
      injection hs with hs
      have hst : st = ⟨st.i, pat.length, vals⟩ := by
        cases st
        simp only at hje hs
        rw [hje, hs]
      refine ⟨R, st.i, ?_, ?_, hi, ?_, fun _ => hr, ?_⟩
      rotate_left 3
      · rw [← hst, tryStep_exhausted pat path st h1 h2, if_pos hr, hs]
      · rw [hlen, ← htok]; rfl
      · rw [← hs, hp, htok]
      · rw [htok, hfill]
    · rw [if_neg hr] at hs
      cases hs
  · intro _ _ _ hs
    cases hs
  · intro _ _ _ _ _ _ hs
    cases hs
  · intro _ _ _ _ _ _ _ _ hs
    cases hs
  · intro h1 hs
    by_cases hje : st.j = pat.length
    · rw [if_pos hje] at hs
      injection hs with hs
      injection hs with hs
      rw [hje, List.drop_length, tokens_nil, List.append_nil] at htok
      have hst : st = ⟨st.i, pat.length, vals⟩ := by
        cases st
        simp only at hje hs
        rw [hje, hs]
      refine ⟨R, st.i, ?_, ?_, hi, ?_, fun hlt => absurd hlt (by omega), ?_⟩
      rotate_left 3
      · rw [← hst, tryStep_end pat path st h1, if_pos hje, hs]
      · rw [hlen, ← htok]; rfl
      · rw [← hs, hp, htok]
      · rw [htok, hfill]
    · rw [if_neg hje] at hs
      cases hs

/-! ## C5 and C6: what the recorded values are -/

theorem valuesUnder_cons (k k0 v0 : Str) (rest : List (Str × Str)) :
    valuesUnder k ((k0, v0) :: rest) =
      if k0 = k then v0 :: valuesUnder k rest else valuesUnder k rest := by
  unfold valuesUnder
  by_cases h : k0 = k <;> simp [List.filter_cons, h]

theorem valuesUnder_length (k : Str) :
    ∀ (keys R : List Str), R.length = keys.length →
      (valuesUnder k (keys.zip R)).length = keys.count k := by
  intro keys
  induction keys with
  | nil => intro R _; simp [valuesUnder]
  | cons k0 keys ih =>
    intro R h
    cases R with
    | nil => simp at h
    | cons v R' =>
      have h' : R'.length = keys.length := by simpa using h
      rw [List.zip_cons_cons, valuesUnder_cons, List.count_cons]
      by_cases hk : k0 = k
      · simp [hk, ih R' h']
      · simp [hk, ih R' h']

theorem valuesUnder_subset (k v : Str) (keys R : List Str)
    (h : v ∈ valuesUnder k (keys.zip R)) : v ∈ R := by
  unfold valuesUnder at h
  obtain ⟨kv, hkv, rfl⟩ := List.mem_map.mp h
  have hz : kv ∈ keys.zip R := (List.mem_filter.mp hkv).1
  obtain ⟨k1, v1⟩ := kv
  exact (List.of_mem_zip hz).2

theorem count_tokenKeys (name : Str) (ts : List Token) :
    (tokenKeys ts).count (58 :: name) = (tokenNames ts).count name := by
  unfold tokenKeys
  induction tokenNames ts with
  | nil => rfl
  | cons n ns ih =>
    rw [List.map_cons, List.count_cons, List.count_cons, ih]
    by_cases hn : n = name <;> simp [hn]

theorem length_tokenKeys (ts : List Token) :
    (tokenKeys ts).length = (tokenNames ts).length := by
  simp [tokenKeys]

theorem fillFrom_eq_fill :
    ∀ (ts : List Token) (R : List Str) (tab : Str → List Str),
      R.length = (tokenNames ts).length →
      (∀ k, tab k = valuesUnder k ((tokenKeys ts).zip R)) →
      fillFrom ts tab = fill ts R := by
  intro ts
  induction ts with
  | nil => intro R tab _ _; rfl
  | cons t ts ih =>
    intro R tab hlen htab
    cases t with
    | lit c =>
      simp only [fillFrom, fill, List.cons.injEq, true_and]
      exact ih R tab (by simpa [tokenNames] using hlen) htab
    | var n =>
      cases R with
      | nil => simp [tokenNames] at hlen
      | cons v R' =>
        have hkeys : tokenKeys (Token.var n :: ts) = (58 :: n) :: tokenKeys ts := rfl
        have hhead : tab (58 :: n) = v :: valuesUnder (58 :: n) ((tokenKeys ts).zip R') := by
          rw [htab, hkeys, List.zip_cons_cons, valuesUnder_cons, if_pos rfl]
        simp only [fillFrom, fill]
        rw [hhead]
        simp only [List.headD_cons]
        congr 1
        apply ih R' _ (by simpa [tokenNames] using hlen)
        intro k
        by_cases hk : k = 58 :: n
        · rw [if_pos hk, hk, hhead, List.tail_cons]
        · rw [if_neg hk, htab, hkeys, List.zip_cons_cons, valuesUnder_cons,
            if_neg (fun h => hk h.symm)]

theorem mem_fill_infix :
    ∀ (ts : List Token) (R : List Str), R.length = (tokenNames ts).length →
      ∀ v ∈ R, v <:+: fill ts R := by
  intro ts
  induction ts with
  | nil =>
    intro R hlen v hv
    have : R = [] := List.length_eq_zero.mp (by simpa [tokenNames] using hlen)
    rw [this] at hv
    cases hv
  | cons t ts ih =>
    intro R hlen v hv
    cases t with
    | lit c =>
      have h1 := ih R (by simpa [tokenNames] using hlen) v hv
      exact h1.trans (List.suffix_cons c _).isInfix
    | var n =>
      cases R with
      | nil => cases hv
      | cons v0 R' =>
        show v <:+: v0 ++ fill ts R'
        rcases List.mem_cons.mp hv with h | h
        · rw [h]
          exact (List.prefix_append v0 _).isInfix
        · have h1 := ih R' (by simpa [tokenNames] using hlen) v h
          exact h1.trans (List.suffix_append v0 _).isInfix

/-- C5: round trip of `try`. When `try` accepts path `s` for pattern `p` with mapping
`vals`, it returned at a path cursor `i` (the returning iteration is the one at cursors
`i`, `len(p)`), and `p` with each variable occurrence replaced, left to right, by the
value recorded for it is exactly `s[:i]`: the whole of `s` when the pattern was matched
to the end of the path (`i = len(s)`), a prefix of `s` when `i < len(s)`, which happens
only under the trailing-slash rule. Every recorded value is a contiguous substring of
`s`. -/
theorem C5_round_trip (p s : Str) (vals : Values) (h : try_ p s = .matched vals) :
    (∃ i : Nat, i ≤ s.length ∧
      tryStep p s ⟨i, p.length, vals⟩ = .stop (.matched vals) ∧
      substitute p vals = s.take i ∧
      (i = s.length → substitute p vals = s) ∧
      (i < s.length → prefixRule p)) ∧
    substitute p vals <+: s ∧
    (∀ (k v : Str), v ∈ vals.lookup k → v <:+: s) := by
  obtain ⟨R, i, hlen, hvals, hi, hfill, hrule, hstop⟩ := try_matched_trace p s vals h
  have hlookup : ∀ k, vals.lookup k = valuesUnder k ((tokenKeys (tokens p)).zip R) := by
    intro k
    rw [hvals, lookup_recordAll]
    rfl
  have hsub : substitute p vals = fill (tokens p) R :=
    fillFrom_eq_fill (tokens p) R vals.lookup hlen hlookup
  refine ⟨⟨i, hi, hstop, by rw [hsub, hfill], ?_, hrule⟩, ?_, ?_⟩
  · intro hie
    rw [hsub, hfill, hie, List.take_length]
  · rw [hsub, hfill]
    exact List.take_prefix _ _
  · intro k v hv
    rw [hlookup] at hv
    have hR : v ∈ R := valuesUnder_subset k v _ R hv
    have hin : v <:+: fill (tokens p) R := mem_fill_infix (tokens p) R hlen v hR
    rw [hfill] at hin
    exact hin.trans (List.take_prefix _ _).isInfix

theorem C5_round_trip_witness :
    try_ (ascii "/a:x/b") (ascii "/a123/b") = .matched [(ascii ":x", [ascii "123"])] ∧
    substitute (ascii "/a:x/b") [(ascii ":x", [ascii "123"])] <+: ascii "/a123/b" :=
  ⟨by decide,
   (C5_round_trip (ascii "/a:x/b") (ascii "/a123/b") [(ascii ":x", [ascii "123"])]
     (by decide)).2.1⟩

/-- C6: repeated variable names append. When `try` accepts, there are values `R`, one
per variable occurrence of the pattern and in left-to-right pattern order (the pattern
filled with them in that order is the part of the path that was read), such that the
list stored under `":" ++ name` is the sublist of `R` at the occurrences of `name`, in
order; so that list has one value per occurrence of `name`, and the mapping holds as
many values as the pattern has variable occurrences. Pattern `/:a/:a` against `/x/y`
gives `:a -> ["x", "y"]`. -/
theorem C6_repeated_names_append (p s : Str) (vals : Values)
    (h : try_ p s = .matched vals) :
    (∃ R : List Str, R.length = (varNames p).length ∧
      fill (tokens p) R <+: s ∧
      ∀ name, vals.lookup (58 :: name) =
        valuesUnder (58 :: name) (((varNames p).map (fun n => 58 :: n)).zip R)) ∧
    (∀ name, (vals.lookup (58 :: name)).length = (varNames p).count name) ∧
    vals.total = (varNames p).length ∧
    try_ (ascii "/:a/:a") (ascii "/x/y") =
      .matched [(ascii ":a", [ascii "x", ascii "y"])] := by
  obtain ⟨R, i, hlen, hvals, hi, hfill, hrule, hstop⟩ := try_matched_trace p s vals h
  have hlookup : ∀ k, vals.lookup k = valuesUnder k ((tokenKeys (tokens p)).zip R) := by
    intro k
    rw [hvals, lookup_recordAll]
    rfl
  have hklen : R.length = (tokenKeys (tokens p)).length := by
    rw [length_tokenKeys]
    exact hlen
  refine ⟨⟨R, hlen, ?_, fun name => hlookup _⟩, ?_, ?_, by decide⟩
  · rw [hfill]
    exact List.take_prefix _ _
  · intro name
    rw [hlookup, valuesUnder_length _ _ _ hklen, count_tokenKeys]
    rfl
  · rw [hvals, total_recordAll, List.length_zip, ← hklen, Nat.min_self, hlen]
    simp [Values.total]

theorem C6_repeated_names_append_witness :
    try_ (ascii "/:a/:a") (ascii "/x/y") = .matched [(ascii ":a", [ascii "x", ascii "y"])] ∧
    Values.total [(ascii ":a", [ascii "x", ascii "y"])] = (varNames (ascii "/:a/:a")).length :=
  ⟨by decide,
   (C6_repeated_names_append (ascii "/:a/:a") (ascii "/x/y")
     [(ascii ":a", [ascii "x", ascii "y"])] (by decide)).2.2.1⟩

/-! ## C7: registration -/

theorem endsWithSlash_iff (pat : Str) :
    (pat.length > 0 ∧ pat[pat.length - 1]? = some 47) ↔ pat.getLast? = some 47 := by
  rw [List.getLast?_eq_getElem?]
  constructor
  · intro h
    exact h.2
  · intro h
    refine ⟨?_, h⟩
    by_contra h0
    have : pat = [] := List.length_eq_zero.mp (by omega)
    rw [this] at h
    simp at h

/-- C7: registration only appends. After `Pattern(pat, h)` the table is the old table
followed by `(pat, h, false)`, and additionally by `(pat without its final '/', h, true)`
when `append_slash` is on and `pat` ends with `'/'`; the old entries stay in place. -/
theorem C7_registration_appends {σ : Type} (appendSlash : Bool) (T : List (patHandler σ))
    (pat : Str) (h : HandlerInterface σ) :
    (appendSlash = false ∨ pat.getLast? ≠ some 47 →
      Pattern appendSlash T pat h = T ++ [⟨pat, h, false⟩]) ∧
    (appendSlash = true ∧ pat.getLast? = some 47 →
      Pattern appendSlash T pat h = T ++ [⟨pat, h, false⟩, ⟨pat.dropLast, h, true⟩]) ∧
    T <+: Pattern appendSlash T pat h := by
  have hoff : appendSlash = false ∨ pat.getLast? ≠ some 47 →
      Pattern appendSlash T pat h = T ++ [⟨pat, h, false⟩] := by
    intro hc
    unfold Pattern
    rcases hc with hc | hc
    · simp [hc]
    · have hn : ¬ (pat.length > 0 ∧ pat[pat.length - 1]? = some 47) :=
        fun hh => hc ((endsWithSlash_iff pat).mp hh)
      simp only [if_neg hn]
      split <;> rfl
  have hon : appendSlash = true ∧ pat.getLast? = some 47 →
      Pattern appendSlash T pat h = T ++ [⟨pat, h, false⟩, ⟨pat.dropLast, h, true⟩] := by
    rintro ⟨ha, hl⟩
    unfold Pattern
    have hy := (endsWithSlash_iff pat).mpr hl
    simp only [ha, if_true, if_pos hy, List.dropLast_eq_take, List.append_assoc,
      List.singleton_append]
  refine ⟨hoff, hon, ?_⟩
  by_cases hc : appendSlash = true ∧ pat.getLast? = some 47
  · rw [hon hc]
    exact List.prefix_append _ _
  · rw [hoff (by
      by_cases ha : appendSlash = true
      · exact Or.inr (fun hl => hc ⟨ha, hl⟩)
      · exact Or.inl (by simpa using ha))]
    exact List.prefix_append _ _

theorem C7_registration_appends_witness :
    Pattern true ([] : List (patHandler Unit)) (ascii "/blog/")
        (BaseHandler Unit ⟨fun _ => none, fun _ => [], id, fun _ => [], id, id, []⟩) =
      [] ++ [⟨ascii "/blog/", BaseHandler Unit ⟨fun _ => none, fun _ => [], id, fun _ => [], id, id, []⟩, false⟩,
             ⟨(ascii "/blog/").dropLast,
              BaseHandler Unit ⟨fun _ => none, fun _ => [], id, fun _ => [], id, id, []⟩, true⟩] :=
  (C7_registration_appends true [] (ascii "/blog/") _).2.1 ⟨rfl, by decide⟩

/-! ## C1: first match wins -/

/-- `try` always returns: it accepts or it rejects. -/
theorem try_total (pat path : Str) :
    try_ pat path = .failed ∨ ∃ p, try_ pat path = .matched p := by
  obtain ⟨st, _, hstop⟩ :=
    try_invariant pat path (fun _ => True) trivial (fun _ _ _ _ => trivial)
  revert hstop
  refine tryStep_cases pat path st (fun r => r = .stop (try_ pat path) → _) ?_ ?_ ?_ ?_ ?_
  · intro _ _ h
    injection h with h
    rw [← h]
    split
    · exact Or.inr ⟨_, rfl⟩
    · exact Or.inl rfl
  · intro _ _ _ h
    cases h
  · intro _ _ _ _ _ _ h
    cases h
  · intro _ _ _ _ _ _ _ _ h
    injection h with h
    exact Or.inl h.symm
  · intro _ h
    injection h with h
    rw [← h]
    split
    · exact Or.inr ⟨_, rfl⟩
    · exact Or.inl rfl

theorem ServeHTTP_skip {σ : Type} (lib : Lib) (env : Env σ) (notFound : HandlerInterface σ)
    (w : ResponseWriter) (r : Request) (s : σ) :
    ∀ (pre rest : List (patHandler σ)), (∀ e ∈ pre, try_ e.pat r.URL.Path = .failed) →
      ServeHTTP lib env notFound (pre ++ rest) w r s = ServeHTTP lib env notFound rest w r s := by
  intro pre
  induction pre with
  | nil => intro rest _; rfl
  | cons e pre ih =>
    intro rest hpre
    have he : try_ e.pat r.URL.Path = .failed := hpre e (List.mem_cons_self e pre)
    rw [List.cons_append, ServeHTTP, he]
    exact ih rest (fun e' he' => hpre e' (List.mem_cons_of_mem e he'))

theorem first_match_exists {σ : Type} (path : Str) :
    ∀ (T : List (patHandler σ)),
      (∃ pre ph post params, T = pre ++ ph :: post ∧
        (∀ e ∈ pre, try_ e.pat path = .failed) ∧ try_ ph.pat path = .matched params) ∨
      (∀ e ∈ T, try_ e.pat path = .failed) := by
  intro T
  induction T with
  | nil => right; intro e he; cases he
  | cons e T ih =>
    rcases try_total e.pat path with hf | ⟨p, hm⟩
    · rcases ih with ⟨pre, ph, post, params, hT, hpre, hph⟩ | hall
      · left
        refine ⟨e :: pre, ph, post, params, by rw [hT]; rfl, ?_, hph⟩
        intro e' he'
        rcases List.mem_cons.mp he' with h | h
        · rw [h]; exact hf
        · exact hpre e' h
      · right
        intro e' he'
        rcases List.mem_cons.mp he' with h | h
        · rw [h]; exact hf
        · exact hall e' h
    · left
      exact ⟨[], e, T, p, rfl, fun _ h => (by cases h), hm⟩

/-- C1: `ServeHTTP` dispatches to the first entry, in registration order, whose `try`
accepts the request path, with the variables `try` returned for it (a slash-redirect
entry is answered by the redirect, any other entry by `ServeHandlerHttp`); the entries
after it play no part, whatever they are. When no entry accepts, it dispatches to the
entry with pattern `""`, the not-found handler and flag `false`, with no variables. One
of the two cases always applies. -/
theorem C1_first_match_dispatch {σ : Type} (lib : Lib) (env : Env σ)
    (notFound : HandlerInterface σ) (T : List (patHandler σ)) (w : ResponseWriter)
    (r : Request) (s : σ) :
    (∀ pre ph post params, T = pre ++ ph :: post →
      (∀ e ∈ pre, try_ e.pat r.URL.Path = .failed) →
      try_ ph.pat r.URL.Path = .matched params →
      ServeHTTP lib env notFound T w r s =
        (if ph.isSlashRedirect then serveSlashRedirect lib w r params s
         else ServeHandlerHttp lib env ph w r params s) ∧
      ∀ post', ServeHTTP lib env notFound (pre ++ ph :: post') w r s =
        ServeHTTP lib env notFound T w r s) ∧
    ((∀ e ∈ T, try_ e.pat r.URL.Path = .failed) →
      ServeHTTP lib env notFound T w r s =
        ServeHandlerHttp lib env ⟨[], notFound, false⟩ w r [] s) ∧
    ((∃ pre ph post params, T = pre ++ ph :: post ∧
        (∀ e ∈ pre, try_ e.pat r.URL.Path = .failed) ∧
        try_ ph.pat r.URL.Path = .matched params) ∨
      (∀ e ∈ T, try_ e.pat r.URL.Path = .failed)) := by
  have hfirst : ∀ (pre : List (patHandler σ)) ph post params,
      (∀ e ∈ pre, try_ e.pat r.URL.Path = .failed) →
      try_ ph.pat r.URL.Path = .matched params →
      ServeHTTP lib env notFound (pre ++ ph :: post) w r s =
        (if ph.isSlashRedirect then serveSlashRedirect lib w r params s
         else ServeHandlerHttp lib env ph w r params s) := by
    intro pre ph post params hpre hph
    rw [ServeHTTP_skip lib env notFound w r s pre _ hpre, ServeHTTP, hph]
  refine ⟨?_, ?_, first_match_exists r.URL.Path T⟩
  · intro pre ph post params hT hpre hph
    subst hT
    refine ⟨hfirst pre ph post params hpre hph, ?_⟩
    intro post'
    rw [hfirst pre ph post' params hpre hph, hfirst pre ph post params hpre hph]
  · intro hall
    have h := ServeHTTP_skip lib env notFound w r s T [] hall
    rw [List.append_nil] at h
    rw [h, ServeHTTP]

/-! ## C8: the slash redirect -/

theorem getHeader_setHeader_same (h : List (Str × Str)) (k v : Str) :
    getHeader (setHeader h k v) k = some v := by
  induction h with
  | nil => simp [setHeader, getHeader]
  | cons kv rest ih =>
    obtain ⟨k0, v0⟩ := kv
    by_cases hk : k0 = k
    · simp [setHeader, getHeader, hk]
    · simp [setHeader, getHeader, hk, ih]

theorem getHeader_setHeader_ne (h : List (Str × Str)) (k v k' : Str) (hne : k ≠ k') :
    getHeader (setHeader h k v) k' = getHeader h k' := by
  induction h with
  | nil => simp [setHeader, getHeader, hne]
  | cons kv rest ih =>
    obtain ⟨k0, v0⟩ := kv
    by_cases hk : k0 = k
    · subst hk
      simp [setHeader, getHeader, hne]
    · by_cases hk' : k0 = k'
      · subst hk'
        simp [setHeader, getHeader, hk]
      · simp [setHeader, getHeader, hk, hk', ih]

theorem pathClean_ne_nil (p : Str) : pathClean p ≠ [] := by
  unfold pathClean
  by_cases hp : p = []
  · simp [hp]
  · simp only [if_neg hp]
    intro h0
    split_ifs at h0 <;> simp_all

theorem getLast?_eq_index (l : Str) : l[l.length - 1]? = l.getLast? := by
  rw [List.getLast?_eq_getElem?]

theorem take_indexOf_ne_nil (u : Str) (hu : u.head? = some 47) :
    u.take (u.indexOf 63) ≠ [] := by
  cases u with
  | nil => simp at hu
  | cons c rest =>
    have hc : c = 47 := by simpa using hu
    subst hc
    simp [List.indexOf_cons]

/-- On a rooted target the normalisation of `redirect` does not panic, and gives the
target itself when `url.Parse` fails or finds a scheme, its clean form otherwise. -/
theorem redirectTarget_rooted (lib : Lib) (r : Request) (u : Str) (hu : u.head? = some 47) :
    redirectTarget lib r u =
      some (match lib.urlParse u with
        | none => u
        | some scheme => if scheme = [] then cleanTarget u else u) := by
  unfold redirectTarget
  cases hparse : lib.urlParse u with
  | none => rfl
  | some scheme =>
    simp only
    by_cases hs : scheme = []
    · have h0 : u[0]? = some 47 := by
        rw [← List.head?_eq_getElem?]; exact hu
      have hne : u ≠ [] := by
        intro h; rw [h] at hu; simp at hu
      have hrooted : ¬ (u = [] ∨ u[0]? ≠ some 47) := by
        rintro (h | h)
        · exact hne h
        · exact h h0
      have hile : u.indexOf 63 ≤ u.length := List.indexOf_le_length
      have htake : (if u.indexOf 63 < u.length then u.take (u.indexOf 63) else u) =
          u.take (u.indexOf 63) := by
        by_cases hlt : u.indexOf 63 < u.length
        · rw [if_pos hlt]
        · rw [if_neg hlt, List.take_of_length_le (by omega)]
      have hdrop : (if u.indexOf 63 < u.length then u.drop (u.indexOf 63) else []) =
          u.drop (u.indexOf 63) := by
        by_cases hlt : u.indexOf 63 < u.length
        · rw [if_pos hlt]
        · rw [if_neg hlt, List.drop_eq_nil_of_le (by omega)]
      simp only [if_pos hs, if_neg hrooted, htake, hdrop]
      have hPne := take_indexOf_ne_nil u hu
      have hCne := pathClean_ne_nil (u.take (u.indexOf 63))
      obtain ⟨lastP, hlastP⟩ : ∃ c, (u.take (u.indexOf 63)).getLast? = some c := by
        cases h : (u.take (u.indexOf 63)).getLast? with
        | none => exact absurd (List.getLast?_eq_none_iff.mp h) hPne
        | some c => exact ⟨c, rfl⟩
      obtain ⟨lastC, hlastC⟩ : ∃ c, (pathClean (u.take (u.indexOf 63))).getLast? = some c := by
        cases h : (pathClean (u.take (u.indexOf 63))).getLast? with
        | none => exact absurd (List.getLast?_eq_none_iff.mp h) hCne
        | some c => exact ⟨c, rfl⟩
      rw [getLast?_eq_index, hlastP]
      simp only [getLast?_eq_index, hlastC]
      unfold cleanTarget
      simp only [hlastP, hlastC, Option.some.injEq]
      by_cases ht : lastP = 47
      · by_cases hc : lastC = 47
        · simp [ht, hc]
        · simp [ht, hc]
      · simp [ht]
    · simp only [if_neg hs]

theorem ServeHTTP_first_match {σ : Type} (lib : Lib) (env : Env σ)
    (notFound : HandlerInterface σ) (w : ResponseWriter) (r : Request) (s : σ)
    (pre : List (patHandler σ)) (ph : patHandler σ) (post : List (patHandler σ))
    (params : Values) (hpre : ∀ e ∈ pre, try_ e.pat r.URL.Path = .failed)
    (hph : try_ ph.pat r.URL.Path = .matched params) :
    ServeHTTP lib env notFound (pre ++ ph :: post) w r s =
      (if ph.isSlashRedirect then serveSlashRedirect lib w r params s
       else ServeHandlerHttp lib env ph w r params s) := by
  rw [ServeHTTP_skip lib env notFound w r s pre _ hpre, ServeHTTP, hph]

theorem buildUrlWithSlash_head (lib : Lib) (r : Request)
    (hroot : r.URL.Path = [] ∨ r.URL.Path.head? = some 47) :
    (buildUrlWithSlash lib r).head? = some 47 := by
  have h1 : (r.URL.Path ++ [47]).head? = some 47 := by
    rcases hroot with h | h
    · rw [h]; rfl
    · cases hp : r.URL.Path with
      | nil => rfl
      | cons c rest => rw [hp] at h; simpa using h
  have h2 : ∀ (a b : Str), a.head? = some 47 → (a ++ b).head? = some 47 := by
    intro a b ha
    cases a with
    | nil => simp at ha
    | cons c rest => simpa using ha
  unfold buildUrlWithSlash
  simp only
  split_ifs
  · exact h2 _ _ (h2 _ _ (h2 _ _ (h2 _ _ h1)))
  · exact h2 _ _ (h2 _ _ h1)
  · exact h2 _ _ (h2 _ _ h1)
  · exact h1

theorem redirect_location (lib : Lib) (r : Request) (u target : Str) (code : Nat)
    (w : ResponseWriter) (ht : redirectTarget lib r u = some target) :
    ∃ resp, redirect lib r u code = some resp ∧ resp.StatusCode = code ∧
      resp.Header = [(ascii "Location", [target])] ∧
      (writePatternResponse resp w).status = some code ∧
      getHeader (writePatternResponse resp w).header (ascii "Location") = some target := by
  have hne : ascii "Content-Type" ≠ ascii "Location" := by decide
  unfold redirect
  rw [ht]
  simp only
  split_ifs
  · refine ⟨_, rfl, rfl, rfl, rfl, ?_⟩
    simp only [writePatternResponse, HttpResponse.AddHeader, NewHttpResponse0, NewHttpResponse,
      Values.Add, List.foldl_cons, List.foldl_nil, joinComma]
    rw [getHeader_setHeader_ne _ _ _ _ hne, getHeader_setHeader_same]
  · refine ⟨_, rfl, rfl, rfl, rfl, ?_⟩
    simp only [writePatternResponse, HttpResponse.AddHeader, NewHttpResponse0, NewHttpResponse,
      Values.Add, List.foldl_cons, List.foldl_nil, joinComma]
    rw [getHeader_setHeader_ne _ _ _ _ hne, getHeader_setHeader_same]

theorem redirectTarget_slash (lib : Lib) (r : Request)
    (hroot : r.URL.Path = [] ∨ r.URL.Path.head? = some 47) :
    redirectTarget lib r (buildUrlWithSlash lib r) = some (slashRedirectLocation lib r) := by
  rw [redirectTarget_rooted lib r _ (buildUrlWithSlash_head lib r hroot)]
  rfl

/-- C8, as stated, fails on the code. With `append_slash` on and `/blog/` registered, a
request for `/blog` with fragment `a//b` is answered with `Location: /blog/#a/b`, not
`/blog/#a//b`; with `/:page/` registered, a request for `/..` is answered with
`Location: /`, not `/../`: the redirect helper cleans the target. With `:x/`
registered, a request whose path is `?a` (no leading `'/'`) reaches the slash-redirect
entry and `redirect` panics on an empty path part, so no response is written. -/
theorem C8_slash_redirect_counterexample :
    (blogTable.map (fun e => (e.pat, e.isSlashRedirect)) =
        [(ascii "/blog/", false), (ascii "/blog", true)] ∧
      try_ (ascii "/blog/") (ascii "/blog") = .failed ∧
      try_ (ascii "/blog") (ascii "/blog") = .matched [] ∧
      (ServeHTTP exampleLib (idleEnv Unit) (NotFoundHandler Unit exampleLib) blogTable
          emptyWriter (mkRequest (ascii "POST") (ascii "/blog") [] (ascii "a//b")) ()).result =
        .ret ⟨[(ascii "Location", ascii "/blog/#a/b"),
               (ascii "Content-Type", ascii "text/html")], some 301, []⟩ () ∧
      buildUrlWithSlash exampleLib (mkRequest (ascii "POST") (ascii "/blog") [] (ascii "a//b")) =
        ascii "/blog/#a//b") ∧
    (pageTable.map (fun e => (e.pat, e.isSlashRedirect)) =
        [(ascii "/:page/", false), (ascii "/:page", true)] ∧
      try_ (ascii "/:page/") (ascii "/..") = .failed ∧
      try_ (ascii "/:page") (ascii "/..") = .matched [(ascii ":page", [ascii ".."])] ∧
      (ServeHTTP exampleLib (idleEnv Unit) (NotFoundHandler Unit exampleLib) pageTable
          emptyWriter (mkRequest (ascii "POST") (ascii "/..") [] []) ()).result =
        .ret ⟨[(ascii "Location", ascii "/"),
               (ascii "Content-Type", ascii "text/html")], some 301, []⟩ () ∧
      buildUrlWithSlash exampleLib (mkRequest (ascii "POST") (ascii "/..") [] []) =
        ascii "/../") ∧
    (unrootedTable.map (fun e => (e.pat, e.isSlashRedirect)) =
        [(ascii ":x/", false), (ascii ":x", true)] ∧
      try_ (ascii ":x/") (ascii "?a") = .failed ∧
      try_ (ascii ":x") (ascii "?a") = .matched [(ascii ":x", [ascii "?a"])] ∧
      (ServeHTTP exampleLib (idleEnv Unit) (NotFoundHandler Unit exampleLib) unrootedTable
          emptyWriter (mkRequest (ascii "POST") (ascii "?a") [] []) ()).result =
        .fault (ascii "index out of range") ()) := by
  refine ⟨⟨?_, ?_, ?_, ?_, ?_⟩, ⟨?_, ?_, ?_, ?_, ?_⟩, ⟨?_, ?_, ?_, ?_⟩⟩ <;> decide

/-- C8, amended: for every request whose path is empty or begins with `'/'` and whose
first matching entry is a slash-redirect entry, the response written has status 301 and
its `Location` header is the request path followed by `"/"`, by `"?"` and the raw query
when the parsed query is non-empty, and by `"#"` and the fragment when the fragment is
non-empty, in the normal form of the redirect helper: unchanged when `url.Parse` fails
or finds a scheme, otherwise the clean form of its path part with a trailing slash kept
and the rest from the first `'?'` reattached. With `append_slash` on and `/blog/`
registered, `/blog` gives `Location: /blog/` and `/blog?x=1` gives `/blog/?x=1`. -/
theorem C8_slash_redirect_location {σ : Type} (lib : Lib) (env : Env σ)
    (notFound : HandlerInterface σ) (w : ResponseWriter) (r : Request) (s : σ)
    (pre : List (patHandler σ)) (ph : patHandler σ) (post : List (patHandler σ))
    (params : Values) (hpre : ∀ e ∈ pre, try_ e.pat r.URL.Path = .failed)
    (hph : try_ ph.pat r.URL.Path = .matched params) (hflag : ph.isSlashRedirect = true)
    (hroot : r.URL.Path = [] ∨ r.URL.Path.head? = some 47) :
    (∃ w', (ServeHTTP lib env notFound (pre ++ ph :: post) w r s).result = .ret w' s ∧
      w'.status = some 301 ∧
      getHeader w'.header (ascii "Location") = some (slashRedirectLocation lib r)) ∧
    (slashRedirectLocation lib r =
      match lib.urlParse (buildUrlWithSlash lib r) with
      | none => buildUrlWithSlash lib r
      | some scheme =>
        if scheme = [] then
          pathClean ((buildUrlWithSlash lib r).take ((buildUrlWithSlash lib r).indexOf 63)) ++
            (if ((buildUrlWithSlash lib r).take ((buildUrlWithSlash lib r).indexOf 63)).getLast?
                  = some 47 ∧
                (pathClean ((buildUrlWithSlash lib r).take
                  ((buildUrlWithSlash lib r).indexOf 63))).getLast? ≠ some 47
             then [47] else []) ++
            (buildUrlWithSlash lib r).drop ((buildUrlWithSlash lib r).indexOf 63)
        else buildUrlWithSlash lib r) ∧
    (ServeHTTP exampleLib (idleEnv Unit) (NotFoundHandler Unit exampleLib) blogTable
        emptyWriter (mkRequest (ascii "GET") (ascii "/blog") [] []) ()).result =
      .ret ⟨[(ascii "Location", ascii "/blog/"), (ascii "Content-Type", ascii "text/html")],
        some 301, ascii "<a href=\"/blog/\">Moved Permanently</a>.\n"⟩ () ∧
    (ServeHTTP exampleLib (idleEnv Unit) (NotFoundHandler Unit exampleLib) blogTable
        emptyWriter (mkRequest (ascii "GET") (ascii "/blog") (ascii "x=1") []) ()).result =
      .ret ⟨[(ascii "Location", ascii "/blog/?x=1"), (ascii "Content-Type", ascii "text/html")],
        some 301, ascii "<a href=\"/blog/?x=1\">Moved Permanently</a>.\n"⟩ () := by
  refine ⟨?_, rfl, by decide, by decide⟩
  rw [ServeHTTP_first_match lib env notFound w r s pre ph post params hpre hph, if_pos hflag]
  obtain ⟨resp, hresp, _, _, hstatus, hloc⟩ :=
    redirect_location lib r (buildUrlWithSlash lib r) (slashRedirectLocation lib r) 301 w
      (redirectTarget_slash lib r hroot)
  unfold serveSlashRedirect PermanentRedirect NewHttpRequest
  simp only [hresp]
  exact ⟨_, rfl, hstatus, hloc⟩

theorem C8_slash_redirect_location_witness :
    ∃ w', (ServeHTTP exampleLib (idleEnv Unit) (NotFoundHandler Unit exampleLib)
        ([⟨ascii "/blog/", BaseHandler Unit exampleLib, false⟩] ++
          ⟨ascii "/blog", BaseHandler Unit exampleLib, true⟩ :: [])
        emptyWriter (mkRequest (ascii "GET") (ascii "/blog") [] []) ()).result = .ret w' () ∧
      w'.status = some 301 ∧
      getHeader w'.header (ascii "Location") =
        some (slashRedirectLocation exampleLib (mkRequest (ascii "GET") (ascii "/blog") [] [])) :=
  (C8_slash_redirect_location exampleLib (idleEnv Unit) (NotFoundHandler Unit exampleLib)
    emptyWriter (mkRequest (ascii "GET") (ascii "/blog") [] []) ()
    [⟨ascii "/blog/", BaseHandler Unit exampleLib, false⟩]
    ⟨ascii "/blog", BaseHandler Unit exampleLib, true⟩ [] []
    (by intro e he; simp only [List.mem_singleton] at he; subst he; decide)
    (by decide) rfl (Or.inr (by decide))).1

theorem C1_first_match_dispatch_witness :
    ServeHTTP exampleLib (idleEnv Unit) (NotFoundHandler Unit exampleLib)
        ([⟨ascii "/a", BaseHandler Unit exampleLib, false⟩] ++
          ⟨ascii "/:x", helloHandler Unit exampleLib, false⟩ ::
            [⟨ascii "/b", BaseHandler Unit exampleLib, false⟩])
        emptyWriter (mkRequest (ascii "GET") (ascii "/b") [] []) () =
      (if (⟨ascii "/:x", helloHandler Unit exampleLib, false⟩ : patHandler Unit).isSlashRedirect
        then serveSlashRedirect exampleLib emptyWriter (mkRequest (ascii "GET") (ascii "/b") [] [])
          [(ascii ":x", [ascii "b"])] ()
        else ServeHandlerHttp exampleLib (idleEnv Unit)
          ⟨ascii "/:x", helloHandler Unit exampleLib, false⟩ emptyWriter
          (mkRequest (ascii "GET") (ascii "/b") [] []) [(ascii ":x", [ascii "b"])] ()) :=
  ((C1_first_match_dispatch exampleLib (idleEnv Unit) (NotFoundHandler Unit exampleLib)
      ([⟨ascii "/a", BaseHandler Unit exampleLib, false⟩] ++
        ⟨ascii "/:x", helloHandler Unit exampleLib, false⟩ ::
          [⟨ascii "/b", BaseHandler Unit exampleLib, false⟩])
      emptyWriter (mkRequest (ascii "GET") (ascii "/b") [] []) ()).1
    [⟨ascii "/a", BaseHandler Unit exampleLib, false⟩]
    ⟨ascii "/:x", helloHandler Unit exampleLib, false⟩
    [⟨ascii "/b", BaseHandler Unit exampleLib, false⟩] [(ascii ":x", [ascii "b"])] rfl
    (by intro e he; simp only [List.mem_singleton] at he; subst he; decide)
    (by decide)).1

/-! ## The calls recorded by `processRequest` -/

theorem postPhase_trace {σ : Type} (env : Env σ) (request : HttpRequest)
    (response : HttpResponse) (s : σ) (trace : List Event)
    (fd : Option (HttpRequest × HttpResponse)) (sh : Bool) :
    (postPhase env request response s trace fd sh).trace =
      trace ++ [.postprocess request response] := by
  unfold postPhase
  simp only
  cases (env.runMiddlewarePostprocess request response s).2 <;> rfl

theorem postPhase_finishDeferred {σ : Type} (env : Env σ) (request : HttpRequest)
    (response : HttpResponse) (s : σ) (trace : List Event)
    (fd : Option (HttpRequest × HttpResponse)) (sh : Bool) :
    (postPhase env request response s trace fd sh).finishDeferred =
      if sh then fd.map (fun a => (a.1, (env.runMiddlewarePostprocess request response s).1))
      else fd := by
  unfold postPhase
  simp only
  cases (env.runMiddlewarePostprocess request response s).2 <;> rfl

/-- The deferred calls and the recovery only add calls of `Finish`, `runMixinFinish`, the
error log and `ErrorHandler` to the calls of the body. -/
theorem unwind_trace {σ : Type} (lib : Lib) (env : Env σ) (h : HandlerInterface σ)
    (f : Frame σ) :
    ∃ rest, (runRecover lib h (runDeferredMixinFinish env h (runDeferredFinish h f))).trace =
        f.trace ++ rest ∧
      rest.filter isFinish =
        (match f.finishDeferred with
          | none => []
          | some a => [.finish a.1 a.2]) ∧
      rest.filter isPostprocess = [] ∧ rest.filter isPrepare = [] ∧
      rest.filter isMethod = [] := by
  obtain ⟨s, tr, resp, pan, mfd, fd, sh⟩ := f
  cases fd with
  | none =>
    cases mfd with
    | false =>
      cases pan with
      | none =>
        exact ⟨[], by simp [runDeferredFinish, runDeferredMixinFinish, runRecover],
          rfl, rfl, rfl, rfl⟩
      | some v =>
        exact ⟨[.logError (lib.describe v), .errorHandler (lib.describe v)],
          by simp [runDeferredFinish, runDeferredMixinFinish, runRecover], rfl, rfl, rfl, rfl⟩
    | true =>
      cases hM : env.runMixinFinish h s with
      | ret a s1 =>
        cases pan with
        | none =>
          exact ⟨[.mixinFinish],
            by simp [runDeferredFinish, runDeferredMixinFinish, runRecover, hM],
            rfl, rfl, rfl, rfl⟩
        | some v =>
          exact ⟨[.mixinFinish, .logError (lib.describe v), .errorHandler (lib.describe v)],
            by simp [runDeferredFinish, runDeferredMixinFinish, runRecover, hM],
            rfl, rfl, rfl, rfl⟩
      | fault v1 s1 =>
        exact ⟨[.mixinFinish, .logError (lib.describe v1), .errorHandler (lib.describe v1)],
          by simp [runDeferredFinish, runDeferredMixinFinish, runRecover, hM],
          rfl, rfl, rfl, rfl⟩
  | some a =>
    obtain ⟨rq, rs⟩ := a
    cases hF : h.Finish rq rs s with
    | mk left o =>
    cases o with
    | ret u s0 =>
      cases mfd with
      | false =>
        cases pan with
        | none =>
          exact ⟨[.finish rq rs],
            by simp [runDeferredFinish, runDeferredMixinFinish, runRecover, hF],
            rfl, rfl, rfl, rfl⟩
        | some v =>
          exact ⟨[.finish rq rs, .logError (lib.describe v), .errorHandler (lib.describe v)],
            by simp [runDeferredFinish, runDeferredMixinFinish, runRecover, hF],
            rfl, rfl, rfl, rfl⟩
      | true =>
        cases hM : env.runMixinFinish h s0 with
        | ret a s1 =>
          cases pan with
          | none =>
            exact ⟨[.finish rq rs, .mixinFinish],
              by simp [runDeferredFinish, runDeferredMixinFinish, runRecover, hF, hM],
              rfl, rfl, rfl, rfl⟩
          | some v =>
            exact ⟨[.finish rq rs, .mixinFinish, .logError (lib.describe v),
                .errorHandler (lib.describe v)],
              by simp [runDeferredFinish, runDeferredMixinFinish, runRecover, hF, hM],
              rfl, rfl, rfl, rfl⟩
        | fault v1 s1 =>
          exact ⟨[.finish rq rs, .mixinFinish, .logError (lib.describe v1),
              .errorHandler (lib.describe v1)],
            by simp [runDeferredFinish, runDeferredMixinFinish, runRecover, hF, hM],
            rfl, rfl, rfl, rfl⟩
    | fault v0 s0 =>
      cases mfd with
      | false =>
        exact ⟨[.finish rq rs, .logError (lib.describe v0), .errorHandler (lib.describe v0)],
          by simp [runDeferredFinish, runDeferredMixinFinish, runRecover, hF],
          rfl, rfl, rfl, rfl⟩
      | true =>
        cases hM : env.runMixinFinish h s0 with
        | ret a s1 =>
          exact ⟨[.finish rq rs, .mixinFinish, .logError (lib.describe v0),
              .errorHandler (lib.describe v0)],
            by simp [runDeferredFinish, runDeferredMixinFinish, runRecover, hF, hM],
            rfl, rfl, rfl, rfl⟩
        | fault v1 s1 =>
          exact ⟨[.finish rq rs, .mixinFinish, .logError (lib.describe v1),
              .errorHandler (lib.describe v1)],
            by simp [runDeferredFinish, runDeferredMixinFinish, runRecover, hF, hM],
            rfl, rfl, rfl, rfl⟩

/-- The switch records calls of method handlers, or the one call of `ErrorHandler` for
an unsupported method, and nothing else. -/
theorem dispatchMethod_events {σ : Type} (lib : Lib) (h : HandlerInterface σ) (method : Str)
    (request : HttpRequest) (s : σ) :
    (dispatchMethod lib h method request s).2.filter isFinish = [] ∧
    (dispatchMethod lib h method request s).2.filter isPostprocess = [] ∧
    (dispatchMethod lib h method request s).2.filter isPrepare = [] := by
  unfold dispatchMethod
  simp only
  split_ifs
  · cases h.Head request s with
    | fault v s1 => exact ⟨rfl, rfl, rfl⟩
    | ret response s1 =>
      simp only
      split_ifs
      · cases h.Get request s1 with
        | fault v s2 => exact ⟨rfl, rfl, rfl⟩
        | ret getResp s2 =>
          simp only
          split_ifs <;> exact ⟨rfl, rfl, rfl⟩
      · exact ⟨rfl, rfl, rfl⟩
  all_goals exact ⟨rfl, rfl, rfl⟩

/-! ## C9: HEAD answered from GET -/

/-- The frame in which the body of `processRequest` stops when pre-processing and
`Prepare` produced nothing and the method switch assigned `response`. -/
theorem runBody_dispatched {σ : Type} (lib : Lib) (env : Env σ) (h : HandlerInterface σ)
    (r : Request) (params : Values) (s0 s1 s2 s3 : σ)
    (hmix : env.runMixinPrepare h s0 = .ret () s1)
    (hpre : env.runMiddlewarePreprocess (NewHttpRequest r params) s1 = .ret none s2)
    (hprep : h.Prepare (NewHttpRequest r params) s2 = .ret none s3) :
    runBody lib env h r params s0 =
      dispatchPhase lib env h r (NewHttpRequest r params) (NewHttpResponse0 lib) s3
        [.mixinPrepare, .preprocess (NewHttpRequest r params),
          .prepare (NewHttpRequest r params)] := by
  unfold runBody
  simp only [hmix, hpre, hprep]

/-- The switch on a `HEAD` request whose `Head` answers 405 and whose `Get` returns. -/
theorem dispatchMethod_head {σ : Type} (lib : Lib) (h : HandlerInterface σ) (method : Str)
    (request : HttpRequest) (s3 s4 s5 : σ) (headResp getResp : HttpResponse)
    (hmethod : lib.toUpper method = ascii "HEAD")
    (hhead : h.Head request s3 = .ret headResp s4) (h405 : headResp.StatusCode = 405)
    (hget : h.Get request s4 = .ret getResp s5) :
    dispatchMethod lib h method request s3 =
      (.ret (if getResp.StatusCode = 200 then { getResp with Content := [] } else headResp) s5,
        [.method (ascii "HEAD") request, .method (ascii "GET") request]) := by
  unfold dispatchMethod
  simp only [hmethod, if_true, hhead, h405, hget]
  split_ifs <;> rfl

/-- C9, as stated, fails on the code: `NotFoundHandler` of `mux.go` implements only
`Get`, which answers 404; its `Head` is the base default. A `HEAD` request reaches method
dispatch (the recorded calls show `Head`, then `Get`), and `processRequest` returns the
405 response of `Head` with its body, not the 404 status of the `Get` response with an
empty body. -/
theorem C9_head_from_get_counterexample :
    (NotFoundHandler Unit exampleLib).Head
        (NewHttpRequest (mkRequest (ascii "HEAD") (ascii "/missing") [] []) []) () =
      .ret (HttpResponseNotAllowed exampleLib) () ∧
    (NotFoundHandler Unit exampleLib).Get
        (NewHttpRequest (mkRequest (ascii "HEAD") (ascii "/missing") [] []) []) () =
      .ret (NewHttpResponse (ascii "Page not found") 404 (ascii "text/plain")) () ∧
    (processRequest exampleLib (idleEnv Unit) ⟨[], NotFoundHandler Unit exampleLib, false⟩
        (mkRequest (ascii "HEAD") (ascii "/missing") [] []) [] ()).result =
      .ret ⟨ascii "Method Not Allowed", 405, ascii "text/plain", []⟩ () ∧
    (processRequest exampleLib (idleEnv Unit) ⟨[], NotFoundHandler Unit exampleLib, false⟩
        (mkRequest (ascii "HEAD") (ascii "/missing") [] []) [] ()).trace =
      [.mixinPrepare,
       .preprocess (NewHttpRequest (mkRequest (ascii "HEAD") (ascii "/missing") [] []) []),
       .prepare (NewHttpRequest (mkRequest (ascii "HEAD") (ascii "/missing") [] []) []),
       .method (ascii "HEAD") (NewHttpRequest (mkRequest (ascii "HEAD") (ascii "/missing") [] []) []),
       .method (ascii "GET") (NewHttpRequest (mkRequest (ascii "HEAD") (ascii "/missing") [] []) []),
       .postprocess (NewHttpRequest (mkRequest (ascii "HEAD") (ascii "/missing") [] []) [])
         ⟨ascii "Method Not Allowed", 405, ascii "text/plain", []⟩,
       .finish (NewHttpRequest (mkRequest (ascii "HEAD") (ascii "/missing") [] []) [])
         (NewHttpResponse0 exampleLib),
       .mixinFinish] := by
  refine ⟨?_, ?_, ?_, ?_⟩ <;> decide

/-- A panic in flight when the body stops is answered by `ErrorHandler`: the deferred
calls may replace it by a panic of their own, and none of them clears it. -/
theorem unwind_fault {σ : Type} (lib : Lib) (env : Env σ) (h : HandlerInterface σ)
    (f : Frame σ) (v : Str) (hp : f.panicking = some v) :
    ∃ v1 s1, (runRecover lib h (runDeferredMixinFinish env h (runDeferredFinish h f))).result =
      h.ErrorHandler (lib.describe v1) s1 := by
  obtain ⟨s, tr, resp, pan, mfd, fd, sh⟩ := f
  simp only at hp
  subst hp
  cases fd with
  | none =>
    cases mfd with
    | false =>
      exact ⟨v, s, by simp [runDeferredFinish, runDeferredMixinFinish, runRecover]⟩
    | true =>
      cases hM : env.runMixinFinish h s with
      | ret a s1 =>
        exact ⟨v, s1, by simp [runDeferredFinish, runDeferredMixinFinish, runRecover, hM]⟩
      | fault v1 s1 =>
        exact ⟨v1, s1, by simp [runDeferredFinish, runDeferredMixinFinish, runRecover, hM]⟩
  | some a =>
    obtain ⟨rq, rs⟩ := a
    cases hF : h.Finish rq rs s with
    | mk left o =>
      cases o with
      | ret u s0 =>
        cases mfd with
        | false =>
          exact ⟨v, s0, by simp [runDeferredFinish, runDeferredMixinFinish, runRecover, hF]⟩
        | true =>
          cases hM : env.runMixinFinish h s0 with
          | ret a s1 =>
            exact ⟨v, s1, by
              simp [runDeferredFinish, runDeferredMixinFinish, runRecover, hF, hM]⟩
          | fault v1 s1 =>
            exact ⟨v1, s1, by
              simp [runDeferredFinish, runDeferredMixinFinish, runRecover, hF, hM]⟩
      | fault v0 s0 =>
        cases mfd with
        | false =>
          exact ⟨v0, s0, by simp [runDeferredFinish, runDeferredMixinFinish, runRecover, hF]⟩
        | true =>
          cases hM : env.runMixinFinish h s0 with
          | ret a s1 =>
            exact ⟨v0, s1, by
              simp [runDeferredFinish, runDeferredMixinFinish, runRecover, hF, hM]⟩
          | fault v1 s1 =>
            exact ⟨v1, s1, by
              simp [runDeferredFinish, runDeferredMixinFinish, runRecover, hF, hM]⟩

/-- The frame after post-processing carries the panic of post-processing, if any. -/
theorem postPhase_panicking {σ : Type} (env : Env σ) (request : HttpRequest)
    (response : HttpResponse) (s : σ) (trace : List Event)
    (fd : Option (HttpRequest × HttpResponse)) (sh : Bool) (final : HttpResponse) (v : Str)
    (s1 : σ) (hp : env.runMiddlewarePostprocess request response s = (final, .fault v s1)) :
    (postPhase env request response s trace fd sh).panicking = some v := by
  unfold postPhase
  simp only [hp]

/-- C9, amended: for a `HEAD` request that reaches method dispatch on a handler whose
`Head` answers 405 and whose `Get` returns, the response `processRequest` hands to
post-processing, in its one call of it, is the `Get` response with an empty body (its
status, headers and content type) when the `Get` response has status 200, and the 405
response of `Head` when it has any other status. When post-processing, `Finish` and
`runMixinFinish` return, `processRequest` returns that response as post-processing left
it, whatever `Finish` does with the default response it is given; when one of the three
panics, `processRequest` ends as the handler's `ErrorHandler` ends on the description of
a panic. -/
theorem C9_head_from_get {σ : Type} (lib : Lib) (env : Env σ) (ph : patHandler σ)
    (r : Request) (params : Values) (s0 s1 s2 s3 s4 s5 : σ)
    (headResp getResp : HttpResponse)
    (hmethod : lib.toUpper r.Method = ascii "HEAD")
    (hmix : env.runMixinPrepare ph.New s0 = .ret () s1)
    (hpre : env.runMiddlewarePreprocess (NewHttpRequest r params) s1 = .ret none s2)
    (hprep : ph.New.Prepare (NewHttpRequest r params) s2 = .ret none s3)
    (hhead : ph.New.Head (NewHttpRequest r params) s3 = .ret headResp s4)
    (h405 : headResp.StatusCode = 405)
    (hget : ph.New.Get (NewHttpRequest r params) s4 = .ret getResp s5) :
    (∃ rest, (processRequest lib env ph r params s0).trace =
        [.mixinPrepare, .preprocess (NewHttpRequest r params),
         .prepare (NewHttpRequest r params),
         .method (ascii "HEAD") (NewHttpRequest r params),
         .method (ascii "GET") (NewHttpRequest r params),
         .postprocess (NewHttpRequest r params)
           (if getResp.StatusCode = 200 then { getResp with Content := [] } else headResp)] ++
          rest ∧
      rest.filter isPostprocess = []) ∧
    (getResp.StatusCode = 200 →
      (if getResp.StatusCode = 200 then { getResp with Content := [] } else headResp) =
        ⟨[], getResp.StatusCode, getResp.ContentType, getResp.Header⟩) ∧
    (getResp.StatusCode ≠ 200 →
      (if getResp.StatusCode = 200 then { getResp with Content := [] } else headResp) =
        headResp) ∧
    (∀ final s6 left s7 s8,
      env.runMiddlewarePostprocess (NewHttpRequest r params)
          (if getResp.StatusCode = 200 then { getResp with Content := [] } else headResp) s5 =
        (final, .ret () s6) →
      ph.New.Finish (NewHttpRequest r params) (NewHttpResponse0 lib) s6 =
        (left, .ret () s7) →
      env.runMixinFinish ph.New s7 = .ret () s8 →
      (processRequest lib env ph r params s0).result = .ret final s8 ∧
      (processRequest lib env ph r params s0).trace =
        [.mixinPrepare, .preprocess (NewHttpRequest r params),
         .prepare (NewHttpRequest r params),
         .method (ascii "HEAD") (NewHttpRequest r params),
         .method (ascii "GET") (NewHttpRequest r params),
         .postprocess (NewHttpRequest r params)
           (if getResp.StatusCode = 200 then { getResp with Content := [] } else headResp),
         .finish (NewHttpRequest r params) (NewHttpResponse0 lib),
         .mixinFinish]) ∧
    (∀ final v s6,
      env.runMiddlewarePostprocess (NewHttpRequest r params)
          (if getResp.StatusCode = 200 then { getResp with Content := [] } else headResp) s5 =
        (final, .fault v s6) →
      (∃ v1 s9, (processRequest lib env ph r params s0).result =
        ph.New.ErrorHandler (lib.describe v1) s9) ∧
      ∀ left s7 s8,
        ph.New.Finish (NewHttpRequest r params) (NewHttpResponse0 lib) s6 =
          (left, .ret () s7) →
        env.runMixinFinish ph.New s7 = .ret () s8 →
        (processRequest lib env ph r params s0).result =
          ph.New.ErrorHandler (lib.describe v) s8) ∧
    (∀ final s6 left v s7,
      env.runMiddlewarePostprocess (NewHttpRequest r params)
          (if getResp.StatusCode = 200 then { getResp with Content := [] } else headResp) s5 =
        (final, .ret () s6) →
      ph.New.Finish (NewHttpRequest r params) (NewHttpResponse0 lib) s6 =
        (left, .fault v s7) →
      (∃ v1 s9, (processRequest lib env ph r params s0).result =
        ph.New.ErrorHandler (lib.describe v1) s9) ∧
      ∀ s8, env.runMixinFinish ph.New s7 = .ret () s8 →
        (processRequest lib env ph r params s0).result =
          ph.New.ErrorHandler (lib.describe v) s8) ∧
    (∀ final s6 left s7 v s8,
      env.runMiddlewarePostprocess (NewHttpRequest r params)
          (if getResp.StatusCode = 200 then { getResp with Content := [] } else headResp) s5 =
        (final, .ret () s6) →
      ph.New.Finish (NewHttpRequest r params) (NewHttpResponse0 lib) s6 =
        (left, .ret () s7) →
      env.runMixinFinish ph.New s7 = .fault v s8 →
      (processRequest lib env ph r params s0).result =
        ph.New.ErrorHandler (lib.describe v) s8) := by
  have hbody : runBody lib env ph.New r params s0 =
      postPhase env (NewHttpRequest r params)
        (if getResp.StatusCode = 200 then { getResp with Content := [] } else headResp) s5
        ([.mixinPrepare, .preprocess (NewHttpRequest r params),
          .prepare (NewHttpRequest r params)] ++
          [.method (ascii "HEAD") (NewHttpRequest r params),
           .method (ascii "GET") (NewHttpRequest r params)])
        (some (NewHttpRequest r params, NewHttpResponse0 lib)) false := by
    rw [runBody_dispatched lib env ph.New r params s0 s1 s2 s3 hmix hpre hprep]
    unfold dispatchPhase
    rw [dispatchMethod_head lib ph.New r.Method _ s3 s4 s5 headResp getResp hmethod hhead
      h405 hget]
  have hproc : processRequest lib env ph r params s0 =
      runRecover lib ph.New (runDeferredMixinFinish env ph.New (runDeferredFinish ph.New
        (postPhase env (NewHttpRequest r params)
          (if getResp.StatusCode = 200 then { getResp with Content := [] } else headResp) s5
          ([.mixinPrepare, .preprocess (NewHttpRequest r params),
            .prepare (NewHttpRequest r params)] ++
            [.method (ascii "HEAD") (NewHttpRequest r params),
             .method (ascii "GET") (NewHttpRequest r params)])
          (some (NewHttpRequest r params, NewHttpResponse0 lib)) false))) := by
    unfold processRequest
    simp only [hbody]
  refine ⟨?_, ?_, ?_, ?_, ?_, ?_, ?_⟩
  · obtain ⟨rest, htr, _, hpost, _, _⟩ := unwind_trace lib env ph.New
      (postPhase env (NewHttpRequest r params)
        (if getResp.StatusCode = 200 then { getResp with Content := [] } else headResp) s5
        ([.mixinPrepare, .preprocess (NewHttpRequest r params),
          .prepare (NewHttpRequest r params)] ++
          [.method (ascii "HEAD") (NewHttpRequest r params),
           .method (ascii "GET") (NewHttpRequest r params)])
        (some (NewHttpRequest r params, NewHttpResponse0 lib)) false)
    rw [postPhase_trace] at htr
    refine ⟨rest, ?_, hpost⟩
    rw [hproc, htr]
    rfl
  · intro h200
    rw [if_pos h200]
  · intro hne
    rw [if_neg hne]
  · intro final s6 left s7 s8 hp hf hm
    rw [hproc]
    simp only [postPhase, hp, runDeferredFinish, hf, runDeferredMixinFinish, hm, runRecover,
      if_true, Bool.false_eq_true, if_false, List.cons_append, List.nil_append, and_self]
  · intro final v s6 hp
    refine ⟨?_, ?_⟩
    · rw [hproc]
      exact unwind_fault lib env ph.New _ v
        (postPhase_panicking env _ _ s5 _ _ false final v s6 hp)
    · intro left s7 s8 hf hm
      rw [hproc]
      simp only [postPhase, hp, runDeferredFinish, hf, runDeferredMixinFinish, hm, runRecover,
        if_true, Bool.false_eq_true, if_false]
  · intro final s6 left v s7 hp hf
    refine ⟨?_, ?_⟩
    · rw [hproc]
      cases hM : env.runMixinFinish ph.New s7 with
      | ret a s8 =>
        exact ⟨v, s8, by
          simp only [postPhase, hp, runDeferredFinish, hf, runDeferredMixinFinish, hM,
            runRecover, if_true, Bool.false_eq_true, if_false]⟩
      | fault v1 s8 =>
        exact ⟨v1, s8, by
          simp only [postPhase, hp, runDeferredFinish, hf, runDeferredMixinFinish, hM,
            runRecover, if_true, Bool.false_eq_true, if_false]⟩
    · intro s8 hm
      rw [hproc]
      simp only [postPhase, hp, runDeferredFinish, hf, runDeferredMixinFinish, hm, runRecover,
        if_true, Bool.false_eq_true, if_false]
  · intro final s6 left s7 v s8 hp hf hm
    rw [hproc]
    simp only [postPhase, hp, runDeferredFinish, hf, runDeferredMixinFinish, hm, runRecover,
      if_true, Bool.false_eq_true, if_false]

theorem C9_head_from_get_witness :
    (processRequest exampleLib (idleEnv Unit) ⟨ascii "/", helloHandler Unit exampleLib, false⟩
        (mkRequest (ascii "HEAD") (ascii "/") [] []) [] ()).result =
      .ret ⟨[], 200, ascii "text/html", []⟩ () ∧
    (processRequest exampleLib (brokenPostEnv Unit)
        ⟨ascii "/", helloHandler Unit exampleLib, false⟩
        (mkRequest (ascii "HEAD") (ascii "/") [] []) [] ()).result =
      (helloHandler Unit exampleLib).ErrorHandler (exampleLib.describe (ascii "post")) () :=
  ⟨((C9_head_from_get exampleLib (idleEnv Unit)
      ⟨ascii "/", helloHandler Unit exampleLib, false⟩
      (mkRequest (ascii "HEAD") (ascii "/") [] []) [] () () () () () ()
      (HttpResponseNotAllowed exampleLib)
      (NewHttpResponse (ascii "Hello!") 200 (ascii "text/html"))
      (by decide) rfl rfl rfl rfl rfl rfl).2.2.2.1
        ⟨[], 200, ascii "text/html", []⟩ () (NewHttpResponse0 exampleLib) () ()
        rfl rfl rfl).1,
   ((C9_head_from_get exampleLib (brokenPostEnv Unit)
      ⟨ascii "/", helloHandler Unit exampleLib, false⟩
      (mkRequest (ascii "HEAD") (ascii "/") [] []) [] () () () () () ()
      (HttpResponseNotAllowed exampleLib)
      (NewHttpResponse (ascii "Hello!") 200 (ascii "text/html"))
      (by decide) rfl rfl rfl rfl rfl rfl).2.2.2.2.1
        ⟨[], 200, ascii "text/html", []⟩ (ascii "post") () rfl).2
        (NewHttpResponse0 exampleLib) () () rfl rfl⟩

/-! ## C10: fault containment -/

/-- The switch on a `GET` request. -/
theorem dispatchMethod_get {σ : Type} (lib : Lib) (h : HandlerInterface σ) (method : Str)
    (request : HttpRequest) (s : σ) (hmethod : lib.toUpper method = ascii "GET") :
    dispatchMethod lib h method request s =
      (h.Get request s, [.method (ascii "GET") request]) := by
  have hne : ascii "GET" ≠ ascii "HEAD" := by decide
  unfold dispatchMethod
  simp only [hmethod, if_neg hne, if_true]

/-- The frame in which the body stops when `Get`, reached on a `GET` request, panics. -/
theorem runBody_get_fault {σ : Type} (lib : Lib) (env : Env σ) (h : HandlerInterface σ)
    (r : Request) (params : Values) (s0 s1 s2 s3 s4 : σ) (v : Str)
    (hmethod : lib.toUpper r.Method = ascii "GET")
    (hmix : env.runMixinPrepare h s0 = .ret () s1)
    (hpre : env.runMiddlewarePreprocess (NewHttpRequest r params) s1 = .ret none s2)
    (hprep : h.Prepare (NewHttpRequest r params) s2 = .ret none s3)
    (hget : h.Get (NewHttpRequest r params) s3 = .fault v s4) :
    runBody lib env h r params s0 =
      ⟨s4, [.mixinPrepare, .preprocess (NewHttpRequest r params),
            .prepare (NewHttpRequest r params), .method (ascii "GET") (NewHttpRequest r params)],
        NewHttpResponse0 lib, some v, true,
        some (NewHttpRequest r params, NewHttpResponse0 lib), true⟩ := by
  rw [runBody_dispatched lib env h r params s0 s1 s2 s3 hmix hpre hprep]
  unfold dispatchPhase
  rw [dispatchMethod_get lib h r.Method _ s3 hmethod, hget]
  rfl

/-- C10, as stated, fails on the code. A handler whose `Get` panics and whose
`ErrorHandler` panics too: the panic of `ErrorHandler` is raised inside the recovering
closure and leaves `processRequest`, which returns no response. A handler whose `Get`
panics with `boom` and whose `Finish` panics with `fin`: the panic recovered is the one
of `Finish`, so `ErrorHandler` is applied to the description of `fin`, and the response
returned is not `ErrorHandler` applied to the description of the fault of `Get`. -/
theorem C10_fault_containment_counterexample :
    (brokenErrorHandler Unit exampleLib).Get
        (NewHttpRequest (mkRequest (ascii "GET") (ascii "/") [] []) []) () =
      .fault (ascii "boom") () ∧
    (processRequest exampleLib (idleEnv Unit)
        ⟨ascii "/", brokenErrorHandler Unit exampleLib, false⟩
        (mkRequest (ascii "GET") (ascii "/") [] []) [] ()).result =
      .fault (ascii "again") () ∧
    (lateHandler Unit exampleLib).Get
        (NewHttpRequest (mkRequest (ascii "GET") (ascii "/") [] []) []) () =
      .fault (ascii "boom") () ∧
    (processRequest exampleLib (idleEnv Unit) ⟨ascii "/", lateHandler Unit exampleLib, false⟩
        (mkRequest (ascii "GET") (ascii "/") [] []) [] ()).result =
      .ret ⟨ascii "\"fin\"", 500, ascii "text/plain", []⟩ () ∧
    (lateHandler Unit exampleLib).ErrorHandler (exampleLib.describe (ascii "boom")) () =
      .ret ⟨ascii "\"boom\"", 500, ascii "text/plain", []⟩ () ∧
    (processRequest exampleLib (idleEnv Unit) ⟨ascii "/", lateHandler Unit exampleLib, false⟩
        (mkRequest (ascii "GET") (ascii "/") [] []) [] ()).trace =
      [.mixinPrepare,
       .preprocess (NewHttpRequest (mkRequest (ascii "GET") (ascii "/") [] []) []),
       .prepare (NewHttpRequest (mkRequest (ascii "GET") (ascii "/") [] []) []),
       .method (ascii "GET") (NewHttpRequest (mkRequest (ascii "GET") (ascii "/") [] []) []),
       .finish (NewHttpRequest (mkRequest (ascii "GET") (ascii "/") [] []) [])
         (NewHttpResponse0 exampleLib),
       .mixinFinish,
       .logError (ascii "\"fin\""),
       .errorHandler (ascii "\"fin\"")] := by
  refine ⟨?_, ?_, ?_, ?_, ?_, ?_⟩ <;> decide

/-- C10, amended: when `Get`, reached on a `GET` request, panics, the `Finish` hook is
called exactly once and `processRequest` ends as the handler's `ErrorHandler` ends on
the description of the panic recovered: it returns the response `ErrorHandler` returns,
and it ends in the panic of `ErrorHandler` when `ErrorHandler` panics itself. The panic
recovered is the one of `Get` when `Finish` and `runMixinFinish` return, the one of
`Finish` when `Finish` panics and `runMixinFinish` returns, and the one of
`runMixinFinish` when that panics. So the panic of `Get` never leaves
`processRequest`. -/
theorem C10_fault_containment {σ : Type} (lib : Lib) (env : Env σ) (ph : patHandler σ)
    (r : Request) (params : Values) (s0 s1 s2 s3 s4 : σ) (v : Str)
    (hmethod : lib.toUpper r.Method = ascii "GET")
    (hmix : env.runMixinPrepare ph.New s0 = .ret () s1)
    (hpre : env.runMiddlewarePreprocess (NewHttpRequest r params) s1 = .ret none s2)
    (hprep : ph.New.Prepare (NewHttpRequest r params) s2 = .ret none s3)
    (hget : ph.New.Get (NewHttpRequest r params) s3 = .fault v s4) :
    (processRequest lib env ph r params s0).trace.countP isFinish = 1 ∧
    (∃ v1 s9, (processRequest lib env ph r params s0).result =
      ph.New.ErrorHandler (lib.describe v1) s9) ∧
    (∀ left s5 s6,
      ph.New.Finish (NewHttpRequest r params) (NewHttpResponse0 lib) s4 =
        (left, .ret () s5) →
      env.runMixinFinish ph.New s5 = .ret () s6 →
      (processRequest lib env ph r params s0).result =
        ph.New.ErrorHandler (lib.describe v) s6 ∧
      (processRequest lib env ph r params s0).trace =
        [.mixinPrepare, .preprocess (NewHttpRequest r params),
         .prepare (NewHttpRequest r params), .method (ascii "GET") (NewHttpRequest r params),
         .finish (NewHttpRequest r params) (NewHttpResponse0 lib), .mixinFinish,
         .logError (lib.describe v), .errorHandler (lib.describe v)] ∧
      (∀ resp s7, ph.New.ErrorHandler (lib.describe v) s6 = .ret resp s7 →
        (processRequest lib env ph r params s0).result = .ret resp s7) ∧
      (∀ v7 s7, ph.New.ErrorHandler (lib.describe v) s6 = .fault v7 s7 →
        (processRequest lib env ph r params s0).result = .fault v7 s7)) ∧
    (∀ left s5 s6 v5,
      ph.New.Finish (NewHttpRequest r params) (NewHttpResponse0 lib) s4 =
        (left, .fault v5 s5) →
      env.runMixinFinish ph.New s5 = .ret () s6 →
      (processRequest lib env ph r params s0).result =
        ph.New.ErrorHandler (lib.describe v5) s6) ∧
    (∀ left o s5 s6 v6,
      ph.New.Finish (NewHttpRequest r params) (NewHttpResponse0 lib) s4 = (left, o) →
      (o = .ret () s5 ∨ ∃ v5, o = .fault v5 s5) →
      env.runMixinFinish ph.New s5 = .fault v6 s6 →
      (processRequest lib env ph r params s0).result =
        ph.New.ErrorHandler (lib.describe v6) s6) := by
  have hbody := runBody_get_fault lib env ph.New r params s0 s1 s2 s3 s4 v hmethod hmix hpre
    hprep hget
  have hproc : processRequest lib env ph r params s0 =
      runRecover lib ph.New (runDeferredMixinFinish env ph.New (runDeferredFinish ph.New
        ⟨s4, [.mixinPrepare, .preprocess (NewHttpRequest r params),
              .prepare (NewHttpRequest r params),
              .method (ascii "GET") (NewHttpRequest r params)],
          NewHttpResponse0 lib, some v, true,
          some (NewHttpRequest r params, NewHttpResponse0 lib), true⟩)) := by
    unfold processRequest
    simp only [hbody]
  rw [hproc]
  refine ⟨?_, ?_, ?_, ?_, ?_⟩
  · cases hF : ph.New.Finish (NewHttpRequest r params) (NewHttpResponse0 lib) s4 with
    | mk left o =>
    cases o with
    | ret a s5 =>
      cases hM : env.runMixinFinish ph.New s5 with
      | ret b s6 =>
        simp [runDeferredFinish, hF, runDeferredMixinFinish, hM, runRecover, isFinish]
      | fault v6 s6 =>
        simp [runDeferredFinish, hF, runDeferredMixinFinish, hM, runRecover, isFinish]
    | fault v5 s5 =>
      cases hM : env.runMixinFinish ph.New s5 with
      | ret b s6 =>
        simp [runDeferredFinish, hF, runDeferredMixinFinish, hM, runRecover, isFinish]
      | fault v6 s6 =>
        simp [runDeferredFinish, hF, runDeferredMixinFinish, hM, runRecover, isFinish]
  · exact unwind_fault lib env ph.New _ v rfl
  · intro left s5 s6 hF hM
    have hres : (runRecover lib ph.New (runDeferredMixinFinish env ph.New
        (runDeferredFinish ph.New
          ⟨s4, [.mixinPrepare, .preprocess (NewHttpRequest r params),
                .prepare (NewHttpRequest r params),
                .method (ascii "GET") (NewHttpRequest r params)],
            NewHttpResponse0 lib, some v, true,
            some (NewHttpRequest r params, NewHttpResponse0 lib), true⟩))).result =
        ph.New.ErrorHandler (lib.describe v) s6 := by
      simp [runDeferredFinish, hF, runDeferredMixinFinish, hM, runRecover]
    refine ⟨hres, ?_, ?_, ?_⟩
    · simp [runDeferredFinish, hF, runDeferredMixinFinish, hM, runRecover]
    · intro resp s7 hE
      rw [hres, hE]
    · intro v7 s7 hE
      rw [hres, hE]
  · intro left s5 s6 v5 hF hM
    simp [runDeferredFinish, hF, runDeferredMixinFinish, hM, runRecover]
  · intro left o s5 s6 v6 hF ho hM
    rcases ho with ho | ⟨v5, ho⟩
    · subst ho
      simp [runDeferredFinish, hF, runDeferredMixinFinish, hM, runRecover]
    · subst ho
      simp [runDeferredFinish, hF, runDeferredMixinFinish, hM, runRecover]

theorem C10_fault_containment_witness :
    (processRequest exampleLib (idleEnv Unit) ⟨ascii "/", boomHandler Unit exampleLib, false⟩
        (mkRequest (ascii "GET") (ascii "/") [] []) [] ()).trace.countP isFinish = 1 ∧
    (processRequest exampleLib (idleEnv Unit) ⟨ascii "/", boomHandler Unit exampleLib, false⟩
        (mkRequest (ascii "GET") (ascii "/") [] []) [] ()).result =
      .ret (HttpResponseServerError exampleLib) () :=
  ⟨(C10_fault_containment exampleLib (idleEnv Unit)
      ⟨ascii "/", boomHandler Unit exampleLib, false⟩
      (mkRequest (ascii "GET") (ascii "/") [] []) [] () () () () () (ascii "boom")
      (by decide) rfl rfl rfl rfl).1,
   ((C10_fault_containment exampleLib (idleEnv Unit)
      ⟨ascii "/", boomHandler Unit exampleLib, false⟩
      (mkRequest (ascii "GET") (ascii "/") [] []) [] () () () () () (ascii "boom")
      (by decide) rfl rfl rfl rfl).2.2.1 (NewHttpResponse0 exampleLib) () () rfl rfl).2.2.1
        (HttpResponseServerError exampleLib) () rfl⟩

/-! ## C17: the contract of `match` -/

theorem takeWhile_getElem? (f : Nat → Bool) (l : Str) (m : Nat)
    (hm : m < (l.takeWhile f).length) :
    ∃ c, l[m]? = some c ∧ f c = true := by
  obtain ⟨t, ht⟩ : l.takeWhile f <+: l := List.takeWhile_prefix f
  have hget : l[m]? = (l.takeWhile f)[m]? := by
    conv_lhs => rw [← ht]
    exact List.getElem?_append_left hm
  refine ⟨(l.takeWhile f)[m], ?_, ?_⟩
  · rw [hget, List.getElem?_eq_getElem hm]
  · exact List.mem_takeWhile_imp (List.getElem_mem hm)

/-- C17: for `i <= len(s)`, `match(s, f, i)` returns `(s[i:j], c, j)` where `j` is the
least index from `i` on with `j = len(s)` or `f(s[j])` false (every byte from `i` up to
`j` is accepted by `f`), and `c` is `s[j]`, or zero when `j = len(s)`. It never fails;
the matched string is empty when `f` rejects `s[i]`. -/
theorem C17_match_contract (s : Str) (f : Nat → Bool) (i : Nat) (hi : i ≤ s.length) :
    ∃ j : Nat,
      match_ s f i = some ((s.drop i).take (j - i), (s[j]?).getD 0, j) ∧
      slice s i j = some ((s.drop i).take (j - i)) ∧
      i ≤ j ∧ j ≤ s.length ∧
      (∀ k, i ≤ k → k < j → ∃ c, s[k]? = some c ∧ f c = true) ∧
      (j = s.length ∨ ∃ c, s[j]? = some c ∧ f c = false) ∧
      ((∃ c, s[i]? = some c ∧ f c = false) → j = i ∧ (s.drop i).take (j - i) = []) := by
  have hle := takeWhile_length_le_sub s f i
  have hfirst : ∀ k, i ≤ k → k < i + ((s.drop i).takeWhile f).length →
      ∃ c, s[k]? = some c ∧ f c = true := by
    intro k hik hkj
    obtain ⟨c, hc, hfc⟩ := takeWhile_getElem? f (s.drop i) (k - i) (by omega)
    refine ⟨c, ?_, hfc⟩
    rw [List.getElem?_drop] at hc
    rw [← hc]
    congr 1
    omega
  refine ⟨i + ((s.drop i).takeWhile f).length, ?_, ?_, by omega, by omega, hfirst, ?_, ?_⟩
  · rw [match_eq s f i hi]
    have h1 : i + ((s.drop i).takeWhile f).length - i = ((s.drop i).takeWhile f).length := by
      omega
    rw [h1, take_takeWhile_length, ← drop_takeWhile_length, List.drop_drop, nextByte_drop]
  · unfold slice
    rw [if_pos ⟨by omega, by omega⟩]
  · by_cases hlt : i + ((s.drop i).takeWhile f).length < s.length
    · right
      refine ⟨s[i + ((s.drop i).takeWhile f).length], List.getElem?_eq_getElem hlt, ?_⟩
      have hd : (s.drop i).dropWhile f =
          s.drop (i + ((s.drop i).takeWhile f).length) := by
        rw [← drop_takeWhile_length, List.drop_drop]
      rw [List.drop_eq_getElem_cons hlt] at hd
      exact dropWhile_head_false f _ _ _ hd
    · left
      omega
  · rintro ⟨c, hc, hfc⟩
    have hlt : i < s.length := by
      by_contra hge
      rw [List.getElem?_eq_none (by omega)] at hc
      cases hc
    have hci : s[i] = c := by
      rw [List.getElem?_eq_getElem hlt] at hc
      exact Option.some.inj hc
    have htw : (s.drop i).takeWhile f = [] := by
      rw [List.drop_eq_getElem_cons hlt, hci, List.takeWhile_cons_of_neg (by simp [hfc])]
    rw [htw]
    simp

theorem C17_match_contract_witness :
    ∃ j : Nat,
      match_ (ascii "/a123/b") (matchPart 47) 2 =
        some (((ascii "/a123/b").drop 2).take (j - 2), ((ascii "/a123/b")[j]?).getD 0, j) ∧
      j = 5 :=
  (C17_match_contract (ascii "/a123/b") (matchPart 47) 2 (by decide)).elim
    (fun j h => ⟨j, h.1, by
      have h5 : match_ (ascii "/a123/b") (matchPart 47) 2 = some (ascii "123", 47, 5) := by
        decide
      rw [h5] at h
      have := h.1
      simp only [Option.some.injEq, Prod.mk.injEq] at this
      exact this.2.2.symm⟩)

/-! ## C18: `try` is total -/

theorem loopHead_bounds (pat path : Str) :
    ∀ (n : Nat) (st : TryState), loopHead pat path n = some st →
      inBounds pat path st ∧ n ≤ st.j := by
  intro n
  induction n with
  | zero =>
    intro st h
    simp only [loopHead, Option.some.injEq] at h
    subst h
    exact ⟨inBounds_init pat path, Nat.le_refl _⟩
  | succ n ih =>
    intro st h
    simp only [loopHead] at h
    cases hprev : loopHead pat path n with
    | none => rw [hprev] at h; cases h
    | some st0 =>
      rw [hprev] at h
      simp only at h
      cases hstep : tryStep pat path st0 with
      | stop r => rw [hstep] at h; cases h
      | next st1 =>
        rw [hstep] at h
        simp only [Option.some.injEq] at h
        subst h
        obtain ⟨hb0, hn⟩ := ih st0 hprev
        obtain ⟨hb1, hj, _⟩ := tryStep_next_bounds pat path st0 st1 hb0 hstep
        exact ⟨hb1, by omega⟩

theorem tryStep_ne_indexPanic (pat path : Str) (st : TryState) :
    tryStep pat path st ≠ .stop .indexPanic := by
  refine tryStep_cases pat path st (fun r => r ≠ .stop .indexPanic) ?_ ?_ ?_ ?_ ?_
  · intro _ _
    split <;> simp
  · intro _ _ _
    simp
  · intro _ _ _ _ _ _
    simp
  · intro _ _ _ _ _ _ _ _
    simp
  · intro _
    split <;> simp

/-- C18: `try` is total. For every pattern and path it returns, accepting or rejecting,
without an index or slice out of range. At the head of every iteration the cursors
satisfy `i <= len(path)` and `j <= len(pat)`; an iteration that does not return
strictly increases `j` and never decreases `i` (a variable step advances `j` even when
the value is empty and `i` stays, as for pattern `:a/x` on path `/x`), so there are at
most `len(pat) + 1` iterations; and both calls of `match` in a variable step start at an
index no greater than the length of the string scanned, and return. -/
theorem C18_try_total (pat path : Str) :
    (try_ pat path = .failed ∨ ∃ p, try_ pat path = .matched p) ∧
    (∀ n st, loopHead pat path n = some st →
      st.i ≤ path.length ∧ st.j ≤ pat.length ∧
      tryStep pat path st ≠ .stop .indexPanic ∧
      (∀ st', tryStep pat path st = .next st' → st.j < st'.j ∧ st.i ≤ st'.i) ∧
      (st.i < path.length → st.j < pat.length → pat[st.j]? = some 58 →
        st.j + 1 ≤ pat.length ∧ st.i ≤ path.length ∧
        (match_ pat isAlnum (st.j + 1)).isSome = true ∧
        ∀ nextc, (match_ path (matchPart nextc) st.i).isSome = true)) ∧
    (∀ n, pat.length < n → loopHead pat path n = none) ∧
    tryStep (ascii ":a/x") (ascii "/x") ⟨0, 0, []⟩ =
      .next ⟨0, 2, [(ascii ":a", [[]])]⟩ := by
  refine ⟨try_total pat path, ?_, ?_, by decide⟩
  · intro n st h
    obtain ⟨hb, _⟩ := loopHead_bounds pat path n st h
    refine ⟨hb.1, hb.2, tryStep_ne_indexPanic pat path st, ?_, ?_⟩
    · intro st' hstep
      exact (tryStep_next_bounds pat path st st' hb hstep).2
    · intro h1 h2 _
      refine ⟨by omega, by omega, ?_, ?_⟩
      · rw [match_eq pat isAlnum (st.j + 1) (by omega)]
        rfl
      · intro nextc
        rw [match_eq path (matchPart nextc) st.i (by omega)]
        rfl
  · intro n hn
    cases h : loopHead pat path n with
    | none => rfl
    | some st =>
      obtain ⟨hb, hj⟩ := loopHead_bounds pat path n st h
      have := hb.2
      omega

theorem C18_try_total_witness :
    (2 : Nat) ≤ (ascii "/a123/b").length ∧ 2 ≤ (ascii "/a:x/b").length :=
  ⟨((C18_try_total (ascii "/a:x/b") (ascii "/a123/b")).2.1 2 ⟨2, 2, []⟩ (by decide)).1,
   ((C18_try_total (ascii "/a:x/b") (ascii "/a123/b")).2.1 2 ⟨2, 2, []⟩ (by decide)).2.1⟩

/-! ## C20, C16, C15: the redirect helpers -/

theorem pathSplitDir_prefix (p : Str) : pathSplitDir p <+: p := by
  unfold pathSplitDir
  have h : p.reverse.dropWhile (fun c => c != 47) <:+ p.reverse := List.dropWhile_suffix _
  have h2 := List.reverse_prefix.mpr h
  rwa [List.reverse_reverse] at h2

theorem pathSplitDir_head (p : Str) (hp : p.head? = some 47) :
    (pathSplitDir p).head? = some 47 := by
  have hmem : (47 : Nat) ∈ p.reverse := by
    cases p with
    | nil => simp at hp
    | cons c rest =>
      have hc : c = 47 := by simpa using hp
      subst hc
      simp
  have hne : pathSplitDir p ≠ [] := by
    unfold pathSplitDir
    intro h
    have h' : p.reverse.dropWhile (fun c => c != 47) = [] := by
      simpa using h
    have hall := List.dropWhile_eq_nil_iff.mp h' 47 hmem
    simp at hall
  obtain ⟨t, ht⟩ := pathSplitDir_prefix p
  cases hd : pathSplitDir p with
  | nil => exact absurd hd hne
  | cons a d =>
    rw [hd] at ht
    rw [← ht] at hp
    simpa using hp

theorem resolveTarget_head (r : Request) (urlStr : Str)
    (hroot : r.URL.Path = [] ∨ r.URL.Path.head? = some 47) :
    (resolveTarget r urlStr).head? = some 47 := by
  unfold resolveTarget
  by_cases hrel : urlStr = [] ∨ urlStr[0]? ≠ some 47
  · rw [if_pos hrel]
    have hold : (if r.URL.Path = [] then [47] else r.URL.Path).head? = some 47 := by
      rcases hroot with h | h
      · rw [if_pos h]; rfl
      · by_cases he : r.URL.Path = []
        · rw [if_pos he]; rfl
        · rw [if_neg he]; exact h
    have hdir := pathSplitDir_head _ hold
    cases hd : pathSplitDir (if r.URL.Path = [] then [47] else r.URL.Path) with
    | nil => rw [hd] at hdir; simp at hdir
    | cons a d => rw [hd] at hdir; simpa using hdir
  · rw [if_neg hrel]
    have h0 : urlStr[0]? = some 47 := by
      by_contra h
      exact hrel (Or.inr h)
    rw [List.head?_eq_getElem?]
    exact h0

theorem targetPathPart_ne_nil (r : Request) (urlStr : Str)
    (hroot : r.URL.Path = [] ∨ r.URL.Path.head? = some 47) :
    targetPathPart r urlStr ≠ [] :=
  take_indexOf_ne_nil _ (resolveTarget_head r urlStr hroot)

/-- The normalisation of `redirect` on a target that parses without scheme: a panic when
the path part of the resolved target is empty, its clean form otherwise. -/
theorem redirectTarget_noScheme (lib : Lib) (r : Request) (u : Str)
    (hparse : lib.urlParse u = some []) :
    redirectTarget lib r u =
      if targetPathPart r u = [] then none else some (cleanTarget (resolveTarget r u)) := by
  have hres : (if u = [] ∨ u[0]? ≠ some 47 then
        pathSplitDir (if r.URL.Path = [] then [47] else r.URL.Path) ++ u else u) =
      resolveTarget r u := rfl
  unfold redirectTarget targetPathPart
  simp only [hparse, if_true, hres]
  generalize resolveTarget r u = T at *
  have hile : T.indexOf 63 ≤ T.length := List.indexOf_le_length
  have htake : (if T.indexOf 63 < T.length then T.take (T.indexOf 63) else T) =
      T.take (T.indexOf 63) := by
    by_cases hlt : T.indexOf 63 < T.length
    · rw [if_pos hlt]
    · rw [if_neg hlt, List.take_of_length_le (by omega)]
  have hdrop : (if T.indexOf 63 < T.length then T.drop (T.indexOf 63) else []) =
      T.drop (T.indexOf 63) := by
    by_cases hlt : T.indexOf 63 < T.length
    · rw [if_pos hlt]
    · rw [if_neg hlt, List.drop_eq_nil_of_le (by omega)]
  simp only [htake, hdrop]
  by_cases hP : T.take (T.indexOf 63) = []
  · rw [if_pos hP, hP]
    rfl
  · rw [if_neg hP]
    have hCne := pathClean_ne_nil (T.take (T.indexOf 63))
    obtain ⟨lastP, hlastP⟩ : ∃ c, (T.take (T.indexOf 63)).getLast? = some c := by
      cases h : (T.take (T.indexOf 63)).getLast? with
      | none => exact absurd (List.getLast?_eq_none_iff.mp h) hP
      | some c => exact ⟨c, rfl⟩
    obtain ⟨lastC, hlastC⟩ : ∃ c, (pathClean (T.take (T.indexOf 63))).getLast? = some c := by
      cases h : (pathClean (T.take (T.indexOf 63))).getLast? with
      | none => exact absurd (List.getLast?_eq_none_iff.mp h) hCne
      | some c => exact ⟨c, rfl⟩
    rw [getLast?_eq_index, hlastP]
    simp only [getLast?_eq_index, hlastC]
    unfold cleanTarget
    simp only [hlastP, hlastC, Option.some.injEq]
    by_cases ht : lastP = 47
    · by_cases hc : lastC = 47
      · simp [ht, hc]
      · simp [ht, hc]
    · simp [ht]

theorem redirectTarget_passthrough (lib : Lib) (r : Request) (u : Str)
    (hparse : lib.urlParse u = none ∨ ∃ scheme, lib.urlParse u = some scheme ∧ scheme ≠ []) :
    redirectTarget lib r u = some u := by
  unfold redirectTarget
  rcases hparse with h | ⟨scheme, h, hs⟩
  · rw [h]
  · rw [h]
    simp only [if_neg hs]

/-- On a request whose path is empty or rooted, the normalisation never panics. -/
theorem redirectTarget_isSome (lib : Lib) (r : Request) (u : Str)
    (hroot : r.URL.Path = [] ∨ r.URL.Path.head? = some 47) :
    ∃ target, redirectTarget lib r u = some target := by
  cases hparse : lib.urlParse u with
  | none => exact ⟨u, redirectTarget_passthrough lib r u (Or.inl hparse)⟩
  | some scheme =>
    by_cases hs : scheme = []
    · subst hs
      rw [redirectTarget_noScheme lib r u hparse,
        if_neg (targetPathPart_ne_nil r u hroot)]
      exact ⟨_, rfl⟩
    · exact ⟨u, redirectTarget_passthrough lib r u (Or.inr ⟨scheme, hparse, hs⟩)⟩

theorem index_last_ne_none (l : Str) (h : l ≠ []) : l[l.length - 1]? ≠ none := by
  rw [getLast?_eq_index]
  intro hn
  exact h (List.getLast?_eq_none_iff.mp hn)

/-- What `redirect` returns once the normalisation has produced `target`. -/
theorem redirect_eq (lib : Lib) (r : Request) (u target : Str) (code : Nat)
    (ht : redirectTarget lib r u = some target) :
    redirect lib r u code =
      some ⟨if r.Method = ascii "GET" then
              ascii "<a href=\"" ++ lib.htmlEscape target ++ ascii "\">" ++
                lib.statusText code ++ ascii "</a>.\n"
            else [],
            code, lib.defaultContentType, [(ascii "Location", [target])]⟩ := by
  unfold redirect
  rw [ht]
  simp only
  split_ifs <;> rfl

/-- C20: `redirect` performs no out-of-range index on a request whose path is empty or
begins with `'/'`. For every target (the empty one and those beginning with `'?'`
included) and every code, the path part left after stripping the query is non-empty
where its last byte is inspected, before and after cleaning, and `redirect` returns a
response. -/
theorem C20_redirect_no_index_fault (lib : Lib) (r : Request) (urlStr : Str) (code : Nat)
    (hroot : r.URL.Path = [] ∨ r.URL.Path.head? = some 47) :
    (∃ resp, redirect lib r urlStr code = some resp) ∧
    targetPathPart r urlStr ≠ [] ∧
    (targetPathPart r urlStr)[(targetPathPart r urlStr).length - 1]? ≠ none ∧
    pathClean (targetPathPart r urlStr) ≠ [] ∧
    (pathClean (targetPathPart r urlStr))[(pathClean (targetPathPart r urlStr)).length - 1]?
      ≠ none ∧
    redirectTarget exampleLib (mkRequest (ascii "GET") (ascii "/a/b") [] []) [] =
      some (ascii "/a/") ∧
    redirectTarget exampleLib (mkRequest (ascii "GET") (ascii "/a/b") [] []) (ascii "?x=1") =
      some (ascii "/a/?x=1") ∧
    redirectTarget exampleLib (mkRequest (ascii "GET") [] [] []) [] = some (ascii "/") := by
  have hP := targetPathPart_ne_nil r urlStr hroot
  have hC := pathClean_ne_nil (targetPathPart r urlStr)
  refine ⟨?_, hP, index_last_ne_none _ hP, hC, index_last_ne_none _ hC,
    by decide, by decide, by decide⟩
  obtain ⟨target, ht⟩ := redirectTarget_isSome lib r urlStr hroot
  exact ⟨_, redirect_eq lib r urlStr target code ht⟩

theorem C20_redirect_no_index_fault_witness :
    ((mkRequest (ascii "GET") (ascii "/a/b") [] []).URL.Path = [] ∨
      (mkRequest (ascii "GET") (ascii "/a/b") [] []).URL.Path.head? = some 47) ∧
    ∃ resp, redirect exampleLib (mkRequest (ascii "GET") (ascii "/a/b") [] [])
      (ascii "?x=1") 307 = some resp :=
  ⟨Or.inr (by decide),
   (C20_redirect_no_index_fault exampleLib (mkRequest (ascii "GET") (ascii "/a/b") [] [])
      (ascii "?x=1") 307 (Or.inr (by decide))).1⟩

/-- C16, as stated, fails on the code. For an empty request path and the relative target
`b` the `Location` is `/b`: the code resolves against `"/"`, not against the (empty)
directory of the request path, which would give `b`. For the request path `*` and the
target `?x=1`, which parses and has no scheme, the path part is empty and `redirect`
panics, where the rule would give `.?x=1`. -/
theorem C16_target_normalisation_counterexample :
    (exampleLib.urlParse (ascii "b") = some [] ∧
      redirectTarget exampleLib (mkRequest (ascii "GET") [] [] []) (ascii "b") =
        some (ascii "/b") ∧
      cleanTarget (pathSplitDir (mkRequest (ascii "GET") [] [] []).URL.Path ++ ascii "b") =
        ascii "b") ∧
    (exampleLib.urlParse (ascii "?x=1") = some [] ∧
      redirectTarget exampleLib (mkRequest (ascii "GET") (ascii "*") [] []) (ascii "?x=1") =
        none ∧
      redirect exampleLib (mkRequest (ascii "GET") (ascii "*") [] []) (ascii "?x=1") 307 =
        none ∧
      cleanTarget
          (pathSplitDir (mkRequest (ascii "GET") (ascii "*") [] []).URL.Path ++ ascii "?x=1") =
        ascii ".?x=1") := by
  refine ⟨⟨?_, ?_, ?_⟩, ⟨?_, ?_, ?_, ?_⟩⟩ <;> decide

/-- C16, amended: for every request and every target that parses without scheme, let
`T` be the target itself if it starts with `'/'`, otherwise the directory part of the
request path (of `"/"` when the request path is empty) followed by the target; let `P`
be `T` up to its first `'?'` and `Q` the rest of `T` from that `'?'`. When `P` is
non-empty, as it is for every request whose path is empty or begins with `'/'`, the
`Location` header is `Clean(P)`, followed by `"/"` if `P` ends with `'/'` and `Clean(P)`
does not, followed by `Q`: a trailing slash on the path part survives cleaning and the
query string is reattached byte for byte. -/
theorem C16_target_normalisation (lib : Lib) (r : Request) (urlStr : Str) (code : Nat)
    (hparse : lib.urlParse urlStr = some [])
    (hP : (resolveTarget r urlStr).take ((resolveTarget r urlStr).indexOf 63) ≠ []) :
    (∃ resp, redirect lib r urlStr code = some resp ∧
      resp.Header = [(ascii "Location",
        [pathClean ((resolveTarget r urlStr).take ((resolveTarget r urlStr).indexOf 63)) ++
          (if ((resolveTarget r urlStr).take ((resolveTarget r urlStr).indexOf 63)).getLast?
                = some 47 ∧
              (pathClean ((resolveTarget r urlStr).take
                ((resolveTarget r urlStr).indexOf 63))).getLast? ≠ some 47
           then [47] else []) ++
          (resolveTarget r urlStr).drop ((resolveTarget r urlStr).indexOf 63)])]) ∧
    (resolveTarget r urlStr =
      if urlStr.head? = some 47 then urlStr
      else pathSplitDir (if r.URL.Path = [] then [47] else r.URL.Path) ++ urlStr) ∧
    (((resolveTarget r urlStr).take ((resolveTarget r urlStr).indexOf 63)).getLast? = some 47 →
      (pathClean ((resolveTarget r urlStr).take ((resolveTarget r urlStr).indexOf 63)) ++
        (if ((resolveTarget r urlStr).take ((resolveTarget r urlStr).indexOf 63)).getLast?
              = some 47 ∧
            (pathClean ((resolveTarget r urlStr).take
              ((resolveTarget r urlStr).indexOf 63))).getLast? ≠ some 47
         then [47] else [])).getLast? = some 47) ∧
    (r.URL.Path = [] ∨ r.URL.Path.head? = some 47 →
      (resolveTarget r urlStr).take ((resolveTarget r urlStr).indexOf 63) ≠ []) := by
  have ht : redirectTarget lib r urlStr = some (cleanTarget (resolveTarget r urlStr)) := by
    rw [redirectTarget_noScheme lib r urlStr hparse]
    exact if_neg hP
  refine ⟨?_, ?_, ?_, fun hroot => targetPathPart_ne_nil r urlStr hroot⟩
  · exact ⟨_, redirect_eq lib r urlStr _ code ht, rfl⟩
  · unfold resolveTarget
    by_cases hh : urlStr.head? = some 47
    · have h0 : urlStr[0]? = some 47 := by
        rw [← List.head?_eq_getElem?]; exact hh
      have hne : urlStr ≠ [] := by
        intro h; rw [h] at hh; simp at hh
      have hn : ¬ (urlStr = [] ∨ urlStr[0]? ≠ some 47) := by
        rintro (h | h)
        · exact hne h
        · exact h h0
      rw [if_neg hn, if_pos hh]
    · have hy : urlStr = [] ∨ urlStr[0]? ≠ some 47 := by
        right
        rw [← List.head?_eq_getElem?]
        exact hh
      rw [if_pos hy, if_neg hh]
  · intro hlast
    by_cases hc : (pathClean ((resolveTarget r urlStr).take
        ((resolveTarget r urlStr).indexOf 63))).getLast? = some 47
    · have hn : ¬ (((resolveTarget r urlStr).take
            ((resolveTarget r urlStr).indexOf 63)).getLast? = some 47 ∧
          (pathClean ((resolveTarget r urlStr).take
            ((resolveTarget r urlStr).indexOf 63))).getLast? ≠ some 47) :=
        fun h => h.2 hc
      rw [if_neg hn, List.append_nil]
      exact hc
    · rw [if_pos ⟨hlast, hc⟩]
      simp

theorem C16_target_normalisation_witness :
    ∃ resp, redirect exampleLib (mkRequest (ascii "GET") (ascii "/a/b") [] [])
        (ascii "c/../d/?x=1") 307 = some resp ∧
      resp.Header = [(ascii "Location", [ascii "/a/d/?x=1"])] :=
  (C16_target_normalisation exampleLib (mkRequest (ascii "GET") (ascii "/a/b") [] [])
    (ascii "c/../d/?x=1") 307 (by decide) (by decide)).1.elim
    (fun resp h => ⟨resp, h.1, by rw [h.2]; decide⟩)

/-- C15, as stated, fails on the code. For a `GET` request for `/` and the target
`/a//b`, the anchor of the body links to the normalised target `/a/b`, the string of the
`Location` header, not to the target `/a//b` (which `html.EscapeString` leaves as it
is). For a request whose path is `*` and the empty target, the path part is empty and
neither helper returns a response: `redirect` panics. -/
theorem C15_redirect_helpers_counterexample :
    (PermanentRedirect exampleLib (NewHttpRequest (mkRequest (ascii "GET") (ascii "/") [] []) [])
        (ascii "/a//b") =
      some ⟨ascii "<a href=\"/a/b\">Moved Permanently</a>.\n", 301, ascii "text/html",
        [(ascii "Location", [ascii "/a/b"])]⟩ ∧
     exampleLib.htmlEscape (ascii "/a//b") = ascii "/a//b" ∧
     ascii "<a href=\"/a/b\">Moved Permanently</a>.\n" ≠
       ascii "<a href=\"" ++ exampleLib.htmlEscape (ascii "/a//b") ++ ascii "\">" ++
         exampleLib.statusText 301 ++ ascii "</a>.\n") ∧
    (exampleLib.urlParse [] = some [] ∧
     PermanentRedirect exampleLib
        (NewHttpRequest (mkRequest (ascii "GET") (ascii "*") [] []) []) [] = none ∧
     TemporaryRedirect exampleLib
        (NewHttpRequest (mkRequest (ascii "GET") (ascii "*") [] []) []) [] = none) := by
  refine ⟨⟨?_, ?_, ?_⟩, ⟨?_, ?_, ?_⟩⟩ <;> decide

/-- C15, amended: for every request whose path is empty or begins with `'/'` and every
target, the normalisation yields a target `t`, `PermanentRedirect` returns status 301
and `TemporaryRedirect` status 307, each with a `Location` header holding `t`; the body
is the anchor `<a href="` `htmlEscape(t)` `">` `statusText(code)` `</a>.` and a newline,
built from the normalised target `t`, when the method of the request is exactly `GET`,
and is empty for every other method. The same holds for any request on which the
normalisation yields a target. -/
theorem C15_redirect_helpers (lib : Lib) (request : HttpRequest) (urlStr : Str)
    (hroot : request.RawRequest.URL.Path = [] ∨ request.RawRequest.URL.Path.head? = some 47) :
    (∃ t, redirectTarget lib request.RawRequest urlStr = some t) ∧
    (∀ t, redirectTarget lib request.RawRequest urlStr = some t →
      (∃ resp, PermanentRedirect lib request urlStr = some resp ∧ resp.StatusCode = 301 ∧
        resp.Header = [(ascii "Location", [t])] ∧
        (request.RawRequest.Method = ascii "GET" →
          resp.Content = ascii "<a href=\"" ++ lib.htmlEscape t ++ ascii "\">" ++
            lib.statusText 301 ++ ascii "</a>.\n") ∧
        (request.RawRequest.Method ≠ ascii "GET" → resp.Content = [])) ∧
      (∃ resp, TemporaryRedirect lib request urlStr = some resp ∧ resp.StatusCode = 307 ∧
        resp.Header = [(ascii "Location", [t])] ∧
        (request.RawRequest.Method = ascii "GET" →
          resp.Content = ascii "<a href=\"" ++ lib.htmlEscape t ++ ascii "\">" ++
            lib.statusText 307 ++ ascii "</a>.\n") ∧
        (request.RawRequest.Method ≠ ascii "GET" → resp.Content = []))) := by
  refine ⟨redirectTarget_isSome lib request.RawRequest urlStr hroot, ?_⟩
  intro t ht
  constructor
  · refine ⟨_, redirect_eq lib request.RawRequest urlStr t 301 ht, rfl, rfl, ?_, ?_⟩
    · intro hm
      simp only [if_pos hm]
    · intro hm
      simp only [if_neg hm]
  · refine ⟨_, redirect_eq lib request.RawRequest urlStr t 307 ht, rfl, rfl, ?_, ?_⟩
    · intro hm
      simp only [if_pos hm]
    · intro hm
      simp only [if_neg hm]

theorem C15_redirect_helpers_witness :
    ∃ t, redirectTarget exampleLib
      (NewHttpRequest (mkRequest (ascii "GET") (ascii "/a/b") [] []) []).RawRequest
      (ascii "c") = some t :=
  (C15_redirect_helpers exampleLib
    (NewHttpRequest (mkRequest (ascii "GET") (ascii "/a/b") [] []) []) (ascii "c")
    (Or.inr (by decide))).1

/-! ## C11: `ServeTestResponse` against `ServeHTTP` -/

/-- When some entry accepts the path, `ServeHTTP` writes the response `ServeTestResponse`
returns, and panics when it panics. -/
theorem serve_agree_on_match {σ : Type} (lib : Lib) (env : Env σ)
    (notFound : HandlerInterface σ) (w : ResponseWriter) (r : Request) (s : σ) :
    ∀ (T : List (patHandler σ)),
      (∃ e ∈ T, ∃ params, try_ e.pat r.URL.Path = .matched params) →
      (∀ resp s1, (ServeTestResponse lib env T r s).result = .ret (some resp) s1 →
        (ServeHTTP lib env notFound T w r s).result = .ret (writePatternResponse resp w) s1) ∧
      (∀ v s1, (ServeTestResponse lib env T r s).result = .fault v s1 →
        (ServeHTTP lib env notFound T w r s).result = .fault v s1) ∧
      (∀ s1, (ServeTestResponse lib env T r s).result ≠ .ret none s1) := by
  intro T
  induction T with
  | nil =>
    rintro ⟨e, he, _⟩
    cases he
  | cons ph rest ih =>
    intro hex
    rcases try_total ph.pat r.URL.Path with hf | ⟨params, hm⟩
    · have hex' : ∃ e ∈ rest, ∃ params, try_ e.pat r.URL.Path = .matched params := by
        obtain ⟨e, he, params, hp⟩ := hex
        rcases List.mem_cons.mp he with h | h
        · rw [h, hf] at hp
          cases hp
        · exact ⟨e, h, params, hp⟩
      simp only [ServeTestResponse, ServeHTTP, hf]
      exact ih hex'
    · simp only [ServeTestResponse, ServeHTTP, hm]
      by_cases hflag : ph.isSlashRedirect = true
      · simp only [hflag, if_true, serveSlashRedirect]
        cases hred : PermanentRedirect lib (NewHttpRequest r params) (buildUrlWithSlash lib r) with
        | none =>
          refine ⟨?_, ?_, ?_⟩
          · intro resp s1 h; cases h
          · intro v s1 h
            injection h with h1 h2
            rw [h1, h2]
          · intro s1 h; cases h
        | some resp0 =>
          refine ⟨?_, ?_, ?_⟩
          · intro resp s1 h
            injection h with h1 h2
            injection h1 with h1
            rw [h1, h2]
          · intro v s1 h; cases h
          · intro s1 h
            injection h with h1 _
            cases h1
      · simp only [hflag, Bool.false_eq_true, if_false, ServeHandlerHttp]
        cases hres : (processRequest lib env ph r params s).result with
        | ret response s2 =>
          refine ⟨?_, ?_, ?_⟩
          · intro resp s1 h
            injection h with h1 h2
            injection h1 with h1
            rw [h1, h2]
          · intro v s1 h; cases h
          · intro s1 h
            injection h with h1 _
            cases h1
        | fault v0 s2 =>
          refine ⟨?_, ?_, ?_⟩
          · intro resp s1 h; cases h
          · intro v s1 h
            injection h with h1 h2
            rw [h1, h2]
          · intro s1 h; cases h

/-- C11 at the failing input: with the table of `examples/notfound` (only `/`
registered) and the request `GET /bad/`, which no entry accepts, `ServeHTTP` writes the
404 response of the not-found handler, while `ServeTestResponse` returns `nil`. -/
theorem C11_ServeTestResponse_not_found :
    (indexTable.map (fun e => (e.pat, e.isSlashRedirect)) = [(ascii "/", false)] ∧
      try_ (ascii "/") (ascii "/bad/") = .failed) ∧
    (ServeHTTP exampleLib (idleEnv Unit) (NotFoundHandler Unit exampleLib) indexTable
        emptyWriter (mkRequest (ascii "GET") (ascii "/bad/") [] []) ()).result =
      .ret ⟨[(ascii "Content-Type", ascii "text/plain")], some 404, ascii "Page not found"⟩ () ∧
    (ServeTestResponse exampleLib (idleEnv Unit) indexTable
        (mkRequest (ascii "GET") (ascii "/bad/") [] []) ()).result = .ret none () ∧
    (ServeTestResponse exampleLib (idleEnv Unit) indexTable
        (mkRequest (ascii "GET") (ascii "/") [] []) ()).result =
      .ret (some ⟨ascii "Hello!", 200, ascii "text/html", []⟩) () := by
  refine ⟨⟨?_, ?_⟩, ?_, ?_, ?_⟩ <;> decide

/-! ## C12: method dispatch -/

/-- When neither pre-processing nor `Prepare` finished the pipeline and the switch
assigned a response, that response is the one handed to post-processing. -/
theorem runBody_dispatch_ret {σ : Type} (lib : Lib) (env : Env σ) (h : HandlerInterface σ)
    (r : Request) (params : Values) (s0 s1 s2 s3 s4 : σ) (resp : HttpResponse)
    (evs : List Event)
    (hmix : env.runMixinPrepare h s0 = .ret () s1)
    (hpre : env.runMiddlewarePreprocess (NewHttpRequest r params) s1 = .ret none s2)
    (hprep : h.Prepare (NewHttpRequest r params) s2 = .ret none s3)
    (hdisp : dispatchMethod lib h r.Method (NewHttpRequest r params) s3 = (.ret resp s4, evs)) :
    runBody lib env h r params s0 =
      postPhase env (NewHttpRequest r params) resp s4
        ([.mixinPrepare, .preprocess (NewHttpRequest r params),
          .prepare (NewHttpRequest r params)] ++ evs)
        (some (NewHttpRequest r params, NewHttpResponse0 lib)) false := by
  rw [runBody_dispatched lib env h r params s0 s1 s2 s3 hmix hpre hprep]
  unfold dispatchPhase
  rw [hdisp]

/-- C12: method dispatch is case-insensitive and closed. The switch looks only at the
upper-casing of the method: when it is `GET`, `POST`, `PUT`, `PATCH`, `DELETE` or
`OPTIONS` the response is what the handler's method of that name returns (so `get` and
`GET` dispatch alike); when it is none of these and not `HEAD`, the response is
`ErrorHandler("Unsupported HTTP Method")` and no method handler is called. When neither
pre-processing nor `Prepare` finished the pipeline, the response of the switch is the
one handed on to post-processing. -/
theorem C12_method_dispatch {σ : Type} (lib : Lib) (env : Env σ) (h : HandlerInterface σ)
    (m : Str) (request : HttpRequest) (s : σ) :
    (lib.toUpper m = ascii "GET" →
      dispatchMethod lib h m request s = (h.Get request s, [.method (ascii "GET") request])) ∧
    (lib.toUpper m = ascii "POST" →
      dispatchMethod lib h m request s = (h.Post request s, [.method (ascii "POST") request])) ∧
    (lib.toUpper m = ascii "PUT" →
      dispatchMethod lib h m request s = (h.Put request s, [.method (ascii "PUT") request])) ∧
    (lib.toUpper m = ascii "PATCH" →
      dispatchMethod lib h m request s =
        (h.Patch request s, [.method (ascii "PATCH") request])) ∧
    (lib.toUpper m = ascii "DELETE" →
      dispatchMethod lib h m request s =
        (h.Delete request s, [.method (ascii "DELETE") request])) ∧
    (lib.toUpper m = ascii "OPTIONS" →
      dispatchMethod lib h m request s =
        (h.Options request s, [.method (ascii "OPTIONS") request])) ∧
    (lib.toUpper m ≠ ascii "HEAD" ∧ lib.toUpper m ≠ ascii "GET" ∧
        lib.toUpper m ≠ ascii "POST" ∧ lib.toUpper m ≠ ascii "PUT" ∧
        lib.toUpper m ≠ ascii "PATCH" ∧ lib.toUpper m ≠ ascii "DELETE" ∧
        lib.toUpper m ≠ ascii "OPTIONS" →
      dispatchMethod lib h m request s =
        (h.ErrorHandler (ascii "Unsupported HTTP Method") s,
          [.errorHandler (ascii "Unsupported HTTP Method")]) ∧
      (dispatchMethod lib h m request s).2.filter isMethod = []) ∧
    (∀ m', lib.toUpper m' = lib.toUpper m →
      dispatchMethod lib h m' request s = dispatchMethod lib h m request s) ∧
    (exampleLib.toUpper (ascii "get") = ascii "GET" ∧
      exampleLib.toUpper (ascii "GET") = ascii "GET") ∧
    (∀ (r : Request) (params : Values) (s0 s1 s2 s4 : σ) (resp : HttpResponse)
        (evs : List Event),
      env.runMixinPrepare h s0 = .ret () s1 →
      env.runMiddlewarePreprocess (NewHttpRequest r params) s1 = .ret none s2 →
      h.Prepare (NewHttpRequest r params) s2 = .ret none s →
      dispatchMethod lib h r.Method (NewHttpRequest r params) s = (.ret resp s4, evs) →
      runBody lib env h r params s0 =
        postPhase env (NewHttpRequest r params) resp s4
          ([.mixinPrepare, .preprocess (NewHttpRequest r params),
            .prepare (NewHttpRequest r params)] ++ evs)
          (some (NewHttpRequest r params, NewHttpResponse0 lib)) false) := by
  have n1 : ascii "GET" ≠ ascii "HEAD" := by decide
  have n2 : ascii "POST" ≠ ascii "HEAD" := by decide
  have n3 : ascii "POST" ≠ ascii "GET" := by decide
  have n4 : ascii "PUT" ≠ ascii "HEAD" := by decide
  have n5 : ascii "PUT" ≠ ascii "GET" := by decide
  have n6 : ascii "PUT" ≠ ascii "POST" := by decide
  have n7 : ascii "PATCH" ≠ ascii "HEAD" := by decide
  have n8 : ascii "PATCH" ≠ ascii "GET" := by decide
  have n9 : ascii "PATCH" ≠ ascii "POST" := by decide
  have n10 : ascii "PATCH" ≠ ascii "PUT" := by decide
  have n11 : ascii "DELETE" ≠ ascii "HEAD" := by decide
  have n12 : ascii "DELETE" ≠ ascii "GET" := by decide
  have n13 : ascii "DELETE" ≠ ascii "POST" := by decide
  have n14 : ascii "DELETE" ≠ ascii "PUT" := by decide
  have n15 : ascii "DELETE" ≠ ascii "PATCH" := by decide
  have n16 : ascii "OPTIONS" ≠ ascii "HEAD" := by decide
  have n17 : ascii "OPTIONS" ≠ ascii "GET" := by decide
  have n18 : ascii "OPTIONS" ≠ ascii "POST" := by decide
  have n19 : ascii "OPTIONS" ≠ ascii "PUT" := by decide
  have n20 : ascii "OPTIONS" ≠ ascii "PATCH" := by decide
  have n21 : ascii "OPTIONS" ≠ ascii "DELETE" := by decide
  refine ⟨?_, ?_, ?_, ?_, ?_, ?_, ?_, ?_, ⟨by decide, by decide⟩, ?_⟩
  · intro hm
    unfold dispatchMethod
    simp only [hm, if_neg n1, if_true]
  · intro hm
    unfold dispatchMethod
    simp only [hm, if_neg n2, if_neg n3, if_true]
  · intro hm
    unfold dispatchMethod
    simp only [hm, if_neg n4, if_neg n5, if_neg n6, if_true]
  · intro hm
    unfold dispatchMethod
    simp only [hm, if_neg n7, if_neg n8, if_neg n9, if_neg n10, if_true]
  · intro hm
    unfold dispatchMethod
    simp only [hm, if_neg n11, if_neg n12, if_neg n13, if_neg n14, if_neg n15, if_true]
  · intro hm
    unfold dispatchMethod
    simp only [hm, if_neg n16, if_neg n17, if_neg n18, if_neg n19, if_neg n20, if_neg n21,
      if_true]
  · rintro ⟨h1, h2, h3, h4, h5, h6, h7⟩
    have hd : dispatchMethod lib h m request s =
        (h.ErrorHandler (ascii "Unsupported HTTP Method") s,
          [.errorHandler (ascii "Unsupported HTTP Method")]) := by
      unfold dispatchMethod
      simp only [if_neg h1, if_neg h2, if_neg h3, if_neg h4, if_neg h5, if_neg h6, if_neg h7]
    exact ⟨hd, by rw [hd]; rfl⟩
  · intro m' hm'
    unfold dispatchMethod
    simp only [hm']
  · intro r params s0 s1 s2 s4 resp evs hmix hpre hprep hdisp
    exact runBody_dispatch_ret lib env h r params s0 s1 s2 s s4 resp evs hmix hpre hprep hdisp

theorem C12_method_dispatch_witness :
    dispatchMethod exampleLib (helloHandler Unit exampleLib) (ascii "get")
        (NewHttpRequest (mkRequest (ascii "get") (ascii "/") [] []) []) () =
      ((helloHandler Unit exampleLib).Get
          (NewHttpRequest (mkRequest (ascii "get") (ascii "/") [] []) []) (),
        [.method (ascii "GET") (NewHttpRequest (mkRequest (ascii "get") (ascii "/") [] []) [])]) :=
  (C12_method_dispatch exampleLib (idleEnv Unit) (helloHandler Unit exampleLib) (ascii "get")
    (NewHttpRequest (mkRequest (ascii "get") (ascii "/") [] []) []) ()).1 (by decide)

/-! ## C13: early exit on pre-processing -/

theorem runBody_preprocessed {σ : Type} (lib : Lib) (env : Env σ) (h : HandlerInterface σ)
    (r : Request) (params : Values) (s0 s1 s2 : σ) (R : HttpResponse)
    (hmix : env.runMixinPrepare h s0 = .ret () s1)
    (hpre : env.runMiddlewarePreprocess (NewHttpRequest r params) s1 = .ret (some R) s2) :
    runBody lib env h r params s0 =
      postPhase env (NewHttpRequest r params) R s2
        [.mixinPrepare, .preprocess (NewHttpRequest r params)] none false := by
  unfold runBody
  simp only [hmix, hpre]

/-- C13, as stated, fails on the code: with an installation whose pre-processing answers
403 and whose post-processing panics, `processRequest` hands the 403 response to
post-processing, and what it returns is not that response but the 500 response of
`ErrorHandler`, applied to the description of the panic of post-processing. -/
theorem C13_preprocess_early_exit_counterexample :
    (gateBrokenPostEnv Unit exampleLib).runMiddlewarePreprocess
        (NewHttpRequest (mkRequest (ascii "GET") (ascii "/") [] []) []) () =
      .ret (some ⟨ascii "Forbidden", 403, ascii "text/plain", []⟩) () ∧
    (processRequest exampleLib (gateBrokenPostEnv Unit exampleLib)
        ⟨ascii "/", helloHandler Unit exampleLib, false⟩
        (mkRequest (ascii "GET") (ascii "/") [] []) [] ()).trace =
      [.mixinPrepare,
       .preprocess (NewHttpRequest (mkRequest (ascii "GET") (ascii "/") [] []) []),
       .postprocess (NewHttpRequest (mkRequest (ascii "GET") (ascii "/") [] []) [])
         ⟨ascii "Forbidden", 403, ascii "text/plain", []⟩,
       .mixinFinish,
       .logError (ascii "\"post\""),
       .errorHandler (ascii "\"post\"")] ∧
    (processRequest exampleLib (gateBrokenPostEnv Unit exampleLib)
        ⟨ascii "/", helloHandler Unit exampleLib, false⟩
        (mkRequest (ascii "GET") (ascii "/") [] []) [] ()).result =
      .ret ⟨ascii "Internal Server Error", 500, ascii "text/plain", []⟩ () := by
  refine ⟨?_, ?_, ?_⟩ <;> decide

/-- C13, amended: early exit on pre-processing. When `runMiddlewarePreprocess` yields a
response `R`, `processRequest` calls neither `Prepare` nor a method handler (nor
`Finish`, which is not registered); its third call is post-processing, with the request
and `R`, and post-processing is not called again. When post-processing and
`runMixinFinish` return, `processRequest` returns `R` as post-processing left it, which
is `R` itself when post-processing leaves it alone. When post-processing panics and
`runMixinFinish` returns, `processRequest` ends as the handler's `ErrorHandler` ends on
the description of that panic; when `runMixinFinish` panics, as `ErrorHandler` ends on
the description of the panic of `runMixinFinish`. -/
theorem C13_preprocess_early_exit {σ : Type} (lib : Lib) (env : Env σ) (ph : patHandler σ)
    (r : Request) (params : Values) (s0 s1 s2 : σ) (R : HttpResponse)
    (hmix : env.runMixinPrepare ph.New s0 = .ret () s1)
    (hpre : env.runMiddlewarePreprocess (NewHttpRequest r params) s1 = .ret (some R) s2) :
    ((processRequest lib env ph r params s0).trace.filter isPrepare = [] ∧
      (processRequest lib env ph r params s0).trace.filter isMethod = [] ∧
      (processRequest lib env ph r params s0).trace.filter isFinish = []) ∧
    (∃ rest, (processRequest lib env ph r params s0).trace =
        [.mixinPrepare, .preprocess (NewHttpRequest r params),
          .postprocess (NewHttpRequest r params) R] ++ rest ∧
      rest.filter isPostprocess = []) ∧
    (∀ s3 s4,
      (env.runMiddlewarePostprocess (NewHttpRequest r params) R s2).2 = .ret () s3 →
      env.runMixinFinish ph.New s3 = .ret () s4 →
      (processRequest lib env ph r params s0).result =
        .ret (env.runMiddlewarePostprocess (NewHttpRequest r params) R s2).1 s4) ∧
    (∀ s3 s4,
      env.runMiddlewarePostprocess (NewHttpRequest r params) R s2 = (R, .ret () s3) →
      env.runMixinFinish ph.New s3 = .ret () s4 →
      (processRequest lib env ph r params s0).result = .ret R s4) ∧
    (∀ final v s3 s4,
      env.runMiddlewarePostprocess (NewHttpRequest r params) R s2 = (final, .fault v s3) →
      env.runMixinFinish ph.New s3 = .ret () s4 →
      (processRequest lib env ph r params s0).result =
        ph.New.ErrorHandler (lib.describe v) s4) ∧
    (∀ final o s3 v s4,
      env.runMiddlewarePostprocess (NewHttpRequest r params) R s2 = (final, o) →
      (o = .ret () s3 ∨ ∃ v0, o = .fault v0 s3) →
      env.runMixinFinish ph.New s3 = .fault v s4 →
      (processRequest lib env ph r params s0).result =
        ph.New.ErrorHandler (lib.describe v) s4) := by
  have hbody := runBody_preprocessed lib env ph.New r params s0 s1 s2 R hmix hpre
  have hproc : processRequest lib env ph r params s0 =
      runRecover lib ph.New (runDeferredMixinFinish env ph.New (runDeferredFinish ph.New
        (postPhase env (NewHttpRequest r params) R s2
          [.mixinPrepare, .preprocess (NewHttpRequest r params)] none false))) := by
    unfold processRequest
    simp only [hbody]
  obtain ⟨rest, htr, hfin, hpost, hprep, hmeth⟩ := unwind_trace lib env ph.New
    (postPhase env (NewHttpRequest r params) R s2
      [.mixinPrepare, .preprocess (NewHttpRequest r params)] none false)
  rw [postPhase_trace] at htr
  rw [postPhase_finishDeferred] at hfin
  simp only [Bool.false_eq_true, if_false] at hfin
  have hres : ∀ s3 s4,
      (env.runMiddlewarePostprocess (NewHttpRequest r params) R s2).2 = .ret () s3 →
      env.runMixinFinish ph.New s3 = .ret () s4 →
      (processRequest lib env ph r params s0).result =
        .ret (env.runMiddlewarePostprocess (NewHttpRequest r params) R s2).1 s4 := by
    intro s3 s4 hp hm
    rw [hproc]
    simp only [postPhase, hp, runDeferredFinish, runDeferredMixinFinish, hm, runRecover,
      if_true, Bool.false_eq_true, if_false]
  refine ⟨⟨?_, ?_, ?_⟩, ⟨rest, by rw [hproc, htr]; simp, hpost⟩, ?_, ?_, ?_, ?_⟩
  · rw [hproc, htr, List.filter_append, hprep]
    rfl
  · rw [hproc, htr, List.filter_append, hmeth]
    rfl
  · rw [hproc, htr, List.filter_append, hfin]
    rfl
  · exact hres
  · intro s3 s4 hp hm
    have h2 : (env.runMiddlewarePostprocess (NewHttpRequest r params) R s2).2 = .ret () s3 := by
      rw [hp]
    have h1 : (env.runMiddlewarePostprocess (NewHttpRequest r params) R s2).1 = R := by
      rw [hp]
    rw [hres s3 s4 h2 hm, h1]
  · intro final v s3 s4 hp hm
    rw [hproc]
    simp only [postPhase, hp, runDeferredFinish, runDeferredMixinFinish, hm, runRecover,
      if_true, Bool.false_eq_true, if_false]
  · intro final o s3 v s4 hp ho hm
    rw [hproc]
    rcases ho with ho | ⟨v0, ho⟩
    · subst ho
      simp only [postPhase, hp, runDeferredFinish, runDeferredMixinFinish, hm, runRecover,
        if_true, Bool.false_eq_true, if_false]
    · subst ho
      simp only [postPhase, hp, runDeferredFinish, runDeferredMixinFinish, hm, runRecover,
        if_true, Bool.false_eq_true, if_false]

theorem C13_preprocess_early_exit_witness :
    (processRequest exampleLib (gateEnv Unit exampleLib)
        ⟨ascii "/", helloHandler Unit exampleLib, false⟩
        (mkRequest (ascii "GET") (ascii "/") [] []) [] ()).result =
      .ret (shortHttpReturn exampleLib 403) () ∧
    (processRequest exampleLib (gateBrokenPostEnv Unit exampleLib)
        ⟨ascii "/", helloHandler Unit exampleLib, false⟩
        (mkRequest (ascii "GET") (ascii "/") [] []) [] ()).result =
      (helloHandler Unit exampleLib).ErrorHandler (exampleLib.describe (ascii "post")) () :=
  ⟨(C13_preprocess_early_exit exampleLib (gateEnv Unit exampleLib)
      ⟨ascii "/", helloHandler Unit exampleLib, false⟩
      (mkRequest (ascii "GET") (ascii "/") [] []) [] () () () (shortHttpReturn exampleLib 403)
      rfl rfl).2.2.2.1 () () rfl rfl,
   (C13_preprocess_early_exit exampleLib (gateBrokenPostEnv Unit exampleLib)
      ⟨ascii "/", helloHandler Unit exampleLib, false⟩
      (mkRequest (ascii "GET") (ascii "/") [] []) [] () () () (shortHttpReturn exampleLib 403)
      rfl rfl).2.2.2.2.1 (shortHttpReturn exampleLib 403) (ascii "post") () () rfl rfl⟩

/-! ## C14 and C19: post-processing and the `Finish` hook -/

theorem processRequest_trace {σ : Type} (lib : Lib) (env : Env σ) (ph : patHandler σ)
    (r : Request) (params : Values) (s0 : σ) :
    ∃ rest, (processRequest lib env ph r params s0).trace =
        (runBody lib env ph.New r params s0).trace ++ rest ∧
      rest.filter isFinish =
        (match (runBody lib env ph.New r params s0).finishDeferred with
          | none => []
          | some a => [.finish a.1 a.2]) ∧
      rest.filter isPostprocess = [] ∧ rest.filter isPrepare = [] ∧
      rest.filter isMethod = [] :=
  unwind_trace lib env ph.New (runBody lib env ph.New r params s0)

theorem runBody_prepared {σ : Type} (lib : Lib) (env : Env σ) (h : HandlerInterface σ)
    (r : Request) (params : Values) (s0 s1 s2 s3 : σ) (P : HttpResponse)
    (hmix : env.runMixinPrepare h s0 = .ret () s1)
    (hpre : env.runMiddlewarePreprocess (NewHttpRequest r params) s1 = .ret none s2)
    (hprep : h.Prepare (NewHttpRequest r params) s2 = .ret (some P) s3) :
    runBody lib env h r params s0 =
      postPhase env (NewHttpRequest r params) P s3
        [.mixinPrepare, .preprocess (NewHttpRequest r params),
          .prepare (NewHttpRequest r params)]
        (some (NewHttpRequest r params, P)) true := by
  unfold runBody
  simp only [hmix, hpre, hprep]

/-- The frame in which the body stops when a phase before post-processing panics: no
call of post-processing has been made. -/
theorem runBody_phase_fault {σ : Type} (lib : Lib) (env : Env σ) (h : HandlerInterface σ)
    (r : Request) (params : Values) (s0 : σ) :
    (∀ v s1, env.runMixinPrepare h s0 = .fault v s1 →
      (runBody lib env h r params s0).trace.filter isPostprocess = []) ∧
    (∀ s1 v s2, env.runMixinPrepare h s0 = .ret () s1 →
      env.runMiddlewarePreprocess (NewHttpRequest r params) s1 = .fault v s2 →
      (runBody lib env h r params s0).trace.filter isPostprocess = []) ∧
    (∀ s1 s2 v s3, env.runMixinPrepare h s0 = .ret () s1 →
      env.runMiddlewarePreprocess (NewHttpRequest r params) s1 = .ret none s2 →
      h.Prepare (NewHttpRequest r params) s2 = .fault v s3 →
      (runBody lib env h r params s0).trace.filter isPostprocess = []) ∧
    (∀ s1 s2 s3 v s4 evs, env.runMixinPrepare h s0 = .ret () s1 →
      env.runMiddlewarePreprocess (NewHttpRequest r params) s1 = .ret none s2 →
      h.Prepare (NewHttpRequest r params) s2 = .ret none s3 →
      dispatchMethod lib h r.Method (NewHttpRequest r params) s3 = (.fault v s4, evs) →
      (runBody lib env h r params s0).trace.filter isPostprocess = []) := by
  refine ⟨?_, ?_, ?_, ?_⟩
  · intro v s1 hmix
    unfold runBody
    simp only [hmix]
    rfl
  · intro s1 v s2 hmix hpre
    unfold runBody
    simp only [hmix, hpre]
    rfl
  · intro s1 s2 v s3 hmix hpre hprep
    unfold runBody
    simp only [hmix, hpre, hprep]
    rfl
  · intro s1 s2 s3 v s4 evs hmix hpre hprep hdisp
    rw [runBody_dispatched lib env h r params s0 s1 s2 s3 hmix hpre hprep]
    unfold dispatchPhase
    have hev := (dispatchMethod_events lib h r.Method (NewHttpRequest r params) s3).2.1
    rw [hdisp] at hev
    rw [hdisp]
    simp only [List.filter_append, hev]
    rfl

/-- C14 at the failing input: a `GET` request to a handler whose `Get` panics, in an
installation whose post-processing adds the header `X-Post: 1`. The panic leaves the
body before line 171, so `processRequest` makes no call of post-processing at all, and
the 500 response of `ErrorHandler` is returned without the header, while the deferred
`Finish` and `runMixinFinish` are both called. On the same request a handler whose `Get`
returns has its response handed to post-processing once and returned with the header. -/
theorem C14_postprocess_skipped :
    (processRequest exampleLib (stampPostEnv Unit)
        ⟨ascii "/", boomHandler Unit exampleLib, false⟩
        (mkRequest (ascii "GET") (ascii "/") [] []) [] ()).trace =
      [.mixinPrepare,
       .preprocess (NewHttpRequest (mkRequest (ascii "GET") (ascii "/") [] []) []),
       .prepare (NewHttpRequest (mkRequest (ascii "GET") (ascii "/") [] []) []),
       .method (ascii "GET") (NewHttpRequest (mkRequest (ascii "GET") (ascii "/") [] []) []),
       .finish (NewHttpRequest (mkRequest (ascii "GET") (ascii "/") [] []) [])
         (NewHttpResponse0 exampleLib),
       .mixinFinish,
       .logError (ascii "\"boom\""),
       .errorHandler (ascii "\"boom\"")] ∧
    (processRequest exampleLib (stampPostEnv Unit)
        ⟨ascii "/", boomHandler Unit exampleLib, false⟩
        (mkRequest (ascii "GET") (ascii "/") [] []) [] ()).trace.countP isPostprocess = 0 ∧
    (processRequest exampleLib (stampPostEnv Unit)
        ⟨ascii "/", boomHandler Unit exampleLib, false⟩
        (mkRequest (ascii "GET") (ascii "/") [] []) [] ()).result =
      .ret ⟨ascii "Internal Server Error", 500, ascii "text/plain", []⟩ () ∧
    (processRequest exampleLib (stampPostEnv Unit)
        ⟨ascii "/", helloHandler Unit exampleLib, false⟩
        (mkRequest (ascii "GET") (ascii "/") [] []) [] ()).trace.filter isPostprocess =
      [.postprocess (NewHttpRequest (mkRequest (ascii "GET") (ascii "/") [] []) [])
        ⟨ascii "Hello!", 200, ascii "text/html", []⟩] ∧
    (processRequest exampleLib (stampPostEnv Unit)
        ⟨ascii "/", helloHandler Unit exampleLib, false⟩
        (mkRequest (ascii "GET") (ascii "/") [] []) [] ()).result =
      .ret ⟨ascii "Hello!", 200, ascii "text/html", [(ascii "X-Post", [ascii "1"])]⟩ () := by
  refine ⟨?_, ?_, ?_, ?_, ?_⟩ <;> decide

/-- Post-processing in the executions that reach it: when the phases before it return
without a panic, whichever of them produced the response (pre-processing, `Prepare`, or
the method switch), `runMiddlewarePostprocess` is called exactly once, after those
phases, with the request and the response they produced; when post-processing and the
deferred cleanup return as well, `processRequest` returns that response as
post-processing left it and, where `Prepare` produced it, as `Finish` left it after
that. When mixin preparation, pre-processing, `Prepare` or the dispatched method panics,
the recorded calls hold no call of post-processing. -/
theorem postprocess_when_reached {σ : Type} (lib : Lib) (env : Env σ) (ph : patHandler σ)
    (r : Request) (params : Values) (s0 : σ) :
    (∀ s1 R s2, env.runMixinPrepare ph.New s0 = .ret () s1 →
      env.runMiddlewarePreprocess (NewHttpRequest r params) s1 = .ret (some R) s2 →
      (processRequest lib env ph r params s0).trace.filter isPostprocess =
        [.postprocess (NewHttpRequest r params) R] ∧
      (∃ rest, (processRequest lib env ph r params s0).trace =
        [.mixinPrepare, .preprocess (NewHttpRequest r params)] ++
          [.postprocess (NewHttpRequest r params) R] ++ rest) ∧
      (∀ final s3 s4,
        env.runMiddlewarePostprocess (NewHttpRequest r params) R s2 = (final, .ret () s3) →
        env.runMixinFinish ph.New s3 = .ret () s4 →
        (processRequest lib env ph r params s0).result = .ret final s4)) ∧
    (∀ s1 s2 P s3, env.runMixinPrepare ph.New s0 = .ret () s1 →
      env.runMiddlewarePreprocess (NewHttpRequest r params) s1 = .ret none s2 →
      ph.New.Prepare (NewHttpRequest r params) s2 = .ret (some P) s3 →
      (processRequest lib env ph r params s0).trace.filter isPostprocess =
        [.postprocess (NewHttpRequest r params) P] ∧
      (∃ rest, (processRequest lib env ph r params s0).trace =
        [.mixinPrepare, .preprocess (NewHttpRequest r params),
          .prepare (NewHttpRequest r params)] ++
          [.postprocess (NewHttpRequest r params) P] ++ rest) ∧
      (∀ final s4 left s5 s6,
        env.runMiddlewarePostprocess (NewHttpRequest r params) P s3 = (final, .ret () s4) →
        ph.New.Finish (NewHttpRequest r params) final s4 = (left, .ret () s5) →
        env.runMixinFinish ph.New s5 = .ret () s6 →
        (processRequest lib env ph r params s0).result = .ret left s6)) ∧
    (∀ s1 s2 s3 resp s4 evs, env.runMixinPrepare ph.New s0 = .ret () s1 →
      env.runMiddlewarePreprocess (NewHttpRequest r params) s1 = .ret none s2 →
      ph.New.Prepare (NewHttpRequest r params) s2 = .ret none s3 →
      dispatchMethod lib ph.New r.Method (NewHttpRequest r params) s3 = (.ret resp s4, evs) →
      (processRequest lib env ph r params s0).trace.filter isPostprocess =
        [.postprocess (NewHttpRequest r params) resp] ∧
      (∃ rest, (processRequest lib env ph r params s0).trace =
        ([.mixinPrepare, .preprocess (NewHttpRequest r params),
          .prepare (NewHttpRequest r params)] ++ evs) ++
          [.postprocess (NewHttpRequest r params) resp] ++ rest) ∧
      (∀ final s5 left s6 s7,
        env.runMiddlewarePostprocess (NewHttpRequest r params) resp s4 =
          (final, .ret () s5) →
        ph.New.Finish (NewHttpRequest r params) (NewHttpResponse0 lib) s5 =
          (left, .ret () s6) →
        env.runMixinFinish ph.New s6 = .ret () s7 →
        (processRequest lib env ph r params s0).result = .ret final s7)) ∧
    ((∃ v s1, env.runMixinPrepare ph.New s0 = .fault v s1) ∨
      (∃ s1 v s2, env.runMixinPrepare ph.New s0 = .ret () s1 ∧
        env.runMiddlewarePreprocess (NewHttpRequest r params) s1 = .fault v s2) ∨
      (∃ s1 s2 v s3, env.runMixinPrepare ph.New s0 = .ret () s1 ∧
        env.runMiddlewarePreprocess (NewHttpRequest r params) s1 = .ret none s2 ∧
        ph.New.Prepare (NewHttpRequest r params) s2 = .fault v s3) ∨
      (∃ s1 s2 s3 v s4 evs, env.runMixinPrepare ph.New s0 = .ret () s1 ∧
        env.runMiddlewarePreprocess (NewHttpRequest r params) s1 = .ret none s2 ∧
        ph.New.Prepare (NewHttpRequest r params) s2 = .ret none s3 ∧
        dispatchMethod lib ph.New r.Method (NewHttpRequest r params) s3 =
          (.fault v s4, evs)) →
      (processRequest lib env ph r params s0).trace.filter isPostprocess = []) := by
  obtain ⟨rest, htr, _, hpost, _, _⟩ := processRequest_trace lib env ph r params s0
  refine ⟨?_, ?_, ?_, ?_⟩
  · intro s1 R s2 hmix hpre
    have hbody := runBody_preprocessed lib env ph.New r params s0 s1 s2 R hmix hpre
    rw [hbody, postPhase_trace] at htr
    refine ⟨?_, ⟨rest, htr⟩, ?_⟩
    · rw [htr, List.filter_append, hpost]
      rfl
    · intro final s3 s4 hp hm
      simp only [processRequest, hbody, postPhase, hp, runDeferredFinish,
        runDeferredMixinFinish, hm, runRecover, if_true, Bool.false_eq_true, if_false]
  · intro s1 s2 P s3 hmix hpre hprep
    have hbody := runBody_prepared lib env ph.New r params s0 s1 s2 s3 P hmix hpre hprep
    rw [hbody, postPhase_trace] at htr
    refine ⟨?_, ⟨rest, htr⟩, ?_⟩
    · rw [htr, List.filter_append, hpost]
      rfl
    · intro final s4 left s5 s6 hp hf hm
      simp only [processRequest, hbody, postPhase, hp, if_true, Option.map_some',
        runDeferredFinish, hf, runDeferredMixinFinish, hm, runRecover]
  · intro s1 s2 s3 resp s4 evs hmix hpre hprep hdisp
    have hbody := runBody_dispatch_ret lib env ph.New r params s0 s1 s2 s3 s4 resp evs hmix
      hpre hprep hdisp
    have hev := (dispatchMethod_events lib ph.New r.Method (NewHttpRequest r params) s3).2.1
    rw [hdisp] at hev
    rw [hbody, postPhase_trace] at htr
    refine ⟨?_, ⟨rest, htr⟩, ?_⟩
    · rw [htr, List.filter_append, List.filter_append, List.filter_append, hpost]
      simp only at hev
      rw [hev]
      rfl
    · intro final s5 left s6 s7 hp hf hm
      simp only [processRequest, hbody, postPhase, hp, Bool.false_eq_true, if_false,
        runDeferredFinish, hf, runDeferredMixinFinish, hm, runRecover, if_true]
  · intro hfault
    obtain ⟨h1, h2, h3, h4⟩ := runBody_phase_fault lib env ph.New r params s0
    have hb : (runBody lib env ph.New r params s0).trace.filter isPostprocess = [] := by
      rcases hfault with ⟨v, s1, hmix⟩ | ⟨s1, v, s2, hmix, hpre⟩ |
        ⟨s1, s2, v, s3, hmix, hpre, hprep⟩ | ⟨s1, s2, s3, v, s4, evs, hmix, hpre, hprep, hd⟩
      · exact h1 v s1 hmix
      · exact h2 s1 v s2 hmix hpre
      · exact h3 s1 s2 v s3 hmix hpre hprep
      · exact h4 s1 s2 s3 v s4 evs hmix hpre hprep hd
    rw [htr, List.filter_append, hb, hpost]
    rfl

theorem dispatchPhase_finish {σ : Type} (lib : Lib) (env : Env σ) (h : HandlerInterface σ)
    (r : Request) (request : HttpRequest) (response0 : HttpResponse) (s : σ)
    (trace : List Event) :
    (dispatchPhase lib env h r request response0 s trace).finishDeferred =
      some (request, response0) ∧
    (dispatchPhase lib env h r request response0 s trace).trace.filter isFinish =
      trace.filter isFinish := by
  have hev := (dispatchMethod_events lib h r.Method request s).1
  unfold dispatchPhase
  cases hd : dispatchMethod lib h r.Method request s with
  | mk out evs =>
    rw [hd] at hev
    simp only at hev
    cases out with
    | fault v s1 =>
      simp only [List.filter_append, hev, List.append_nil, and_self]
    | ret response s1 =>
      simp only [postPhase_finishDeferred, postPhase_trace, Bool.false_eq_true, if_false,
        List.filter_append, hev, List.append_nil, true_and]
      have hpp : List.filter isFinish [Event.postprocess request response] = [] := rfl
      rw [hpp, List.append_nil]

/-- C19, as stated, fails on the code: when `Prepare` produces the response, the
response registered for `Finish` is the response `processRequest` goes on to return.
With a handler whose `Prepare` answers 403, `Finish` is called with that 403 response
and `processRequest` returns it; when the `Finish` of such a handler writes a new body
into the response it is given, the response `processRequest` returns has that body. -/
theorem C19_finish_argument_counterexample :
    (processRequest exampleLib (idleEnv Unit) ⟨ascii "/", prepHandler Unit exampleLib, false⟩
        (mkRequest (ascii "GET") (ascii "/") [] []) [] ()).trace =
      [.mixinPrepare,
       .preprocess (NewHttpRequest (mkRequest (ascii "GET") (ascii "/") [] []) []),
       .prepare (NewHttpRequest (mkRequest (ascii "GET") (ascii "/") [] []) []),
       .postprocess (NewHttpRequest (mkRequest (ascii "GET") (ascii "/") [] []) [])
         ⟨ascii "Forbidden", 403, ascii "text/plain", []⟩,
       .finish (NewHttpRequest (mkRequest (ascii "GET") (ascii "/") [] []) [])
         ⟨ascii "Forbidden", 403, ascii "text/plain", []⟩,
       .mixinFinish] ∧
    (processRequest exampleLib (idleEnv Unit) ⟨ascii "/", prepHandler Unit exampleLib, false⟩
        (mkRequest (ascii "GET") (ascii "/") [] []) [] ()).result =
      .ret ⟨ascii "Forbidden", 403, ascii "text/plain", []⟩ () ∧
    (processRequest exampleLib (idleEnv Unit) ⟨ascii "/", stampHandler Unit exampleLib, false⟩
        (mkRequest (ascii "GET") (ascii "/") [] []) [] ()).trace.filter isFinish =
      [.finish (NewHttpRequest (mkRequest (ascii "GET") (ascii "/") [] []) [])
         ⟨ascii "Forbidden", 403, ascii "text/plain", []⟩] ∧
    (processRequest exampleLib (idleEnv Unit) ⟨ascii "/", stampHandler Unit exampleLib, false⟩
        (mkRequest (ascii "GET") (ascii "/") [] []) [] ()).result =
      .ret ⟨ascii "stamped", 403, ascii "text/plain", []⟩ () := by
  refine ⟨?_, ?_, ?_, ?_⟩ <;> decide

/-- C19, amended: whenever `processRequest` registers `handler.Finish`, `Finish` is
called exactly once, with the response registered. When `Prepare` produced none, that is
the fresh default response, whatever the dispatched method, `ErrorHandler` or
post-processing return, and it is not the response `processRequest` returns: when the
switch, post-processing, `Finish` and `runMixinFinish` return, `processRequest` returns
the response of the switch as post-processing left it, whatever `Finish` left in the
default response. When `Prepare` produced a response, `Finish` receives that response as
post-processing left it, and it is the response `processRequest` returns when
post-processing, `Finish` and `runMixinFinish` return: the response returned is what
`Finish` left in it. When `Prepare` panics, `Finish` is not registered and not
called. -/
theorem C19_finish_argument {σ : Type} (lib : Lib) (env : Env σ) (ph : patHandler σ)
    (r : Request) (params : Values) (s0 s1 s2 : σ)
    (hmix : env.runMixinPrepare ph.New s0 = .ret () s1)
    (hpre : env.runMiddlewarePreprocess (NewHttpRequest r params) s1 = .ret none s2) :
    (∀ s3, ph.New.Prepare (NewHttpRequest r params) s2 = .ret none s3 →
      (processRequest lib env ph r params s0).trace.filter isFinish =
        [.finish (NewHttpRequest r params) (NewHttpResponse0 lib)] ∧
      (∀ resp s4 evs final s5 left s6 s7,
        dispatchMethod lib ph.New r.Method (NewHttpRequest r params) s3 =
          (.ret resp s4, evs) →
        env.runMiddlewarePostprocess (NewHttpRequest r params) resp s4 =
          (final, .ret () s5) →
        ph.New.Finish (NewHttpRequest r params) (NewHttpResponse0 lib) s5 =
          (left, .ret () s6) →
        env.runMixinFinish ph.New s6 = .ret () s7 →
        (processRequest lib env ph r params s0).result = .ret final s7)) ∧
    (∀ P s3, ph.New.Prepare (NewHttpRequest r params) s2 = .ret (some P) s3 →
      (processRequest lib env ph r params s0).trace.filter isFinish =
        [.finish (NewHttpRequest r params)
          (env.runMiddlewarePostprocess (NewHttpRequest r params) P s3).1] ∧
      (∀ final s4 left s5 s6,
        env.runMiddlewarePostprocess (NewHttpRequest r params) P s3 = (final, .ret () s4) →
        ph.New.Finish (NewHttpRequest r params) final s4 = (left, .ret () s5) →
        env.runMixinFinish ph.New s5 = .ret () s6 →
        (processRequest lib env ph r params s0).trace.filter isFinish =
          [.finish (NewHttpRequest r params) final] ∧
        (processRequest lib env ph r params s0).result = .ret left s6)) ∧
    (∀ v s3, ph.New.Prepare (NewHttpRequest r params) s2 = .fault v s3 →
      (processRequest lib env ph r params s0).trace.filter isFinish = []) := by
  obtain ⟨rest, htr, hfin, _, _, _⟩ := processRequest_trace lib env ph r params s0
  refine ⟨?_, ?_, ?_⟩
  · intro s3 hprep
    have hbody := runBody_dispatched lib env ph.New r params s0 s1 s2 s3 hmix hpre hprep
    obtain ⟨hfd, hft⟩ := dispatchPhase_finish lib env ph.New r (NewHttpRequest r params)
      (NewHttpResponse0 lib) s3
      [.mixinPrepare, .preprocess (NewHttpRequest r params),
        .prepare (NewHttpRequest r params)]
    refine ⟨?_, ?_⟩
    · rw [hbody, hfd] at hfin
      rw [htr, List.filter_append, hfin, hbody, hft]
      rfl
    · intro resp s4 evs final s5 left s6 s7 hdisp hp hf hm
      have hbody2 := runBody_dispatch_ret lib env ph.New r params s0 s1 s2 s3 s4 resp evs
        hmix hpre hprep hdisp
      simp only [processRequest, hbody2, postPhase, hp, Bool.false_eq_true, if_false,
        runDeferredFinish, hf, runDeferredMixinFinish, hm, runRecover, if_true]
  · intro P s3 hprep
    have hbody := runBody_prepared lib env ph.New r params s0 s1 s2 s3 P hmix hpre hprep
    have hfilter : (processRequest lib env ph r params s0).trace.filter isFinish =
        [.finish (NewHttpRequest r params)
          (env.runMiddlewarePostprocess (NewHttpRequest r params) P s3).1] := by
      rw [hbody, postPhase_finishDeferred] at hfin
      simp only [if_true, Option.map_some'] at hfin
      rw [htr, List.filter_append, hfin, hbody, postPhase_trace]
      rfl
    refine ⟨hfilter, ?_⟩
    intro final s4 left s5 s6 hp hf hm
    refine ⟨by rw [hfilter, hp], ?_⟩
    simp only [processRequest, hbody, postPhase, hp, if_true, Option.map_some',
      runDeferredFinish, hf, runDeferredMixinFinish, hm, runRecover]
  · intro v s3 hprep
    have hbody : runBody lib env ph.New r params s0 =
        ⟨s3, [.mixinPrepare, .preprocess (NewHttpRequest r params),
              .prepare (NewHttpRequest r params)],
          NewHttpResponse0 lib, some v, true, none, false⟩ := by
      unfold runBody
      simp only [hmix, hpre, hprep]
    rw [hbody] at hfin
    rw [htr, List.filter_append, hfin, hbody]
    rfl

theorem C19_finish_argument_witness :
    (processRequest exampleLib (idleEnv Unit) ⟨ascii "/", helloHandler Unit exampleLib, false⟩
        (mkRequest (ascii "GET") (ascii "/") [] []) [] ()).trace.filter isFinish =
      [.finish (NewHttpRequest (mkRequest (ascii "GET") (ascii "/") [] []) [])
        (NewHttpResponse0 exampleLib)] ∧
    (processRequest exampleLib (idleEnv Unit) ⟨ascii "/", stampHandler Unit exampleLib, false⟩
        (mkRequest (ascii "GET") (ascii "/") [] []) [] ()).result =
      .ret ⟨ascii "stamped", 403, ascii "text/plain", []⟩ () :=
  ⟨((C19_finish_argument exampleLib (idleEnv Unit)
      ⟨ascii "/", helloHandler Unit exampleLib, false⟩
      (mkRequest (ascii "GET") (ascii "/") [] []) [] () () () rfl rfl).1 () rfl).1,
   (((C19_finish_argument exampleLib (idleEnv Unit)
      ⟨ascii "/", stampHandler Unit exampleLib, false⟩
      (mkRequest (ascii "GET") (ascii "/") [] []) [] () () () rfl rfl).2.1
        (shortHttpReturn exampleLib 403) () rfl).2
      (shortHttpReturn exampleLib 403) () ⟨ascii "stamped", 403, ascii "text/plain", []⟩ () ()
      rfl rfl rfl).2⟩

end Tango
